import Mathlib

/-!
Reddit-clone: the post aggregate and its rating engine.

A shallow embedding of `internals/storage/post_storage.go`, `internals/storage/types.go`
and of the handlers of `internals/handlers/posts.go` that drive them, followed by the
properties of the rating, comment and creation paths.

Conventions of the embedding:

* a Go `int` is an `Int` kept in the 64-bit two's complement range by `wrapInt` after
  every arithmetic operation;
* a finite `float64` is the rational number it denotes, and every floating-point operation is
  the exact operation followed by `roundF64` (IEEE 754 round to nearest, ties to even);
* the MongoDB collection is the list of the `Post` values its documents decode to, every
  document carrying its `_id` in `Post.ID`; values supplied by the environment (generated
  object ids, the clock, driver failures) are explicit inputs;
* a post handed to `ReplaceOne` is marshalled by the driver first, which fails for a post with
  a comment id (`marshals`), so that `Rate` and `Unrate` write posts without comments only.
-/

set_option linter.dupNamespace false

namespace RedditClone

/-! ## Go machine arithmetic -/

/-- Two's complement reduction of an integer to the range of a 64-bit Go `int`. -/
def wrapInt (x : Int) : Int := (x + 2 ^ 63) % 2 ^ 64 - 2 ^ 63

/-- Go `a + b` on `int`. -/
def addInt (a b : Int) : Int := wrapInt (a + b)

/-- Go `a - b` on `int`. -/
def subInt (a b : Int) : Int := wrapInt (a - b)

/-- Go `a * b` on `int`. -/
def mulInt (a b : Int) : Int := wrapInt (a * b)

/-- Rounding of a real (here: rational) number to the nearest `float64`, ties to the even
significand: the unit in the last place of `q` is `2 ^ (⌊log₂ |q|⌋ - 52)`, and `|q|` is rounded
to a multiple of it. Overflow to an infinity (`|q| ≥ 2 ^ 1024`) and gradual underflow
(`|q| < 2 ^ (-1022)`) are outside the model: every value the rating code feeds to it is `0` or
has a magnitude between `2 ^ (-63)` and `2 ^ 70`. -/
def roundF64 (q : ℚ) : ℚ :=
  if q = 0 then 0
  else
    let u : ℚ := (2 : ℚ) ^ (Int.log 2 |q| - 52)
    let t : ℚ := |q| / u
    let n : ℤ := ⌊t⌋
    let m : ℤ :=
      if t - n < 1 / 2 then n
      else if 1 / 2 < t - n then n + 1
      else if n % 2 = 0 then n else n + 1
    (if q < 0 then -1 else 1) * (m : ℚ) * u

/-- Go `float64(i)` for an `int` `i`. -/
def f64OfInt (i : Int) : ℚ := roundF64 (i : ℚ)

/-- Go `a / b` on `float64`. The code divides by `float64(len(post.Votes))` only where the
length is positive, so the NaN and infinity of a zero divisor are outside the model. -/
def f64Div (a b : ℚ) : ℚ := roundF64 (a / b)

/-- Go `a * b` on `float64`. -/
def f64Mul (a b : ℚ) : ℚ := roundF64 (a * b)

/-- Go `int(x)` for a `float64` `x`: the fraction is discarded (truncation towards zero). A
value that does not fit an `int` gives an implementation-dependent result; the one modelled is
that of amd64, the smallest `int`. -/
def f64ToInt (x : ℚ) : Int :=
  let t : Int := if 0 ≤ x then ⌊x⌋ else ⌈x⌉
  if -(2 ^ 63) ≤ t ∧ t < 2 ^ 63 then t else -(2 ^ 63)

/-! ## Data model (`types.go`) -/

/-- Go `[]byte`; `nil` is the empty list. -/
abbrev IDtype := List Nat

structure User where
  Username : String
  UserID : String
  deriving DecidableEq, Repr

structure NewPost where
  Category : String
  Type_ : String
  URL : String
  Title : String
  Text : String
  deriving DecidableEq, Repr

structure Author where
  Username : String
  ID : String
  deriving DecidableEq, Repr

structure Comment where
  Created : String
  Author : Author
  Body : String
  ID : IDtype
  deriving DecidableEq, Repr

structure Vote where
  ID : String
  Vote : Int
  deriving DecidableEq, Repr

structure Post where
  Score : Int
  Views : Int
  Type_ : String
  Title : String
  URL : String
  Author : Author
  Category : String
  Text : String
  Votes : List Vote
  Comments : List Comment
  Created : String
  UpvotePercentage : Int
  ID : IDtype
  deriving DecidableEq, Repr

/-! ## The rating computations of `Rate` and `Unrate` -/

/-- The expression
`int(float64(post.Score*len(post.Votes)) / float64(len(post.Votes)) * .5 * 100)`
of `post_storage.go` lines 279 and 309, for `score = post.Score` and `n = len(post.Votes)`. -/
def upvotePercentage (score : Int) (n : Nat) : Int :=
  f64ToInt (f64Mul (f64Mul (f64Div (f64OfInt (mulInt score (n : Int))) (f64OfInt (n : Int)))
    (1 / 2)) 100)

/-- The loop of `Rate` (lines 267-274) from index `i` on, `rest` being `post.Votes[i:]`: on the
first entry of the user the score and the entry are updated and the loop is left. The flag is
`voteExist`. -/
def rateScan (userID : String) (rating : Int) (post : Post) : Nat → List Vote → Post × Bool
  | _, [] => (post, false)
  | i, v :: rest =>
    if v.ID = userID then
      ({ post with
          Score := addInt post.Score (subInt rating v.Vote)
          Votes := post.Votes.set i { v with Vote := rating } }, true)
    else rateScan userID rating post (i + 1) rest

/-- The document `Rate` computes from the document it read (lines 265-279) and hands to
`ReplaceOne`. -/
def rateDoc (post : Post) (rating : Int) (user : User) : Post :=
  let post := { post with ID := [] }
  let (post, voteExist) := rateScan user.UserID rating post 0 post.Votes
  let post :=
    if !voteExist then
      { post with
          Score := addInt post.Score rating
          Votes := post.Votes ++ [⟨user.UserID, rating⟩] }
    else post
  { post with UpvotePercentage := upvotePercentage post.Score post.Votes.length }

/-- The loop of `Unrate` (lines 300-313) from index `i` on, `rest` being `post.Votes[i:]`. -/
def unrateScan (userID : String) (post : Post) : Nat → List Vote → Post
  | _, [] => post
  | i, v :: rest =>
    if v.ID = userID then
      let score := subInt post.Score v.Vote
      let votes :=
        if i + 1 < post.Votes.length then post.Votes.take i ++ post.Votes.drop (i + 1)
        else post.Votes.take i
      let up :=
        if votes.length > 0 then upvotePercentage score votes.length
        else post.UpvotePercentage
      { post with Score := score, Votes := votes, UpvotePercentage := up }
    else unrateScan userID post (i + 1) rest

/-- The document `Unrate` computes from the document it read (lines 298-313) and hands to
`ReplaceOne`. -/
def unrateDoc (post : Post) (user : User) : Post :=
  let post := { post with ID := [] }
  unrateScan user.UserID post 0 post.Votes

/-- The sum of the vote values of a votes list, accumulated in Go `int` arithmetic. -/
def sumVotes (votes : List Vote) : Int :=
  votes.foldl (fun acc v => addInt acc v.Vote) 0

/-! ## Object identifiers -/

/-- Value of one hexadecimal digit, as `encoding/hex` reads it (both letter cases). -/
def fromHexChar (c : Char) : Option Nat :=
  if 48 ≤ c.toNat ∧ c.toNat ≤ 57 then some (c.toNat - 48)
  else if 97 ≤ c.toNat ∧ c.toNat ≤ 102 then some (c.toNat - 87)
  else if 65 ≤ c.toNat ∧ c.toNat ≤ 70 then some (c.toNat - 55)
  else none

/-- Go `hex.DecodeString`: two digits per byte; `none` stands for its error. -/
def hexDecode : List Char → Option (List Nat)
  | [] => some []
  | [_] => none
  | a :: b :: rest =>
    match fromHexChar a, fromHexChar b, hexDecode rest with
    | some x, some y, some bytes => some ((16 * x + y) :: bytes)
    | _, _, _ => none

/-- The digit of `hex.EncodeToString` for a value below 16. -/
def hexChar (n : Nat) : Char :=
  if n < 10 then Char.ofNat (48 + n) else Char.ofNat (87 + n)

/-- Go `hex.EncodeToString`. -/
def hexEncode (bytes : List Nat) : String :=
  String.mk (bytes.flatMap fun b => [hexChar (b / 16), hexChar (b % 16)])

/-- The driver's `primitive.ObjectIDFromHex`: the string must be 24 bytes long and decode as
hexadecimal; `none` stands for its error. -/
def ObjectIDFromHex (s : String) : Option IDtype :=
  if s.utf8ByteSize ≠ 24 then none else hexDecode s.toList

/-! ## The document store -/

deriving instance DecidableEq for Except

/-- The errors the storage layer returns. -/
inductive StorageError where
  /-- The error of `primitive.ObjectIDFromHex`. -/
  | invalidHex
  /-- The driver's `mongo.ErrNoDocuments`. -/
  | noDocuments
  /-- Every other error a driver call returns (transport failure, cancelled context,
  a write the server rejects). -/
  | driver
  /-- The text `mongo: cannot make comment`. -/
  | cannotMakeComment
  /-- The text `cannot get raw postID of new post`. -/
  | cannotGetRawID
  /-- The text `cannot delete comment`. -/
  | cannotDeleteComment
  /-- The text `cannot delete post`. -/
  | cannotDeletePost
  /-- The text `cannot replace post`. -/
  | cannotReplacePost
  /-- The driver's error for a replacement document it cannot marshal. -/
  | cannotMarshal
  deriving DecidableEq, Repr

/-- The `posts` collection together with what the environment decides about the driver:
`faults` is the schedule of the coming driver calls (`true`: the call fails before it reaches
the data; an exhausted schedule means no failure) and `calls` counts the calls issued. -/
structure Mongo where
  docs : List Post
  faults : List Bool
  calls : Nat
  deriving DecidableEq, Repr

/-- One round trip to the server: whether it fails, and the state after it. -/
def Mongo.call (db : Mongo) : Bool × Mongo :=
  (db.faults.headD false, { db with faults := db.faults.tail, calls := db.calls + 1 })

/-- The result counters of an update (`MatchedCount`, `ModifiedCount`) or of a delete, where
`DeletedCount` is held in `MatchedCount`. -/
structure UpdateResult where
  MatchedCount : Nat
  ModifiedCount : Nat
  deriving DecidableEq, Repr

/-- Server side of `FindOne` with the filter `{"_id": id}`. -/
def findOne (docs : List Post) (id : IDtype) : Option Post :=
  docs.find? fun d => d.ID = id

/-- Server side of `ReplaceOne` with the filter `{"_id": id}`: the matched document takes the
fields of the replacement and keeps its `_id` (the replacement is sent without one); it counts
as modified when it differs from the stored one. -/
def replaceOne : List Post → IDtype → Post → List Post × UpdateResult
  | [], _, _ => ([], ⟨0, 0⟩)
  | d :: ds, id, repl =>
    if d.ID = id then
      let stored := { repl with ID := id }
      (stored :: ds, ⟨1, if stored = d then 0 else 1⟩)
    else
      let (ds', res) := replaceOne ds id repl
      (d :: ds', res)

/-- Whether the driver can marshal the post that `Rate` and `Unrate` hand to `ReplaceOne`
(`*post`, of which only the own `_id` was cleared). The elements of `Comments` are addressable,
so the id of a comment is marshalled by `IDtype.MarshalBSON` (`types.go` lines 28-36), which
returns the twelve value bytes of the object id where the driver expects a document (for an
id of another length it returns the error of `primitive.ObjectIDFromHex`). The bytes of an id
made by `primitive.NewObjectID` begin with the time in seconds and are not a document: the
replacement is invalid and the driver returns an error before anything is sent. Only a comment
whose id is empty is marshalled, the id being left out (`omitempty`). -/
def marshals (post : Post) : Bool :=
  post.Comments.all fun c => decide (c.ID = [])

/-- Server side of `UpdateByID` with `{"$push": {"comments": comment}}`. -/
def pushComment : List Post → IDtype → Comment → List Post × UpdateResult
  | [], _, _ => ([], ⟨0, 0⟩)
  | d :: ds, id, c =>
    if d.ID = id then ({ d with Comments := d.Comments ++ [c] } :: ds, ⟨1, 1⟩)
    else
      let (ds', res) := pushComment ds id c
      (d :: ds', res)

/-- Server side of `UpdateOne` with the filter `{"_id": id}` and
`{"$pull": {"comments": {"_id": {"$in": [commentID]}}}}`: every comment with that id is
removed, and the document counts as modified when one was. -/
def pullComment : List Post → IDtype → IDtype → List Post × UpdateResult
  | [], _, _ => ([], ⟨0, 0⟩)
  | d :: ds, id, commentID =>
    if d.ID = id then
      let kept := d.Comments.filter fun c => !decide (c.ID = commentID)
      ({ d with Comments := kept } :: ds, ⟨1, if kept = d.Comments then 0 else 1⟩)
    else
      let (ds', res) := pullComment ds id commentID
      (d :: ds', res)

/-- Server side of `DeleteOne` with the filter `{"_id": id}`. -/
def deleteOne : List Post → IDtype → List Post × UpdateResult
  | [], _ => ([], ⟨0, 0⟩)
  | d :: ds, id =>
    if d.ID = id then (ds, ⟨1, 1⟩)
    else
      let (ds', res) := deleteOne ds id
      (d :: ds', res)

/-- Server side of `FindOneAndUpdate` with `{"$inc": {"views": 1}}`: the document as it was
before the update is returned, `none` when no document matches. -/
def incViews : List Post → IDtype → List Post × Option Post
  | [], _ => ([], none)
  | d :: ds, id =>
    if d.ID = id then ({ d with Views := d.Views + 1 } :: ds, some d)
    else
      let (ds', res) := incViews ds id
      (d :: ds', res)

/-! ## The storage operations (`post_storage.go`) -/

def StatusCommentOK : Nat := 0
def StatusError : Nat := 1
def StatusCommentNotExist : Nat := 2
def StatusPostNotExist : Nat := 3

/-- `PostStorageImpl.GetPost`. A `$inc` that would leave the 64-bit range is rejected by the
server. -/
def GetPost (db : Mongo) (postID : String) : Mongo × Except StorageError Post :=
  match ObjectIDFromHex postID with
  | none => (db, .error .invalidHex)
  | some hexPostID =>
    let (failed, db) := db.call
    if failed then (db, .error .driver)
    else
      match findOne db.docs hexPostID with
      | none => (db, .error .noDocuments)
      | some old =>
        if old.Views + 1 < 2 ^ 63 then
          ({ db with docs := (incViews db.docs hexPostID).1 }, .ok old)
        else (db, .error .driver)

/-- `PostStorageImpl.CheckPostExist`. -/
def CheckPostExist (db : Mongo) (postID : String) : Mongo × Except StorageError Bool :=
  match ObjectIDFromHex postID with
  | none => (db, .error .invalidHex)
  | some hexPostID =>
    let (failed, db) := db.call
    if failed then (db, .error .driver)
    else
      match findOne db.docs hexPostID with
      | none => (db, .ok false)
      | some _ => (db, .ok true)

/-- `PostStorageImpl.CheckCommentExist`: the status code and the error. -/
def CheckCommentExist (db : Mongo) (postID commentID : String) :
    Mongo × Nat × Option StorageError :=
  match ObjectIDFromHex postID with
  | none => (db, StatusError, some .invalidHex)
  | some hexPostID =>
    match ObjectIDFromHex commentID with
    | none => (db, StatusError, some .invalidHex)
    | some hexCommentID =>
      let (failed, db) := db.call
      if failed then (db, StatusError, some .driver)
      else
        match findOne db.docs hexPostID with
        | none => (db, StatusPostNotExist, none)
        | some post =>
          if post.Comments.any fun comment => decide (comment.ID = hexCommentID) then
            (db, StatusCommentOK, none)
          else (db, StatusCommentNotExist, none)

/-- `PostStorageImpl.MakeComment`; `now` is `time.Now().Format(time.RFC3339)` and `newID` the
value of `primitive.NewObjectID()`. -/
def MakeComment (db : Mongo) (postID comment : String) (user : User) (now : String)
    (newID : IDtype) : Mongo × Option StorageError :=
  match ObjectIDFromHex postID with
  | none => (db, some .invalidHex)
  | some hexPostID =>
    let update : Comment :=
      { Created := now, Author := ⟨user.Username, user.UserID⟩, Body := comment, ID := newID }
    let (failed, db) := db.call
    if failed then (db, some .driver)
    else
      let (docs, res) := pushComment db.docs hexPostID update
      let db := { db with docs := docs }
      if res.MatchedCount ≠ 1 ∨ res.ModifiedCount ≠ 1 then (db, some .cannotMakeComment)
      else (db, none)

/-- `PostStorageImpl.MakePost`; `now` is the formatted clock and `newID` the `_id` the driver
generates for the inserted document. An `_id` already in the collection makes `InsertOne` fail
(duplicate key). The inserted id is an object id, so the branch `cannot get raw postID of new
post` is not taken. The returned string is the hexadecimal form of the new `_id`. -/
def MakePost (db : Mongo) (newPost : NewPost) (user : User) (now : String) (newID : IDtype) :
    Mongo × Except StorageError String :=
  let post : Post :=
    { Score := 0, Views := 0, Type_ := newPost.Type_, Title := newPost.Title,
      URL := newPost.URL, Author := ⟨user.Username, user.UserID⟩, Votes := [],
      Comments := [], Category := newPost.Category, Text := newPost.Text, Created := now,
      UpvotePercentage := 0, ID := [] }
  let (failed, db) := db.call
  if failed then (db, .error .driver)
  else if (findOne db.docs newID).isSome then (db, .error .driver)
  else
    let db := { db with docs := db.docs ++ [{ post with ID := newID }] }
    (db, .ok (hexEncode newID))

/-- `PostStorageImpl.DeleteComment`. -/
def DeleteComment (db : Mongo) (postID commentID : String) : Mongo × Option StorageError :=
  match ObjectIDFromHex postID with
  | none => (db, some .invalidHex)
  | some hexPostID =>
    match ObjectIDFromHex commentID with
    | none => (db, some .invalidHex)
    | some hexCommentID =>
      let (failed, db) := db.call
      if failed then (db, some .driver)
      else
        let (docs, res) := pullComment db.docs hexPostID hexCommentID
        let db := { db with docs := docs }
        if res.ModifiedCount ≠ 1 then (db, some .cannotDeleteComment) else (db, none)

/-- `PostStorageImpl.DeletePost`. -/
def DeletePost (db : Mongo) (postID : String) : Mongo × Option StorageError :=
  match ObjectIDFromHex postID with
  | none => (db, some .invalidHex)
  | some hexPostID =>
    let (failed, db) := db.call
    if failed then (db, some .driver)
    else
      let (docs, res) := deleteOne db.docs hexPostID
      let db := { db with docs := docs }
      if res.MatchedCount ≠ 1 then (db, some .cannotDeletePost) else (db, none)

/-- `PostStorageImpl.Rate`: `FindOne` and decode, the new document, `ReplaceOne`. A replacement
the driver cannot marshal makes `ReplaceOne` return an error without a round trip. -/
def Rate (db : Mongo) (postID : String) (rating : Int) (user : User) :
    Mongo × Option StorageError :=
  match ObjectIDFromHex postID with
  | none => (db, some .invalidHex)
  | some hexPostID =>
    let (failed, db) := db.call
    if failed then (db, some .driver)
    else
      match findOne db.docs hexPostID with
      | none => (db, some .noDocuments)
      | some post =>
        let post := rateDoc post rating user
        if !marshals post then (db, some .cannotMarshal)
        else
          let (failed, db) := db.call
          if failed then (db, some .driver)
          else
            let (docs, res) := replaceOne db.docs hexPostID post
            let db := { db with docs := docs }
            if res.MatchedCount ≠ 1 ∨ res.ModifiedCount ≠ 1 then (db, some .cannotReplacePost)
            else (db, none)

/-- `PostStorageImpl.Unrate`, with the same two driver calls as `Rate`. -/
def Unrate (db : Mongo) (postID : String) (user : User) : Mongo × Option StorageError :=
  match ObjectIDFromHex postID with
  | none => (db, some .invalidHex)
  | some hexPostID =>
    let (failed, db) := db.call
    if failed then (db, some .driver)
    else
      match findOne db.docs hexPostID with
      | none => (db, some .noDocuments)
      | some post =>
        let post := unrateDoc post user
        if !marshals post then (db, some .cannotMarshal)
        else
          let (failed, db) := db.call
          if failed then (db, some .driver)
          else
            let (docs, res) := replaceOne db.docs hexPostID post
            let db := { db with docs := docs }
            if res.MatchedCount ≠ 1 ∨ res.ModifiedCount ≠ 1 then (db, some .cannotReplacePost)
            else (db, none)

/-- The exact sum of the vote values. -/
def exactSum (votes : List Vote) : Int := (votes.map fun v => v.Vote).sum

/-- What the body of the `Unrate` loop writes when it meets the user's vote `x` at index `j`. -/
def unrateAt (post : Post) (x : Vote) (j : Nat) : Post :=
  let votes :=
    if j + 1 < post.Votes.length then post.Votes.take j ++ post.Votes.drop (j + 1)
    else post.Votes.take j
  { post with
    Score := subInt post.Score x.Vote
    Votes := votes
    UpvotePercentage :=
      if votes.length > 0 then upvotePercentage (subInt post.Score x.Vote) votes.length
      else post.UpvotePercentage }

/-- One call of the rating interface of the storage layer. -/
inductive RatingCall where
  | rate (postID : String) (rating : Int) (user : User)
  | unrate (postID : String) (user : User)
  deriving Repr

/-- The store after one rating call, whatever error the call returned. -/
def RatingCall.run (db : Mongo) : RatingCall → Mongo
  | .rate postID rating user => (Rate db postID rating user).1
  | .unrate postID user => (Unrate db postID user).1

/-- The store after a sequence of rating calls. -/
def runCalls (db : Mongo) (calls : List RatingCall) : Mongo :=
  calls.foldl RatingCall.run db

/-! ## Observations and scenarios -/

/-- The score and the votes list of the document stored under `id`, if there is one. -/
def scoreAndVotes (db : Mongo) (id : IDtype) : Option (Int × List Vote) :=
  (findOne db.docs id).map fun p => (p.Score, p.Votes)

/-- The store after `MakePost` for user `u1`. -/
def afterCreate (db : Mongo) (newPost : NewPost) (u1 : User) (now : String) (newID : IDtype) :
    Mongo :=
  (MakePost db newPost u1 now newID).1

/-- The store after `MakePost` and `Rate(+1)` by the author `u1`. -/
def afterUpvote (db : Mongo) (newPost : NewPost) (u1 : User) (now : String) (newID : IDtype) :
    Mongo :=
  (Rate (afterCreate db newPost u1 now newID) (hexEncode newID) 1 u1).1

/-- The store after `MakePost`, `Rate(+1)` by `u1` and `Rate(-1)` by `u2`. -/
def afterDownvote (db : Mongo) (newPost : NewPost) (u1 u2 : User) (now : String)
    (newID : IDtype) : Mongo :=
  (Rate (afterUpvote db newPost u1 now newID) (hexEncode newID) (-1) u2).1

/-- The store after `MakePost`, `Rate(+1)` by `u1`, `Rate(-1)` by `u2` and `Unrate` by `u1`. -/
def afterUnvote (db : Mongo) (newPost : NewPost) (u1 u2 : User) (now : String)
    (newID : IDtype) : Mongo :=
  (Unrate (afterDownvote db newPost u1 u2 now newID) (hexEncode newID) u1).1

/-- The store after `MakeComment` on the post `postID`, `newID` being the generated comment id. -/
def afterComment (db : Mongo) (postID comment : String) (user : User) (now : String)
    (newID : IDtype) : Mongo :=
  (MakeComment db postID comment user now newID).1

/-- The store after `MakeComment` and then `DeleteComment` of `commentID`. -/
def afterCommentDeleted (db : Mongo) (postID comment : String) (user : User) (now : String)
    (newID : IDtype) (commentID : String) : Mongo :=
  (DeleteComment (afterComment db postID comment user now newID) postID commentID).1

/-! ## The `MakePost` handler (`handlers/posts.go`, `misc`) -/

/-- Go `unicode.IsSpace`: the Latin-1 white space characters and, beyond Latin-1, the
`White_Space` range table. -/
def isSpace (c : Char) : Bool :=
  let r := c.toNat
  if r ≤ 255 then
    r = 9 || r = 10 || r = 11 || r = 12 || r = 13 || r = 32 || r = 133 || r = 160
  else
    r = 5760 || (8192 ≤ r && r ≤ 8202) || r = 8232 || r = 8233 || r = 8239 || r = 8287 ||
      r = 12288

/-- `misc.IsBorderSpace`: whether the last or the first rune is white space. Decoding an empty
string gives `utf8.RuneError`, which is not white space. -/
def IsBorderSpace (str : String) : Bool :=
  match str.toList with
  | [] => false
  | c :: cs => isSpace ((c :: cs).getLast (List.cons_ne_nil c cs)) || isSpace c

/-- `misc.Error`, one entry of the `ErrorBuilder`. -/
structure FieldError where
  Location : String
  Param : String
  Value : String
  Msg : String
  deriving DecidableEq, Repr

/-- The closure `isValidURL` of the handler: `url.Parse` succeeds with a non-empty scheme and
host. `urlParse` stands for `net/url.Parse` and returns the scheme and the host of a string it
accepts. -/
def isValidURL (urlParse : String → Option (String × String)) (str : String) : Bool :=
  match urlParse str with
  | some (scheme, host) => scheme ≠ "" && host ≠ ""
  | none => false

/-- Lines 121-125 of the handler: the field that does not belong to the post type is
cleared. -/
def normalizePost (post : NewPost) : NewPost :=
  if post.Type_ = "link" then { post with Text := "" }
  else if post.Type_ = "text" then { post with URL := "" }
  else post

/-- Lines 127-155 of the handler: the errors added to the `ErrorBuilder`, in order. `len` of a
Go string is its length in bytes. -/
def makePostErrors (urlParse : String → Option (String × String)) (post : NewPost) :
    List FieldError :=
  let title : List FieldError :=
    if post.Title.utf8ByteSize = 0 then [⟨"body", "title", "", "cannot be blank"⟩]
    else if IsBorderSpace post.Title then
      [⟨"body", "title", post.Title, "cannot start or end with whitespace"⟩]
    else []
  let content : List FieldError :=
    if post.Type_ = "link" ∧ isValidURL urlParse post.URL = false then
      [⟨"body", "url", post.URL, "is invalid"⟩]
    else if post.Type_ ≠ "link" ∧ post.Text.utf8ByteSize < 4 then
      [⟨"body", "text", post.Text, "must be at least 4 characters long"⟩]
    else []
  let category : List FieldError :=
    if post.Category.utf8ByteSize = 0 then [⟨"body", "category", "", "cannot be blank"⟩]
    else []
  let type : List FieldError :=
    if post.Type_ = "text" ∨ post.Type_ = "link" then []
    else [⟨"body", "type", post.Type_, "must be a link or text post"⟩]
  title ++ content ++ category ++ type

/-- What a handler answers: the status code, the errors of a 422 response and the post of a
201 response. -/
structure Response where
  status : Nat
  errors : List FieldError
  post : Option Post
  deriving DecidableEq, Repr

/-- `PostHandler.MakePost`. `body` is the result of decoding the request body (`none`: the
decoder failed), `user` the result of `GetUser` (`none`: it failed), `now` and `newID` the clock
and the object id generated during `Storage.MakePost`. -/
def PostHandler.MakePost (urlParse : String → Option (String × String)) (db : Mongo)
    (body : Option NewPost) (user : Option User) (now : String) (newID : IDtype) :
    Mongo × Response :=
  match body with
  | none => (db, ⟨400, [], none⟩)
  | some post =>
    let post := normalizePost post
    let errors := makePostErrors urlParse post
    if errors ≠ [] then (db, ⟨422, errors, none⟩)
    else
      match user with
      | none => (db, ⟨500, [], none⟩)
      | some user =>
        match RedditClone.MakePost db post user now newID with
        | (db, .error _) => (db, ⟨500, [], none⟩)
        | (db, .ok postID) =>
          match Rate db postID 1 user with
          | (db, some _) => (db, ⟨500, [], none⟩)
          | (db, none) =>
            match GetPost db postID with
            | (db, .error _) => (db, ⟨500, [], none⟩)
            | (db, .ok data) => (db, ⟨201, [], some data⟩)

/-- The document `Storage.MakePost` inserts. -/
def insertedPost (newPost : NewPost) (user : User) (now : String) (newID : IDtype) : Post :=
  { Score := 0, Views := 0, Type_ := newPost.Type_, Title := newPost.Title,
    URL := newPost.URL, Author := ⟨user.Username, user.UserID⟩, Votes := [],
    Comments := [], Category := newPost.Category, Text := newPost.Text, Created := now,
    UpvotePercentage := 0, ID := newID }

/-- A create request for a text post. -/
def textRequest : NewPost := ⟨"music", "text", "", "T", "some text"⟩

/-- A `url.Parse` stand-in that accepts nothing; text posts do not consult it. -/
def noURL : String → Option (String × String) := fun _ => none

/-! ## Ownership checks, the split `Rate`, repeated deletion -/

/-- `PostStorageImpl.CheckPostOwner`: `FindOne` with the filter
`{"_id": hexPostID, "author._id": user.UserID}`. -/
def CheckPostOwner (db : Mongo) (postID : String) (user : User) :
    Mongo × Except StorageError Bool :=
  match ObjectIDFromHex postID with
  | none => (db, .error .invalidHex)
  | some hexPostID =>
    let (failed, db) := db.call
    if failed then (db, .error .driver)
    else
      match db.docs.find? fun d => decide (d.ID = hexPostID ∧ d.Author.ID = user.UserID) with
      | none => (db, .ok false)
      | some _ => (db, .ok true)

/-- `PostStorageImpl.CheckCommentOwner`: `FindOne` with the filter on the post id and an
`$elemMatch` on the comment's author id and id. -/
def CheckCommentOwner (db : Mongo) (postID commentID : String) (user : User) :
    Mongo × Except StorageError Bool :=
  match ObjectIDFromHex postID with
  | none => (db, .error .invalidHex)
  | some hexPostID =>
    match ObjectIDFromHex commentID with
    | none => (db, .error .invalidHex)
    | some hexCommentID =>
      let (failed, db) := db.call
      if failed then (db, .error .driver)
      else
        match db.docs.find? fun d => decide (d.ID = hexPostID) &&
            d.Comments.any fun c => decide (c.Author.ID = user.UserID ∧ c.ID = hexCommentID) with
        | none => (db, .ok false)
        | some _ => (db, .ok true)

/-- The read step of `Rate` (lines 256-264): the parsed id and the decoded post. -/
def rateRead (db : Mongo) (postID : String) : Mongo × Except StorageError (IDtype × Post) :=
  match ObjectIDFromHex postID with
  | none => (db, .error .invalidHex)
  | some hexPostID =>
    let (failed, db) := db.call
    if failed then (db, .error .driver)
    else
      match findOne db.docs hexPostID with
      | none => (db, .error .noDocuments)
      | some post => (db, .ok (hexPostID, post))

/-- The write step of `Rate` (lines 265-285) for the post the read step decoded. -/
def rateWrite (db : Mongo) (hexPostID : IDtype) (post : Post) (rating : Int) (user : User) :
    Mongo × Option StorageError :=
  let post := rateDoc post rating user
  if !marshals post then (db, some .cannotMarshal)
  else
    let (failed, db) := db.call
    if failed then (db, some .driver)
    else
      let (docs, res) := replaceOne db.docs hexPostID post
      let db := { db with docs := docs }
      if res.MatchedCount ≠ 1 ∨ res.ModifiedCount ≠ 1 then (db, some .cannotReplacePost)
      else (db, none)

/-- Two `Rate` calls on the same post, by `u1` with `r1` and by `u2` with `r2`, interleaved so
that both read steps come before both write steps. The result is the final store and the two
return values; a call whose read step fails returns there and does not write. -/
def interleavedRates (db : Mongo) (postID : String) (r1 : Int) (u1 : User) (r2 : Int)
    (u2 : User) : Mongo × Option StorageError × Option StorageError :=
  let (db, read1) := rateRead db postID
  let (db, read2) := rateRead db postID
  let (db, ret1) :=
    match read1 with
    | .error e => (db, some e)
    | .ok (id, post) => rateWrite db id post r1 u1
  let (db, ret2) :=
    match read2 with
    | .error e => (db, some e)
    | .ok (id, post) => rateWrite db id post r2 u2
  (db, ret1, ret2)

/-- The store after `n` further `DeletePost` calls with the same id. -/
def repeatDelete (db : Mongo) (postID : String) : Nat → Mongo
  | 0 => db
  | n + 1 => (DeletePost (repeatDelete db postID n) postID).1

/-- The fields of a stored post that rating must not touch: the `_id`, type, title, url, text,
category, author, comments, created and views. -/
def frame (p : Post) :
    IDtype × String × String × String × String × String × Author × List Comment × String × Int :=
  (p.ID, p.Type_, p.Title, p.URL, p.Text, p.Category, p.Author, p.Comments, p.Created, p.Views)

/-! ## Password hashing (`auth_storage.go`) -/

/-- A Go `[]byte` together with the array behind it: `backing` is the backing array from the
first element of the slice on, so its length is the capacity, and `len` is the length. Slices
cut from one another share the array. -/
structure Slice where
  backing : List Nat
  len : Nat
  deriving DecidableEq, Repr

/-- The bytes a slice shows. -/
def Slice.bytes (s : Slice) : List Nat := s.backing.take s.len

def saltSize : Nat := 8

/-- `checkPass`. `IDKey password salt` stands for
`argon2.IDKey([]byte(password), salt, 1, 64*1024, 4, 32)`. The slice `salt` is
`hashedPass[:saltSize]` and shares the array of `hashedPass`; `append(salt, ...)` writes into
that array when its capacity suffices, and allocates a new array otherwise; `bytes.Equal`
then compares with `hashedPass` as the array shows it at that point. `none` is the panic of
a slice expression beyond the capacity. -/
def checkPass (IDKey : String → List Nat → List Nat) (password : String)
    (hashedPass : Slice) : Option Bool :=
  if saltSize > hashedPass.backing.length then none
  else
    let salt : Slice := ⟨hashedPass.backing, saltSize⟩
    let hashedCandidate := IDKey password salt.bytes
    if salt.len + hashedCandidate.length ≤ salt.backing.length then
      let array := salt.backing.take salt.len ++ hashedCandidate ++
        salt.backing.drop (salt.len + hashedCandidate.length)
      let appended : Slice := ⟨array, salt.len + hashedCandidate.length⟩
      let hashedPass : Slice := ⟨array, hashedPass.len⟩
      some (decide (appended.bytes = hashedPass.bytes))
    else
      let appended : Slice := ⟨salt.bytes ++ hashedCandidate, salt.len + hashedCandidate.length⟩
      some (decide (appended.bytes = hashedPass.bytes))

/-- `makeHashedPass`: the salt is the first `saltSize` bytes of a ten-byte buffer holding the
varint of `rand.Uint64()` (here the input `salt`), so `append` has to allocate: the result has
the salt followed by the digest, and a capacity the runtime chooses, `extra` bytes beyond the
length. -/
def makeHashedPass (IDKey : String → List Nat → List Nat) (password : String)
    (salt : List Nat) (extra : Nat) : Slice :=
  let salt := salt.take saltSize
  let hashedPass := IDKey password salt
  ⟨salt ++ hashedPass ++ List.replicate extra 0, (salt ++ hashedPass).length⟩

/-- The comparison the password check is meant to make: the digest of the candidate under the
stored salt against the stored digest. -/
def digestMatches (IDKey : String → List Nat → List Nat) (password : String)
    (hashedPass : Slice) : Bool :=
  decide (IDKey password (hashedPass.bytes.take saltSize) = hashedPass.bytes.drop saltSize)

/-- A stand-in digest, 32 bytes long: the length of the password, then zeros. -/
def toyKey : String → List Nat → List Nat :=
  fun password _ => password.length :: List.replicate 31 0

/-! ## The `Vote` handler and handler runs -/

/-- `PostHandler.Vote`. `postID` is the route variable (`none`: it is missing), `action` the
last element of the request path, `user` the result of `GetUser`. -/
def PostHandler.Vote (db : Mongo) (postID : Option String) (action : String)
    (user : Option User) : Mongo × Response :=
  match postID with
  | none => (db, ⟨500, [], none⟩)
  | some postID =>
    match CheckPostExist db postID with
    | (db, .error _) => (db, ⟨500, [], none⟩)
    | (db, .ok false) => (db, ⟨404, [], none⟩)
    | (db, .ok true) =>
      match user with
      | none => (db, ⟨500, [], none⟩)
      | some user =>
        let (db, err) :=
          if action = "upvote" then Rate db postID 1 user
          else if action = "downvote" then Rate db postID (-1) user
          else if action = "unvote" then Unrate db postID user
          else (db, none)
        match err with
        | some _ => (db, ⟨500, [], none⟩)
        | none =>
          match GetPost db postID with
          | (db, .error _) => (db, ⟨500, [], none⟩)
          | (db, .ok data) => (db, ⟨200, [], some data⟩)

/-- One execution of a handler, with everything the request and the environment supply. -/
inductive HandlerCall where
  | makePost (urlParse : String → Option (String × String)) (body : Option NewPost)
      (user : Option User) (now : String) (newID : IDtype)
  | vote (postID : Option String) (action : String) (user : Option User)

/-- The store after one handler execution. -/
def HandlerCall.run (db : Mongo) : HandlerCall → Mongo
  | .makePost urlParse body user now newID =>
    (PostHandler.MakePost urlParse db body user now newID).1
  | .vote postID action user => (PostHandler.Vote db postID action user).1

/-- The store after a sequence of handler executions. -/
def runHandlers (db : Mongo) (calls : List HandlerCall) : Mongo :=
  calls.foldl HandlerCall.run db

/-- The field constraints of the data model on a post to be created: the type is `text` or
`link`, title and category are non-empty, the url is present iff the type is `link` and the
text is present iff the type is `text`. -/
def fieldConstraints (q : NewPost) : Prop :=
  (q.Type_ = "text" ∨ q.Type_ = "link") ∧ q.Title ≠ "" ∧ q.Category ≠ "" ∧
    (q.URL ≠ "" ↔ q.Type_ = "link") ∧ (q.Text ≠ "" ↔ q.Type_ = "text")

/-- The invariant of a post under the handlers: every vote is `+1` or `-1`, and the score is
the sum of the votes. -/
def UnitVotes (p : Post) : Prop :=
  (∀ v ∈ p.Votes, v.Vote = 1 ∨ v.Vote = -1) ∧ p.Score = sumVotes p.Votes

/-! ## The username check (`misc/checks.go`) -/

/-- Go `unicode.IsDigit`: in Latin-1 the ASCII digits `0` to `9`; beyond Latin-1 the `Digit`
range table of the `unicode` package, for which `digitTable` stands. -/
def isDigit (digitTable : Nat → Bool) (c : Char) : Bool :=
  let r := c.toNat
  if r ≤ 255 then 48 ≤ r && r ≤ 57 else digitTable r

/-- Go `unicode.IsLetter`: in Latin-1 the runes whose entry of the `properties` table has a
letter bit; beyond Latin-1 the `Letter` range table, for which `letterTable` stands. -/
def isLetter (letterTable : Nat → Bool) (c : Char) : Bool :=
  let r := c.toNat
  if r ≤ 255 then
    (65 ≤ r && r ≤ 90) || (97 ≤ r && r ≤ 122) || r = 170 || r = 181 || r = 186 ||
      (192 ≤ r && r ≤ 214) || (216 ≤ r && r ≤ 246) || (248 ≤ r && r ≤ 255)
  else letterTable r

/-- `unicode.MaxASCII`, the rune `U+007F`. -/
def MaxASCII : Nat := 127

/-- The loop of `misc.IsValidUsername` over the runes that `range str` yields: the first rune
failing the test returns false, the end of the string returns true. -/
def usernameLoop (digitTable letterTable : Nat → Bool) : List Char → Bool
  | [] => true
  | c :: cs =>
    if !(isDigit digitTable c || c = '-' || c = '_' ||
        (isLetter letterTable c && c.toNat < MaxASCII)) then false
    else usernameLoop digitTable letterTable cs

/-- `misc.IsValidUsername`. The runes of a string are its characters; `range` over a Go string
that is not valid UTF-8 yields `U+FFFD` for each bad byte, as if the string held that rune. -/
def IsValidUsername (digitTable letterTable : Nat → Bool) (str : String) : Bool :=
  usernameLoop digitTable letterTable str.toList

/-- An ASCII letter, `A` to `Z` or `a` to `z`. -/
def asciiLetter (c : Char) : Bool :=
  (65 ≤ c.toNat && c.toNat ≤ 90) || (97 ≤ c.toNat && c.toNat ≤ 122)

/-- An ASCII digit, `0` to `9`. -/
def asciiDigit (c : Char) : Bool :=
  48 ≤ c.toNat && c.toNat ≤ 57

/-- A stand-in for the `Digit` table beyond Latin-1: the Arabic-Indic digits. -/
def sampleDigitTable : Nat → Bool := fun r => 1632 ≤ r && r ≤ 1641

/-- A stand-in for the `Letter` table beyond Latin-1: the Greek small letters alpha to omega. -/
def sampleLetterTable : Nat → Bool := fun r => 945 ≤ r && r ≤ 969

/-! ## Sequences of storage operations -/

/-- One call of a storage operation that writes to the `posts` collection. -/
inductive StorageCall where
  | makePost (newPost : NewPost) (user : User) (now : String) (newID : IDtype)
  | makeComment (postID comment : String) (user : User) (now : String) (newID : IDtype)
  | deleteComment (postID commentID : String)
  | deletePost (postID : String)
  | getPost (postID : String)
  | rate (postID : String) (rating : Int) (user : User)
  | unrate (postID : String) (user : User)

/-- The store after one storage operation, whatever it returned. -/
def StorageCall.run (db : Mongo) : StorageCall → Mongo
  | .makePost newPost user now newID => (MakePost db newPost user now newID).1
  | .makeComment postID comment user now newID =>
    (MakeComment db postID comment user now newID).1
  | .deleteComment postID commentID => (DeleteComment db postID commentID).1
  | .deletePost postID => (DeletePost db postID).1
  | .getPost postID => (GetPost db postID).1
  | .rate postID rating user => (Rate db postID rating user).1
  | .unrate postID user => (Unrate db postID user).1

/-- The store after a sequence of storage operations. -/
def runStorage (db : Mongo) (calls : List StorageCall) : Mongo :=
  calls.foldl StorageCall.run db

/-- What the storage operations keep true of the rating fields of every stored post: one vote
per user id, a score that is a Go `int`, and, once there is a vote, the percentage that lines
279 and 309 compute from the stored score and votes. -/
def RatingWritten (p : Post) : Prop :=
  (p.Votes.map Vote.ID).Nodup ∧ wrapInt p.Score = p.Score ∧
    (p.Votes ≠ [] → p.UpvotePercentage = upvotePercentage p.Score p.Votes.length)

/-- A `Rate` call with a `GetPost` of the same post between its read step and its write
step. The result is the final store and the return value of `Rate`. -/
def rateAroundGetPost (db : Mongo) (postID : String) (rating : Int) (user : User) :
    Mongo × Option StorageError :=
  let (db, read) := rateRead db postID
  let db := (GetPost db postID).1
  match read with
  | .error e => (db, some e)
  | .ok (id, post) => rateWrite db id post rating user

/-! ## Sample data -/

/-- Two users. -/
def userU1 : User := ⟨"alice", "u1"⟩

def userU2 : User := ⟨"bob", "u2"⟩

/-- A twelve-byte object id and its hexadecimal form. -/
def sampleID : IDtype := [0, 17, 34, 51, 68, 85, 102, 119, 136, 153, 170, 187]

def sampleHex : String := "00112233445566778899aabb"

/-- A text post titled `T` as `MakePost` stores it for `userU1` under `sampleID`. -/
def freshPost : Post :=
  { Score := 0, Views := 0, Type_ := "text", Title := "T", URL := "",
    Author := ⟨"alice", "u1"⟩, Category := "music", Text := "some text", Votes := [],
    Comments := [], Created := "2021-01-01T00:00:00Z", UpvotePercentage := 0, ID := sampleID }

/-- The same post after both users voted. -/
def votedPost : Post :=
  { freshPost with Score := 0, Votes := [⟨"u1", 1⟩, ⟨"u2", -1⟩] }

/-- A post whose second voter rated with `2 ^ 53 + 1`. -/
def hugePost : Post :=
  { freshPost with
    Score := 2 ^ 53 + 1
    Votes := [⟨"u1", 0⟩, ⟨"u2", 2 ^ 53 + 1⟩]
    UpvotePercentage := 450359962737049600 }

/-- The post after its author's upvote: score 1, percentage 50. -/
def upvotedPost : Post :=
  { freshPost with Score := 1, Votes := [⟨"u1", 1⟩], UpvotePercentage := 50 }

/-- The object id of a comment. -/
def sampleCommentID : IDtype := [96, 17, 34, 51, 68, 85, 102, 119, 136, 153, 170, 204]

/-- The upvoted post after `MakeComment` by `userU2`. -/
def commentedPost : Post :=
  { upvotedPost with
    Comments := [⟨"2021-01-02T00:00:00Z", ⟨"bob", "u2"⟩, "first", sampleCommentID⟩] }

/-- A session through the handlers: `userU1` creates the text post, then `userU2` votes it
down. -/
def sampleSession : List HandlerCall :=
  [.makePost noURL (some textRequest) (some userU1) "2021-01-01T00:00:00Z" sampleID,
   .vote (some sampleHex) "downvote" (some userU2)]

/-- The storage calls behind `commentedPost`: `userU1` creates the post and upvotes it,
`userU2` comments on it. -/
def commentSession : List StorageCall :=
  [.makePost textRequest userU1 "2021-01-01T00:00:00Z" sampleID,
   .rate sampleHex 1 userU1,
   .makeComment sampleHex "first" userU2 "2021-01-02T00:00:00Z" sampleCommentID]

/-! ## Arithmetic lemmas -/

theorem wrapInt_wrapInt (x : Int) : wrapInt (wrapInt x) = wrapInt x := by
  unfold wrapInt; omega

theorem wrapInt_add_left (a b : Int) : wrapInt (wrapInt a + b) = wrapInt (a + b) := by
  unfold wrapInt; omega

theorem wrapInt_add_right (a b : Int) : wrapInt (a + wrapInt b) = wrapInt (a + b) := by
  unfold wrapInt; omega

theorem wrapInt_sub_left (a b : Int) : wrapInt (wrapInt a - b) = wrapInt (a - b) := by
  unfold wrapInt; omega

theorem wrapInt_of_range (x : Int) (h1 : -(2 ^ 63) ≤ x) (h2 : x < 2 ^ 63) : wrapInt x = x := by
  unfold wrapInt; omega

theorem wrapInt_zero : wrapInt 0 = 0 := by decide

theorem foldl_addInt (votes : List Vote) :
    ∀ acc : Int, wrapInt acc = acc →
      votes.foldl (fun acc v => addInt acc v.Vote) acc = wrapInt (acc + exactSum votes) := by
  induction votes with
  | nil => intro acc h; simp [exactSum, h]
  | cons v vs ih =>
    intro acc _
    rw [List.foldl_cons, ih (addInt acc v.Vote) (wrapInt_wrapInt _)]
    simp only [exactSum, List.map_cons, List.sum_cons, addInt]
    rw [wrapInt_add_left, add_assoc]

theorem sumVotes_eq (votes : List Vote) : sumVotes votes = wrapInt (exactSum votes) := by
  unfold sumVotes
  rw [foldl_addInt votes 0 wrapInt_zero, zero_add]

theorem exactSum_append (a b : List Vote) : exactSum (a ++ b) = exactSum a + exactSum b := by
  simp [exactSum]

theorem exactSum_cons (x : Vote) (b : List Vote) : exactSum (x :: b) = x.Vote + exactSum b := by
  simp [exactSum]

/-! ## Floating-point lemmas -/

theorem log2_eq (r : ℚ) (L : ℤ) (h1 : (2 : ℚ) ^ L ≤ r) (h2 : r < (2 : ℚ) ^ (L + 1)) :
    Int.log 2 r = L := by
  have hr : 0 < r := lt_of_lt_of_le (by positivity) h1
  have a : L ≤ Int.log 2 r := (Int.zpow_le_iff_le_log (by norm_num) hr).mp (by simpa using h1)
  have b : Int.log 2 r < L + 1 := (Int.lt_zpow_iff_log_lt (by norm_num) hr).mp (by simpa using h2)
  omega

/-- the general evaluation of roundF64 once the exponent is known -/
theorem roundF64_eval (q : ℚ) (L : ℤ) (hq : q ≠ 0) (h1 : (2 : ℚ) ^ L ≤ |q|)
    (h2 : |q| < (2 : ℚ) ^ (L + 1)) :
    roundF64 q =
      (if q < 0 then -1 else 1) *
        (((if |q| / (2 : ℚ) ^ (L - 52) - ⌊|q| / (2 : ℚ) ^ (L - 52)⌋ < 1 / 2 then
              ⌊|q| / (2 : ℚ) ^ (L - 52)⌋
            else if 1 / 2 < |q| / (2 : ℚ) ^ (L - 52) - ⌊|q| / (2 : ℚ) ^ (L - 52)⌋ then
              ⌊|q| / (2 : ℚ) ^ (L - 52)⌋ + 1
            else if ⌊|q| / (2 : ℚ) ^ (L - 52)⌋ % 2 = 0 then ⌊|q| / (2 : ℚ) ^ (L - 52)⌋
            else ⌊|q| / (2 : ℚ) ^ (L - 52)⌋ + 1 : ℤ) : ℚ)) *
        (2 : ℚ) ^ (L - 52) := by
  simp only [roundF64, if_neg hq, log2_eq |q| L h1 h2]

theorem roundF64_of_int_ratio (q : ℚ) (N : ℤ)
    (h : |q| / (2 : ℚ) ^ (Int.log 2 |q| - 52) = N) : roundF64 q = q := by
  by_cases hq : q = 0
  · simp [roundF64, hq]
  · have hu : ((2 : ℚ) ^ (Int.log 2 |q| - 52)) ≠ 0 := by positivity
    have h12 : (0 : ℚ) < 1 / 2 := by norm_num
    unfold roundF64
    rw [if_neg hq]
    simp only [h, Int.floor_intCast, sub_self, h12, if_true]
    rw [← h, mul_assoc, div_mul_cancel₀ _ hu]
    by_cases hn : q < 0
    · rw [if_pos hn, abs_of_neg hn]; ring
    · rw [if_neg hn, abs_of_nonneg (le_of_not_lt hn)]; ring

theorem roundF64_exact_lt (k j : ℤ) (hk : |k| < 2 ^ 53) :
    roundF64 ((k : ℚ) * (2 : ℚ) ^ j) = (k : ℚ) * (2 : ℚ) ^ j := by
  by_cases hk0 : k = 0
  · simp [hk0, roundF64]
  generalize hq : (k : ℚ) * (2 : ℚ) ^ j = q
  have habs : |q| = ((|k| : ℤ) : ℚ) * (2 : ℚ) ^ j := by
    rw [← hq, abs_mul, abs_of_pos (by positivity : (0 : ℚ) < (2 : ℚ) ^ j)]
    simp
  have hpos : 0 < |q| := by
    rw [habs]
    have : (0 : ℚ) < ((|k| : ℤ) : ℚ) := by exact_mod_cast abs_pos.mpr hk0
    positivity
  have hlow : (2 : ℚ) ^ Int.log 2 |q| ≤ |q| := by
    simpa using Int.zpow_log_le_self (b := 2) (by norm_num) hpos
  have hupp : |q| < (2 : ℚ) ^ (53 + j) := by
    rw [habs, zpow_add₀ (by norm_num : (2 : ℚ) ≠ 0)]
    have h53 : ((|k| : ℤ) : ℚ) < (2 : ℚ) ^ (53 : ℤ) := by
      have : ((|k| : ℤ) : ℚ) < ((2 ^ 53 : ℤ) : ℚ) := Int.cast_lt.mpr hk
      rw [show ((2 : ℚ) ^ (53 : ℤ)) = ((2 ^ 53 : ℤ) : ℚ) by norm_num]
      exact this
    exact mul_lt_mul_of_pos_right h53 (by positivity)
  have hL : Int.log 2 |q| < 53 + j :=
    (zpow_lt_zpow_iff_right₀ (by norm_num : (1 : ℚ) < 2)).mp (lt_of_le_of_lt hlow hupp)
  apply roundF64_of_int_ratio q (|k| * 2 ^ (j - (Int.log 2 |q| - 52)).toNat)
  generalize Int.log 2 |q| = L at hL ⊢
  obtain ⟨d, hd⟩ : ∃ d : ℕ, j - (L - 52) = d := ⟨(j - (L - 52)).toNat, by omega⟩
  rw [habs, mul_div_assoc, ← zpow_sub₀ (by norm_num : (2 : ℚ) ≠ 0), hd]
  simp

theorem roundF64_exact (k j : ℤ) (hk : |k| ≤ 2 ^ 53) :
    roundF64 ((k : ℚ) * (2 : ℚ) ^ j) = (k : ℚ) * (2 : ℚ) ^ j := by
  rcases lt_or_eq_of_le hk with h | h
  · exact roundF64_exact_lt k j h
  · have two : (2 : ℚ) ≠ 0 := by norm_num
    rcases (abs_eq (by norm_num : (0 : ℤ) ≤ 2 ^ 53)).mp h with e | e
    · have e2 : ((2 ^ 53 : ℤ) : ℚ) * (2 : ℚ) ^ j = ((1 : ℤ) : ℚ) * (2 : ℚ) ^ (53 + j) := by
        rw [zpow_add₀ two]; norm_num
      rw [e, e2]
      exact roundF64_exact_lt 1 _ (by norm_num)
    · have e2 : ((-2 ^ 53 : ℤ) : ℚ) * (2 : ℚ) ^ j = ((-1 : ℤ) : ℚ) * (2 : ℚ) ^ (53 + j) := by
        rw [zpow_add₀ two]; norm_num
      rw [e, e2]
      exact roundF64_exact_lt (-1) _ (by norm_num)

theorem roundF64_exact_of (x : ℚ) (k j : ℤ) (hx : x = (k : ℚ) * (2 : ℚ) ^ j)
    (hk : |k| ≤ 2 ^ 53) : roundF64 x = x := by
  rw [hx]; exact roundF64_exact k j hk

theorem roundF64_int (k : ℤ) (hk : |k| ≤ 2 ^ 53) : roundF64 (k : ℚ) = k :=
  roundF64_exact_of _ k 0 (by simp) hk


theorem f64ToInt_int (k : ℤ) (h1 : -(2 ^ 63) ≤ k) (h2 : k < 2 ^ 63) :
    f64ToInt (k : ℚ) = k := by
  unfold f64ToInt
  simp only [Int.floor_intCast, Int.ceil_intCast, ite_self]
  rw [if_pos ⟨h1, h2⟩]

theorem upvotePercentage_exact (s : Int) (n : Nat) (hn : 1 ≤ n)
    (h1 : |s| * (n : Int) ≤ 2 ^ 53) (h2 : |s| * 50 ≤ 2 ^ 53) :
    upvotePercentage s n = 50 * s := by
  have hn' : (1 : Int) ≤ (n : Int) := by exact_mod_cast hn
  have hs : |s| ≤ 2 ^ 53 := by nlinarith [abs_nonneg s]
  have hsn : |s * (n : Int)| ≤ 2 ^ 53 := by
    rw [abs_mul, abs_of_nonneg (by omega : (0 : Int) ≤ (n : Int))]; exact h1
  have h50 : |50 * s| ≤ 2 ^ 53 := by
    rw [abs_mul]; norm_num; linarith
  have hmul : mulInt s n = s * n := by
    unfold mulInt
    apply wrapInt_of_range <;> [skip; skip] <;> have := abs_le.mp hsn <;> omega
  unfold upvotePercentage
  rw [hmul]
  by_cases hs0 : s = 0
  · subst hs0
    simp [f64OfInt, f64Div, f64Mul, roundF64, f64ToInt]
  · have hnn : |(n : Int)| ≤ 2 ^ 53 := by
      rw [abs_of_nonneg (by omega : (0 : Int) ≤ (n : Int))]
      have : 1 ≤ |s| := Int.one_le_abs hs0
      nlinarith
    have hnq : ((n : Int) : ℚ) ≠ 0 := by
      have : (0 : ℚ) < ((n : Int) : ℚ) := by exact_mod_cast hn'
      exact ne_of_gt this
    have e1 : f64OfInt (s * n) = ((s * n : Int) : ℚ) := roundF64_int _ hsn
    have e2 : f64OfInt (n : Int) = ((n : Int) : ℚ) := roundF64_int _ hnn
    have e3 : f64Div ((s * n : Int) : ℚ) ((n : Int) : ℚ) = (s : ℚ) := by
      unfold f64Div
      rw [show (((s * n : Int) : ℚ)) / ((n : Int) : ℚ) = (s : ℚ) by
        push_cast; field_simp]
      exact roundF64_int s hs
    have e4 : f64Mul (s : ℚ) (1 / 2) = (s : ℚ) / 2 := by
      unfold f64Mul
      rw [show (s : ℚ) * (1 / 2) = (s : ℚ) / 2 by ring]
      exact roundF64_exact_of _ s (-1) (by rw [zpow_neg_one]; ring) hs
    have e5 : f64Mul ((s : ℚ) / 2) 100 = ((50 * s : Int) : ℚ) := by
      unfold f64Mul
      rw [show (s : ℚ) / 2 * 100 = ((50 * s : Int) : ℚ) by push_cast; ring]
      exact roundF64_int _ h50
    rw [e1, e2, e3, e4, e5]
    have := abs_le.mp h50
    exact f64ToInt_int _ (by omega) (by omega)

theorem roundF64_two53_succ : roundF64 ((2 : ℚ) ^ 53 + 1) = (2 : ℚ) ^ 53 := by
  rw [roundF64_eval _ 53 (by norm_num) (by norm_num [abs_of_pos]) (by norm_num [abs_of_pos])]
  have hf : ⌊|(2 : ℚ) ^ 53 + 1| / (2 : ℚ) ^ ((53 : ℤ) - 52)⌋ = 2 ^ 52 := by
    rw [Int.floor_eq_iff]
    norm_num [abs_of_pos]
  rw [hf]
  norm_num [abs_of_pos]

theorem upvotePercentage_two53_succ :
    upvotePercentage (2 ^ 53 + 1) 1 = 450359962737049600 := by
  have hmul : mulInt (2 ^ 53 + 1) ((1 : Nat) : Int) = 2 ^ 53 + 1 := by decide
  have e1 : f64OfInt (2 ^ 53 + 1) = ((9007199254740992 : Int) : ℚ) := by
    unfold f64OfInt
    rw [show (((2 ^ 53 + 1 : Int)) : ℚ) = (2 : ℚ) ^ 53 + 1 by norm_num, roundF64_two53_succ]
    norm_num
  have e2 : f64OfInt ((1 : Nat) : Int) = ((1 : Int) : ℚ) := roundF64_int 1 (by norm_num)
  have e3 : f64Div ((9007199254740992 : Int) : ℚ) ((1 : Int) : ℚ) =
      ((9007199254740992 : Int) : ℚ) := by
    unfold f64Div
    rw [Int.cast_one, div_one]
    exact roundF64_int _ (by norm_num)
  have e4 : f64Mul ((9007199254740992 : Int) : ℚ) (1 / 2) =
      ((4503599627370496 : Int) : ℚ) := by
    unfold f64Mul
    rw [show ((9007199254740992 : Int) : ℚ) * (1 / 2) = ((4503599627370496 : Int) : ℚ) by
      norm_num]
    exact roundF64_int _ (by norm_num)
  have e5 : f64Mul ((4503599627370496 : Int) : ℚ) 100 =
      ((450359962737049600 : Int) : ℚ) := by
    unfold f64Mul
    rw [show ((4503599627370496 : Int) : ℚ) * 100 = ((450359962737049600 : Int) : ℚ) by
      norm_num]
    exact roundF64_exact_of _ 25 54 (by norm_num) (by norm_num)
  unfold upvotePercentage
  rw [hmul, e1, e2, e3, e4, e5]
  exact f64ToInt_int _ (by norm_num) (by norm_num)

/-! ## The two scans, in closed form -/

theorem split_first (u : String) (votes : List Vote) :
    (∀ y ∈ votes, y.ID ≠ u) ∨
      ∃ a x b, votes = a ++ x :: b ∧ (∀ y ∈ a, y.ID ≠ u) ∧ x.ID = u := by
  induction votes with
  | nil => left; simp
  | cons v vs ih =>
    by_cases hv : v.ID = u
    · right; exact ⟨[], v, vs, rfl, by simp, hv⟩
    · rcases ih with h | ⟨a, x, b, hab, ha, hx⟩
      · left
        intro y hy
        rcases List.mem_cons.mp hy with rfl | hy
        · exact hv
        · exact h y hy
      · right
        refine ⟨v :: a, x, b, by simp [hab], ?_, hx⟩
        intro y hy
        rcases List.mem_cons.mp hy with rfl | hy
        · exact hv
        · exact ha y hy

theorem rateScan_cons_ne (u : String) (r : Int) (post : Post) (i : Nat) (v : Vote)
    (rest : List Vote) (hv : v.ID ≠ u) :
    rateScan u r post i (v :: rest) = rateScan u r post (i + 1) rest := by
  simp [rateScan, hv]

theorem unrateScan_cons_ne (u : String) (post : Post) (i : Nat) (v : Vote)
    (rest : List Vote) (hv : v.ID ≠ u) :
    unrateScan u post i (v :: rest) = unrateScan u post (i + 1) rest := by
  simp [unrateScan, hv]

theorem rateScan_absent (u : String) (r : Int) (post : Post) :
    ∀ (rest : List Vote) (i : Nat), (∀ y ∈ rest, y.ID ≠ u) →
      rateScan u r post i rest = (post, false) := by
  intro rest
  induction rest with
  | nil => intro i _; rfl
  | cons v vs ih =>
    intro i h
    rw [rateScan_cons_ne _ _ _ _ _ _ (h v (List.mem_cons_self _ _))]
    exact ih (i + 1) fun y hy => h y (List.mem_cons_of_mem _ hy)

theorem rateScan_present (u : String) (r : Int) (post : Post) (x : Vote) (b : List Vote)
    (hx : x.ID = u) :
    ∀ (a : List Vote) (i : Nat), (∀ y ∈ a, y.ID ≠ u) →
      rateScan u r post i (a ++ x :: b) =
        ({ post with
            Score := addInt post.Score (subInt r x.Vote)
            Votes := post.Votes.set (i + a.length) { x with Vote := r } }, true) := by
  intro a
  induction a with
  | nil => intro i _; simp [rateScan, hx]
  | cons v vs ih =>
    intro i h
    rw [List.cons_append, rateScan_cons_ne _ _ _ _ _ _ (h v (List.mem_cons_self _ _)),
      ih (i + 1) fun y hy => h y (List.mem_cons_of_mem _ hy)]
    have hi : i + 1 + vs.length = i + (v :: vs).length := by simp; omega
    rw [hi]

theorem unrateScan_absent (u : String) (post : Post) :
    ∀ (rest : List Vote) (i : Nat), (∀ y ∈ rest, y.ID ≠ u) →
      unrateScan u post i rest = post := by
  intro rest
  induction rest with
  | nil => intro i _; rfl
  | cons v vs ih =>
    intro i h
    rw [unrateScan_cons_ne _ _ _ _ _ (h v (List.mem_cons_self _ _))]
    exact ih (i + 1) fun y hy => h y (List.mem_cons_of_mem _ hy)

theorem unrateScan_present (u : String) (post : Post) (x : Vote) (b : List Vote)
    (hx : x.ID = u) :
    ∀ (a : List Vote) (i : Nat), (∀ y ∈ a, y.ID ≠ u) →
      unrateScan u post i (a ++ x :: b) = unrateAt post x (i + a.length) := by
  intro a
  induction a with
  | nil => intro i _; simp [unrateScan, unrateAt, hx]
  | cons v vs ih =>
    intro i h
    rw [List.cons_append, unrateScan_cons_ne _ _ _ _ _ (h v (List.mem_cons_self _ _)),
      ih (i + 1) fun y hy => h y (List.mem_cons_of_mem _ hy)]
    have hi : i + 1 + vs.length = i + (v :: vs).length := by simp; omega
    rw [hi]

theorem rateDoc_absent (p : Post) (r : Int) (u : User)
    (h : ∀ y ∈ p.Votes, y.ID ≠ u.UserID) :
    rateDoc p r u =
      { p with
        ID := []
        Score := addInt p.Score r
        Votes := p.Votes ++ [⟨u.UserID, r⟩]
        UpvotePercentage := upvotePercentage (addInt p.Score r) (p.Votes.length + 1) } := by
  simp [rateDoc, rateScan_absent u.UserID r _ p.Votes 0 h]

theorem rateDoc_present (p : Post) (r : Int) (u : User) (a : List Vote) (x : Vote)
    (b : List Vote) (hv : p.Votes = a ++ x :: b) (ha : ∀ y ∈ a, y.ID ≠ u.UserID)
    (hx : x.ID = u.UserID) :
    rateDoc p r u =
      { p with
        ID := []
        Score := addInt p.Score (subInt r x.Vote)
        Votes := a ++ { x with Vote := r } :: b
        UpvotePercentage :=
          upvotePercentage (addInt p.Score (subInt r x.Vote)) (a.length + (b.length + 1)) } := by
  cases p
  simp only at hv
  subst hv
  simp [rateDoc, rateScan_present u.UserID r _ x b hx a 0 ha]

theorem unrateDoc_absent (p : Post) (u : User) (h : ∀ y ∈ p.Votes, y.ID ≠ u.UserID) :
    unrateDoc p u = { p with ID := [] } := by
  simp [unrateDoc, unrateScan_absent u.UserID _ p.Votes 0 h]

theorem unrateDoc_present (p : Post) (u : User) (a : List Vote) (x : Vote)
    (b : List Vote) (hv : p.Votes = a ++ x :: b) (ha : ∀ y ∈ a, y.ID ≠ u.UserID)
    (hx : x.ID = u.UserID) :
    unrateDoc p u =
      { p with
        ID := []
        Score := subInt p.Score x.Vote
        Votes := a ++ b
        UpvotePercentage :=
          if (a ++ b).length > 0 then
            upvotePercentage (subInt p.Score x.Vote) (a ++ b).length
          else p.UpvotePercentage } := by
  cases p
  simp only at hv
  subst hv
  simp only [unrateDoc, unrateScan_present u.UserID _ x b hx a 0 ha, unrateAt]
  cases b <;> simp

/-! ## Store lemmas -/

theorem findOne_mem {docs : List Post} {id : IDtype} {p : Post}
    (h : findOne docs id = some p) : p ∈ docs :=
  List.mem_of_find?_eq_some h

theorem findOne_id {docs : List Post} {id : IDtype} {p : Post}
    (h : findOne docs id = some p) : p.ID = id := by
  have := List.find?_some h
  simpa using this

theorem replaceOne_mem (id : IDtype) (repl : Post) :
    ∀ (docs : List Post) (d : Post), d ∈ (replaceOne docs id repl).1 →
      d ∈ docs ∨ d = { repl with ID := id } := by
  intro docs
  induction docs with
  | nil => intro d hd; simp [replaceOne] at hd
  | cons e es ih =>
    intro d hd
    by_cases he : e.ID = id
    · simp only [replaceOne, he, if_true, List.mem_cons] at hd
      rcases hd with rfl | hd
      · right; rfl
      · left; exact List.mem_cons_of_mem _ hd
    · simp only [replaceOne, he, if_false, List.mem_cons] at hd
      rcases hd with rfl | hd
      · left; exact List.mem_cons_self _ _
      · rcases ih d hd with h | h
        · left; exact List.mem_cons_of_mem _ h
        · right; exact h

theorem call_docs (db : Mongo) : db.call.2.docs = db.docs := rfl

theorem rateDoc_comments (p : Post) (r : Int) (u : User) :
    (rateDoc p r u).Comments = p.Comments := by
  rcases split_first u.UserID p.Votes with h | ⟨a, x, b, hv, ha, hx⟩
  · rw [rateDoc_absent p r u h]
  · rw [rateDoc_present p r u a x b hv ha hx]

theorem unrateDoc_comments (p : Post) (u : User) :
    (unrateDoc p u).Comments = p.Comments := by
  rcases split_first u.UserID p.Votes with h | ⟨a, x, b, hv, ha, hx⟩
  · rw [unrateDoc_absent p u h]
  · rw [unrateDoc_present p u a x b hv ha hx]

theorem marshals_rateDoc (p : Post) (r : Int) (u : User) :
    marshals (rateDoc p r u) = marshals p := by
  unfold marshals
  rw [rateDoc_comments]

theorem marshals_unrateDoc (p : Post) (u : User) :
    marshals (unrateDoc p u) = marshals p := by
  unfold marshals
  rw [unrateDoc_comments]

theorem marshals_of_no_comments (p : Post) (h : p.Comments = []) : marshals p = true := by
  unfold marshals
  rw [h]
  rfl

theorem Rate_docs (db : Mongo) (postID : String) (rating : Int) (user : User) :
    (Rate db postID rating user).1.docs = db.docs ∨
      ∃ id p, ObjectIDFromHex postID = some id ∧ findOne db.docs id = some p ∧
        (Rate db postID rating user).1.docs = (replaceOne db.docs id (rateDoc p rating user)).1 := by
  unfold Rate
  cases hid : ObjectIDFromHex postID with
  | none => left; rfl
  | some id =>
    have h1 := call_docs db
    generalize db.call = c at h1 ⊢
    obtain ⟨failed, db1⟩ := c
    simp only at h1 ⊢
    cases failed with
    | true => left; simpa using h1
    | false =>
      simp only [h1, Bool.false_eq_true, if_false]
      cases hp : findOne db.docs id with
      | none => left; simpa using h1
      | some p =>
        simp only
        split
        · left; exact h1
        · have h2 := call_docs db1
          generalize db1.call = c2 at h2 ⊢
          obtain ⟨failed2, db2⟩ := c2
          simp only at h2 ⊢
          cases failed2 with
          | true => left; simp [h2, h1]
          | false =>
            right
            refine ⟨id, p, rfl, hp, ?_⟩
            simp only [h2, h1, Bool.false_eq_true, if_false]
            split <;> rfl

theorem Unrate_docs (db : Mongo) (postID : String) (user : User) :
    (Unrate db postID user).1.docs = db.docs ∨
      ∃ id p, ObjectIDFromHex postID = some id ∧ findOne db.docs id = some p ∧
        (Unrate db postID user).1.docs = (replaceOne db.docs id (unrateDoc p user)).1 := by
  unfold Unrate
  cases hid : ObjectIDFromHex postID with
  | none => left; rfl
  | some id =>
    have h1 := call_docs db
    generalize db.call = c at h1 ⊢
    obtain ⟨failed, db1⟩ := c
    simp only at h1 ⊢
    cases failed with
    | true => left; simpa using h1
    | false =>
      simp only [h1, Bool.false_eq_true, if_false]
      cases hp : findOne db.docs id with
      | none => left; simpa using h1
      | some p =>
        simp only
        split
        · left; exact h1
        · have h2 := call_docs db1
          generalize db1.call = c2 at h2 ⊢
          obtain ⟨failed2, db2⟩ := c2
          simp only at h2 ⊢
          cases failed2 with
          | true => left; simp [h2, h1]
          | false =>
            right
            refine ⟨id, p, rfl, hp, ?_⟩
            simp only [h2, h1, Bool.false_eq_true, if_false]
            split <;> rfl

/-! ## Score/vote consistency -/

theorem rateDoc_consistent (p : Post) (r : Int) (u : User)
    (hp : p.Score = sumVotes p.Votes) :
    (rateDoc p r u).Score = sumVotes (rateDoc p r u).Votes := by
  rcases split_first u.UserID p.Votes with h | ⟨a, x, b, hv, ha, hx⟩
  · rw [rateDoc_absent p r u h]
    simp only [sumVotes_eq, exactSum_append, exactSum_cons, addInt, hp]
    rw [wrapInt_add_left]
    simp [exactSum]
  · rw [rateDoc_present p r u a x b hv ha hx]
    simp only [sumVotes_eq, exactSum_append, exactSum_cons, addInt, subInt, hp, hv]
    rw [wrapInt_add_left, wrapInt_add_right]
    congr 1
    ring

theorem unrateDoc_consistent (p : Post) (u : User)
    (hp : p.Score = sumVotes p.Votes) :
    (unrateDoc p u).Score = sumVotes (unrateDoc p u).Votes := by
  rcases split_first u.UserID p.Votes with h | ⟨a, x, b, hv, ha, hx⟩
  · rw [unrateDoc_absent p u h]
    exact hp
  · rw [unrateDoc_present p u a x b hv ha hx]
    simp only [sumVotes_eq, exactSum_append, exactSum_cons, subInt, hp, hv]
    rw [wrapInt_sub_left]
    congr 1
    ring

theorem run_consistent (db : Mongo) (c : RatingCall)
    (h : ∀ d ∈ db.docs, d.Score = sumVotes d.Votes) :
    ∀ d ∈ (c.run db).docs, d.Score = sumVotes d.Votes := by
  cases c with
  | rate postID rating user =>
    rcases Rate_docs db postID rating user with e | ⟨id, p, _, hp, e⟩
    · simpa [RatingCall.run, e] using h
    · intro d hd
      simp only [RatingCall.run, e] at hd
      rcases replaceOne_mem id _ db.docs d hd with hd | rfl
      · exact h d hd
      · exact rateDoc_consistent p rating user (h p (findOne_mem hp))
  | unrate postID user =>
    rcases Unrate_docs db postID user with e | ⟨id, p, _, hp, e⟩
    · simpa [RatingCall.run, e] using h
    · intro d hd
      simp only [RatingCall.run, e] at hd
      rcases replaceOne_mem id _ db.docs d hd with hd | rfl
      · exact h d hd
      · exact unrateDoc_consistent p user (h p (findOne_mem hp))

theorem runCalls_consistent (calls : List RatingCall) :
    ∀ db : Mongo, (∀ d ∈ db.docs, d.Score = sumVotes d.Votes) →
      ∀ d ∈ (runCalls db calls).docs, d.Score = sumVotes d.Votes := by
  induction calls with
  | nil => intro db h; simpa [runCalls] using h
  | cons c cs ih =>
    intro db h
    exact ih (c.run db) (run_consistent db c h)

/-! ## C1 and C2: the invariants of the votes list -/

/-- C1: score/vote consistency is preserved. For every post whose score equals the sum of the
values of its votes list (the sum a Go loop over `int` values computes), every user and every
rating, the document `Rate` writes back and the document `Unrate` writes back again have a score
equal to the sum of their vote values; and in every store reached from freshly created posts
(score 0, no votes) by a sequence of `Rate` and `Unrate` calls, whatever their arguments and
outcomes, every post has a score equal to the sum of its vote values. -/
theorem score_consistency_preserved (p : Post) (u : User) (r : Int)
    (hp : p.Score = sumVotes p.Votes) (db : Mongo) (calls : List RatingCall)
    (hdb : ∀ d ∈ db.docs, d.Score = 0 ∧ d.Votes = []) :
    (rateDoc p r u).Score = sumVotes (rateDoc p r u).Votes ∧
      (unrateDoc p u).Score = sumVotes (unrateDoc p u).Votes ∧
      ∀ d ∈ (runCalls db calls).docs, d.Score = sumVotes d.Votes := by
  refine ⟨rateDoc_consistent p r u hp, unrateDoc_consistent p u hp, ?_⟩
  apply runCalls_consistent calls db
  intro d hd
  obtain ⟨h0, hv⟩ := hdb d hd
  rw [h0, hv]
  rfl

theorem score_consistency_preserved_witness :
    votedPost.Score = sumVotes votedPost.Votes ∧
      (∀ d ∈ [freshPost], d.Score = 0 ∧ d.Votes = []) ∧
      (rateDoc votedPost 5 userU2).Score = sumVotes (rateDoc votedPost 5 userU2).Votes ∧
      (unrateDoc votedPost userU2).Score = sumVotes (unrateDoc votedPost userU2).Votes ∧
      ∀ d ∈ (runCalls ⟨[freshPost], [], 0⟩
          [.rate sampleHex 1 userU1, .rate sampleHex (-1) userU2, .unrate sampleHex userU1]).docs,
        d.Score = sumVotes d.Votes :=
  have h1 : votedPost.Score = sumVotes votedPost.Votes := by decide
  have h2 : ∀ d ∈ [freshPost], d.Score = 0 ∧ d.Votes = [] := by
    intro d hd
    rw [List.mem_singleton.mp hd]
    exact ⟨rfl, rfl⟩
  ⟨h1, h2, score_consistency_preserved votedPost userU2 5 h1 ⟨[freshPost], [], 0⟩ _ h2⟩

/-- C2: vote dedup is preserved. For every post whose votes list holds at most one entry per
user id, every user and every rating, the votes list `Rate` writes back and the votes list
`Unrate` writes back hold at most one entry per user id. -/
theorem vote_dedup_preserved (p : Post) (u : User) (r : Int)
    (hp : (p.Votes.map Vote.ID).Nodup) :
    ((rateDoc p r u).Votes.map Vote.ID).Nodup ∧ ((unrateDoc p u).Votes.map Vote.ID).Nodup := by
  rcases split_first u.UserID p.Votes with h | ⟨a, x, b, hv, ha, hx⟩
  · rw [rateDoc_absent p r u h, unrateDoc_absent p u h]
    refine ⟨?_, hp⟩
    simp only [List.map_append, List.map_cons, List.map_nil]
    refine List.Nodup.append hp (List.nodup_singleton _) ?_
    intro y hy hy'
    rw [List.mem_singleton] at hy'
    obtain ⟨v, hv, rfl⟩ := List.mem_map.mp hy
    exact h v hv hy'
  · rw [rateDoc_present p r u a x b hv ha hx, unrateDoc_present p u a x b hv ha hx]
    rw [hv] at hp
    constructor
    · simpa using hp
    · exact hp.sublist (((List.Sublist.refl a).append (List.sublist_cons_self x b)).map _)

theorem vote_dedup_preserved_witness :
    (votedPost.Votes.map Vote.ID).Nodup ∧
      ((rateDoc votedPost 5 userU2).Votes.map Vote.ID).Nodup ∧
      ((unrateDoc votedPost userU2).Votes.map Vote.ID).Nodup :=
  have h : (votedPost.Votes.map Vote.ID).Nodup := by decide
  ⟨h, vote_dedup_preserved votedPost userU2 5 h⟩

/-! ## C4 and C7: the stored percentage -/

theorem rateDoc_percentage (p : Post) (r : Int) (u : User) :
    (rateDoc p r u).UpvotePercentage =
      upvotePercentage (rateDoc p r u).Score (rateDoc p r u).Votes.length := by
  rcases split_first u.UserID p.Votes with h | ⟨a, x, b, hv, ha, hx⟩
  · rw [rateDoc_absent p r u h]; simp
  · rw [rateDoc_present p r u a x b hv ha hx]; simp

theorem rateDoc_votes_length (p : Post) (r : Int) (u : User) :
    1 ≤ (rateDoc p r u).Votes.length := by
  rcases split_first u.UserID p.Votes with h | ⟨a, x, b, hv, ha, hx⟩
  · rw [rateDoc_absent p r u h]; simp
  · rw [rateDoc_present p r u a x b hv ha hx]; simp; omega

/-- C4, refuted as stated: rating a fresh post with `2 ^ 53 + 1` stores the score
`2 ^ 53 + 1 = 9007199254740993`, which `float64` rounds to `2 ^ 53`, and the percentage
`450359962737049600 = 50 * 2 ^ 53`, which is not `50` times the score. -/
theorem rate_percentage_counterexample :
    (rateDoc freshPost (2 ^ 53 + 1) userU1).Score = 9007199254740993 ∧
      (rateDoc freshPost (2 ^ 53 + 1) userU1).Votes.length = 1 ∧
      (rateDoc freshPost (2 ^ 53 + 1) userU1).UpvotePercentage = 450359962737049600 ∧
      (rateDoc freshPost (2 ^ 53 + 1) userU1).UpvotePercentage ≠
        (rateDoc freshPost (2 ^ 53 + 1) userU1).Score * 50 := by
  have hs : (rateDoc freshPost (2 ^ 53 + 1) userU1).Score = 9007199254740993 := by decide
  have hl : (rateDoc freshPost (2 ^ 53 + 1) userU1).Votes.length = 1 := by decide
  have hu : (rateDoc freshPost (2 ^ 53 + 1) userU1).UpvotePercentage = 450359962737049600 := by
    rw [rateDoc_percentage, hs, hl]
    exact upvotePercentage_two53_succ
  refine ⟨hs, hl, hu, ?_⟩
  rw [hu, hs]
  decide

/-- C4, amended: after every `Rate` call the votes list is non-empty, and the stored
`upvote_percentage` equals `50` times the post-mutation score `s` whenever `|s| * n` and
`|s| * 50` are at most `2 ^ 53`, `n` being the post-mutation number of votes (so that every
intermediate `float64` value is exact). -/
theorem rate_percentage_in_range (p : Post) (u : User) (r : Int)
    (h1 : |(rateDoc p r u).Score| * ((rateDoc p r u).Votes.length : Int) ≤ 2 ^ 53)
    (h2 : |(rateDoc p r u).Score| * 50 ≤ 2 ^ 53) :
    1 ≤ (rateDoc p r u).Votes.length ∧
      (rateDoc p r u).UpvotePercentage = (rateDoc p r u).Score * 50 := by
  refine ⟨rateDoc_votes_length p r u, ?_⟩
  rw [rateDoc_percentage, upvotePercentage_exact _ _ (rateDoc_votes_length p r u) h1 h2]
  ring

theorem rate_percentage_in_range_witness :
    |(rateDoc votedPost 5 userU2).Score| * ((rateDoc votedPost 5 userU2).Votes.length : Int)
        ≤ 2 ^ 53 ∧
      |(rateDoc votedPost 5 userU2).Score| * 50 ≤ 2 ^ 53 ∧
      1 ≤ (rateDoc votedPost 5 userU2).Votes.length ∧
      (rateDoc votedPost 5 userU2).UpvotePercentage = (rateDoc votedPost 5 userU2).Score * 50 :=
  have hs : (rateDoc votedPost 5 userU2).Score = 6 := by decide
  have hl : (rateDoc votedPost 5 userU2).Votes.length = 2 := by decide
  have h1 : |(rateDoc votedPost 5 userU2).Score| *
      ((rateDoc votedPost 5 userU2).Votes.length : Int) ≤ 2 ^ 53 := by
    rw [hs, hl]; norm_num
  have h2 : |(rateDoc votedPost 5 userU2).Score| * 50 ≤ 2 ^ 53 := by
    rw [hs]; norm_num
  ⟨h1, h2, rate_percentage_in_range votedPost userU2 5 h1 h2⟩

/-! ## C3: `Unrate` without a vote -/

theorem call_healthy (db : Mongo) (h : db.faults = []) :
    db.call.1 = false ∧ db.call.2.faults = [] := by
  simp [Mongo.call, h]

theorem replaceOne_same (id : IDtype) (p : Post) :
    ∀ docs : List Post, findOne docs id = some p →
      replaceOne docs id { p with ID := [] } = (docs, ⟨1, 0⟩) := by
  intro docs
  induction docs with
  | nil => intro h; simp [findOne] at h
  | cons d ds ih =>
    intro h
    by_cases hd : d.ID = id
    · have hpd : d = p := by simpa [findOne, List.find?_cons, hd] using h
      subst hpd
      simp [replaceOne, hd]
      rw [← hd]
    · have ht : findOne ds id = some p := by simpa [findOne, List.find?_cons, hd] using h
      simp [replaceOne, hd, ih ht]

/-- C3, refuted as stated: `Unrate` by a user without a vote on a stored fresh post, all driver
calls succeeding, returns the error `cannot replace post`. -/
theorem unrate_without_vote_counterexample :
    (∀ v ∈ freshPost.Votes, v.ID ≠ userU2.UserID) ∧
      (Unrate ⟨[freshPost], [], 0⟩ sampleHex userU2).2 = some StorageError.cannotReplacePost ∧
      (Unrate ⟨[freshPost], [], 0⟩ sampleHex userU2).2 ≠ none := by
  decide

theorem Unrate_absent_marshalled (db : Mongo) (postID : String) (u : User) (id : IDtype)
    (p : Post) (hid : ObjectIDFromHex postID = some id) (hp : findOne db.docs id = some p)
    (hu : ∀ v ∈ p.Votes, v.ID ≠ u.UserID) (hm : marshals p = true) :
    (Unrate db postID u).1.docs = db.docs ∧ (Unrate db postID u).2 ≠ none ∧
      (db.faults = [] → Unrate db postID u =
        (⟨db.docs, [], db.calls + 2⟩, some StorageError.cannotReplacePost)) := by
  have hr := replaceOne_same id p db.docs hp
  have hm' : marshals ({ p with ID := [] } : Post) = true := hm
  unfold Unrate
  rw [hid]
  have h1 := call_docs db
  have g1 := call_healthy db
  have k1 : db.call.2.calls = db.calls + 1 := rfl
  generalize db.call = c at h1 g1 k1 ⊢
  obtain ⟨failed, db1⟩ := c
  simp only at h1 g1 k1 ⊢
  cases failed with
  | true =>
    refine ⟨by simpa using h1, by simp, ?_⟩
    intro hf
    exact absurd (g1 hf).1 (by simp)
  | false =>
    simp only [h1, hp, unrateDoc_absent p u hu, hm', Bool.not_true, Bool.false_eq_true,
      if_false]
    have h2 := call_docs db1
    have g2 := call_healthy db1
    have k2 : db1.call.2.calls = db1.calls + 1 := rfl
    generalize db1.call = c2 at h2 g2 k2 ⊢
    obtain ⟨failed2, db2⟩ := c2
    simp only at h2 g2 k2 ⊢
    cases failed2 with
    | true =>
      refine ⟨by simp [h2, h1], by simp, ?_⟩
      intro hf
      exact absurd (g2 (g1 hf).2).1 (by simp)
    | false =>
      simp only [h2, h1, hr, Bool.false_eq_true, if_false]
      refine ⟨by simp, by simp, ?_⟩
      intro hf
      have f2 := (g2 (g1 hf).2).2
      obtain ⟨docs2, faults2, calls2⟩ := db2
      simp only at h2 f2 k2
      subst f2
      simp [k2, k1]

theorem Unrate_absent_unmarshalled (db : Mongo) (postID : String) (u : User) (id : IDtype)
    (p : Post) (hid : ObjectIDFromHex postID = some id) (hp : findOne db.docs id = some p)
    (hm : marshals p = false) :
    (Unrate db postID u).1.docs = db.docs ∧ (Unrate db postID u).2 ≠ none ∧
      (db.faults = [] → Unrate db postID u =
        (⟨db.docs, [], db.calls + 1⟩, some StorageError.cannotMarshal)) := by
  have hm' : marshals (unrateDoc p u) = false := by rw [marshals_unrateDoc]; exact hm
  unfold Unrate
  rw [hid]
  have h1 := call_docs db
  have g1 := call_healthy db
  have k1 : db.call.2.calls = db.calls + 1 := rfl
  generalize db.call = c at h1 g1 k1 ⊢
  obtain ⟨failed, db1⟩ := c
  simp only at h1 g1 k1 ⊢
  cases failed with
  | true =>
    refine ⟨by simpa using h1, by simp, ?_⟩
    intro hf
    exact absurd (g1 hf).1 (by simp)
  | false =>
    simp only [h1, hp, hm', Bool.not_false, if_true, Bool.false_eq_true, if_false]
    refine ⟨trivial, by simp, ?_⟩
    intro hf
    have f1 := (g1 hf).2
    obtain ⟨docs1, faults1, calls1⟩ := db1
    simp only at h1 f1 k1
    subst f1
    simp [k1, h1]

/-- C3, amended: `Unrate` by a user who has no vote in the stored post leaves every stored
document unchanged and returns a non-nil error. For a post without a comment id (`marshals`),
when no driver call fails, the replacement equals the stored document, `ReplaceOne` is reached
as the second driver call and reports `MatchedCount = 1` and `ModifiedCount = 0`, and the error
is `cannot replace post`. For a post with a comment the driver cannot marshal the replacement:
`ReplaceOne` returns its error after the one call of `FindOne`. -/
theorem unrate_without_vote (db : Mongo) (postID : String) (u : User) (id : IDtype) (p : Post)
    (hid : ObjectIDFromHex postID = some id) (hp : findOne db.docs id = some p)
    (hu : ∀ v ∈ p.Votes, v.ID ≠ u.UserID) :
    (Unrate db postID u).1.docs = db.docs ∧
      (Unrate db postID u).2 ≠ none ∧
      (marshals p = true → db.faults = [] →
        ({ unrateDoc p u with ID := id } : Post) = p ∧
        (replaceOne db.docs id (unrateDoc p u)).2 = ⟨1, 0⟩ ∧
        Unrate db postID u =
          (⟨db.docs, [], db.calls + 2⟩, some StorageError.cannotReplacePost)) ∧
      (marshals p = false → db.faults = [] →
        Unrate db postID u = (⟨db.docs, [], db.calls + 1⟩, some StorageError.cannotMarshal)) := by
  have hr := replaceOne_same id p db.docs hp
  have hsame : ({ unrateDoc p u with ID := id } : Post) = p := by
    rw [unrateDoc_absent p u hu]
    have hpid := findOne_id hp
    cases p
    simp only at hpid
    subst hpid
    rfl
  cases hm : marshals p with
  | true =>
    obtain ⟨a1, a2, a3⟩ := Unrate_absent_marshalled db postID u id p hid hp hu hm
    refine ⟨a1, a2, ?_, ?_⟩
    · intro _ hf
      refine ⟨hsame, ?_, a3 hf⟩
      rw [unrateDoc_absent p u hu, hr]
    · intro h; exact absurd h (by simp)
  | false =>
    obtain ⟨a1, a2, a3⟩ := Unrate_absent_unmarshalled db postID u id p hid hp hm
    refine ⟨a1, a2, ?_, ?_⟩
    · intro h; exact absurd h (by simp)
    · intro _ hf; exact a3 hf

theorem unrate_without_vote_witness :
    ObjectIDFromHex sampleHex = some sampleID ∧
      findOne [freshPost] sampleID = some freshPost ∧
      (∀ v ∈ freshPost.Votes, v.ID ≠ userU2.UserID) ∧
      marshals freshPost = true ∧
      (replaceOne [freshPost] sampleID (unrateDoc freshPost userU2)).2 = ⟨1, 0⟩ ∧
      Unrate ⟨[freshPost], [], 0⟩ sampleHex userU2 =
        (⟨[freshPost], [], 2⟩, some StorageError.cannotReplacePost) ∧
      findOne [commentedPost] sampleID = some commentedPost ∧
      (∀ v ∈ commentedPost.Votes, v.ID ≠ userU2.UserID) ∧
      marshals commentedPost = false ∧
      Unrate ⟨[commentedPost], [], 0⟩ sampleHex userU2 =
        (⟨[commentedPost], [], 1⟩, some StorageError.cannotMarshal) :=
  have h1 : ObjectIDFromHex sampleHex = some sampleID := by decide
  have h2 : findOne [freshPost] sampleID = some freshPost := by decide
  have h3 : ∀ v ∈ freshPost.Votes, v.ID ≠ userU2.UserID := by decide
  have h4 : marshals freshPost = true := by decide
  have h5 : findOne [commentedPost] sampleID = some commentedPost := by decide
  have h6 : ∀ v ∈ commentedPost.Votes, v.ID ≠ userU2.UserID := by decide
  have h7 : marshals commentedPost = false := by decide
  have h := unrate_without_vote ⟨[freshPost], [], 0⟩ sampleHex userU2 sampleID freshPost
    h1 h2 h3
  have hc := unrate_without_vote ⟨[commentedPost], [], 0⟩ sampleHex userU2 sampleID
    commentedPost h1 h5 h6
  ⟨h1, h2, h3, h4, (h.2.2.1 h4 rfl).2.1, (h.2.2.1 h4 rfl).2.2, h5, h6, h7, hc.2.2.2 h7 rfl⟩

/-! ## C5, C6 and C7: what `Rate` and `Unrate` do to the votes list -/

theorem index_split (u : String) :
    ∀ (l : List Vote) (i : Nat) (x : Vote), l[i]? = some x →
      (∀ j < i, ∀ y, l[j]? = some y → y.ID ≠ u) →
      ∃ a b, l = a ++ x :: b ∧ a.length = i ∧ ∀ y ∈ a, y.ID ≠ u := by
  intro l
  induction l with
  | nil => intro i x hx; simp at hx
  | cons h t ih =>
    intro i x hx hfirst
    cases i with
    | zero =>
      simp only [List.getElem?_cons_zero, Option.some.injEq] at hx
      exact ⟨[], t, by simp [hx], rfl, by simp⟩
    | succ k =>
      simp only [List.getElem?_cons_succ] at hx
      obtain ⟨a, b, hab, hlen, ha⟩ := ih k x hx (fun j hj y hy =>
        hfirst (j + 1) (by omega) y (by simpa using hy))
      refine ⟨h :: a, b, by simp [hab], by simp [hlen], ?_⟩
      intro y hy
      rcases List.mem_cons.mp hy with rfl | hy
      · exact hfirst 0 (by omega) y (by simp)
      · exact ha y hy

theorem set_at_length (a : List Vote) (x y : Vote) (b : List Vote) :
    (a ++ x :: b).set a.length y = a ++ y :: b := by
  induction a with
  | nil => rfl
  | cons h t ih => simp [ih]

theorem eraseIdx_at_length (a : List Vote) (x : Vote) (b : List Vote) :
    (a ++ x :: b).eraseIdx a.length = a ++ b := by
  induction a with
  | nil => rfl
  | cons h t ih => simp [ih]

/-- C5: `Rate` is an upsert on the votes list. If the first entry of user `u` is at index `i`
with value `old`, the written votes list is the old one with the entry at `i` set to `{u, v}`
(same length, other entries untouched) and the score is increased by `v - old`; if `u` has no
entry, the written list is the old one with `{u, v}` appended and the score is increased by
`v` (score arithmetic is that of a Go `int`). A second `Rate` by the same user never lengthens
the votes list. -/
theorem rate_is_upsert (p : Post) (u : User) (v : Int) :
    (∀ (i : Nat) (x : Vote), p.Votes[i]? = some x → x.ID = u.UserID →
        (∀ j < i, ∀ y, p.Votes[j]? = some y → y.ID ≠ u.UserID) →
        (rateDoc p v u).Votes = p.Votes.set i ⟨u.UserID, v⟩ ∧
          (rateDoc p v u).Votes.length = p.Votes.length ∧
          (rateDoc p v u).Score = wrapInt (p.Score + (v - x.Vote))) ∧
      ((∀ y ∈ p.Votes, y.ID ≠ u.UserID) →
        (rateDoc p v u).Votes = p.Votes ++ [⟨u.UserID, v⟩] ∧
          (rateDoc p v u).Score = wrapInt (p.Score + v)) ∧
      ∀ v2 : Int, (rateDoc (rateDoc p v u) v2 u).Votes.length = (rateDoc p v u).Votes.length := by
  have key : ∀ (q : Post) (w : Int) (i : Nat) (x : Vote), q.Votes[i]? = some x →
      x.ID = u.UserID → (∀ j < i, ∀ y, q.Votes[j]? = some y → y.ID ≠ u.UserID) →
      (rateDoc q w u).Votes = q.Votes.set i ⟨u.UserID, w⟩ ∧
        (rateDoc q w u).Votes.length = q.Votes.length ∧
        (rateDoc q w u).Score = wrapInt (q.Score + (w - x.Vote)) := by
    intro q w i x hx hu hfirst
    obtain ⟨a, b, hab, hlen, ha⟩ := index_split u.UserID q.Votes i x hx hfirst
    rw [rateDoc_present q w u a x b hab ha hu]
    simp only
    rw [hab, ← hlen, set_at_length, hu]
    refine ⟨rfl, by simp, ?_⟩
    simp only [addInt, subInt]
    exact wrapInt_add_right _ _
  refine ⟨key p v, ?_, ?_⟩
  · intro h
    rw [rateDoc_absent p v u h]
    exact ⟨rfl, rfl⟩
  · intro v2
    rcases split_first u.UserID (rateDoc p v u).Votes with h | ⟨a, x, b, hab, ha, hx⟩
    · exfalso
      rcases split_first u.UserID p.Votes with h0 | ⟨a, x, b, hab, ha, hx⟩
      · rw [rateDoc_absent p v u h0] at h
        exact h ⟨u.UserID, v⟩ (by simp) rfl
      · rw [rateDoc_present p v u a x b hab ha hx] at h
        exact h ⟨x.ID, v⟩ (by simp) hx
    · rw [rateDoc_present (rateDoc p v u) v2 u a x b hab ha hx, hab]
      simp

theorem rate_is_upsert_witness :
    votedPost.Votes[1]? = some ⟨"u2", -1⟩ ∧
      (∀ j < 1, ∀ y, votedPost.Votes[j]? = some y → y.ID ≠ userU2.UserID) ∧
      (∀ y ∈ freshPost.Votes, y.ID ≠ userU2.UserID) ∧
      ((rateDoc votedPost 5 userU2).Votes = votedPost.Votes.set 1 ⟨userU2.UserID, 5⟩ ∧
        (rateDoc votedPost 5 userU2).Votes.length = votedPost.Votes.length ∧
        (rateDoc votedPost 5 userU2).Score = wrapInt (votedPost.Score + (5 - (-1)))) ∧
      ((rateDoc freshPost 5 userU2).Votes = freshPost.Votes ++ [⟨userU2.UserID, 5⟩] ∧
        (rateDoc freshPost 5 userU2).Score = wrapInt (freshPost.Score + 5)) :=
  have h1 : votedPost.Votes[1]? = some ⟨"u2", -1⟩ := by decide
  have h2 : ∀ j < 1, ∀ y, votedPost.Votes[j]? = some y → y.ID ≠ userU2.UserID := by
    intro j hj y hy
    have hj0 : j = 0 := by omega
    subst hj0
    have hy' : y = ⟨"u1", 1⟩ := by
      have : votedPost.Votes[0]? = some ⟨"u1", 1⟩ := by decide
      rw [this] at hy
      exact (Option.some.inj hy).symm
    rw [hy']
    decide
  have h3 : ∀ y ∈ freshPost.Votes, y.ID ≠ userU2.UserID := by decide
  ⟨h1, h2, h3, (rate_is_upsert votedPost userU2 5).1 1 ⟨"u2", -1⟩ h1 rfl h2,
    (rate_is_upsert freshPost userU2 5).2.1 h3⟩

/-- C6: `Unrate` by a user who has a vote removes exactly that vote. If the first entry of user
`u` is at index `i` with value `x`, the written votes list is the old one with the element at
index `i` erased (one shorter, the others in their order) and the written score is the old
score minus `x` (in the arithmetic of a Go `int`). -/
theorem unrate_removes_vote (p : Post) (u : User) (i : Nat) (x : Vote)
    (hx : p.Votes[i]? = some x) (hu : x.ID = u.UserID)
    (hfirst : ∀ j < i, ∀ y, p.Votes[j]? = some y → y.ID ≠ u.UserID) :
    (unrateDoc p u).Votes = p.Votes.eraseIdx i ∧
      (unrateDoc p u).Votes.length + 1 = p.Votes.length ∧
      (unrateDoc p u).Score = wrapInt (p.Score - x.Vote) := by
  obtain ⟨a, b, hab, hlen, ha⟩ := index_split u.UserID p.Votes i x hx hfirst
  rw [unrateDoc_present p u a x b hab ha hu]
  simp only
  rw [hab, ← hlen, eraseIdx_at_length]
  refine ⟨rfl, by simp; omega, rfl⟩

theorem unrate_removes_vote_witness :
    votedPost.Votes[1]? = some ⟨"u2", -1⟩ ∧
      (∀ j < 1, ∀ y, votedPost.Votes[j]? = some y → y.ID ≠ userU2.UserID) ∧
      (unrateDoc votedPost userU2).Votes = votedPost.Votes.eraseIdx 1 ∧
      (unrateDoc votedPost userU2).Votes.length + 1 = votedPost.Votes.length ∧
      (unrateDoc votedPost userU2).Score = wrapInt (votedPost.Score - (-1)) :=
  have h1 : votedPost.Votes[1]? = some ⟨"u2", -1⟩ := by decide
  have h2 : ∀ j < 1, ∀ y, votedPost.Votes[j]? = some y → y.ID ≠ userU2.UserID := by
    intro j hj y hy
    have hj0 : j = 0 := by omega
    subst hj0
    have hy' : y = ⟨"u1", 1⟩ := by
      have : votedPost.Votes[0]? = some ⟨"u1", 1⟩ := by decide
      rw [this] at hy
      exact (Option.some.inj hy).symm
    rw [hy']
    decide
  ⟨h1, h2, unrate_removes_vote votedPost userU2 1 ⟨"u2", -1⟩ h1 rfl h2⟩

/-- C7, refuted as stated: in `hugePost` the user `u1` has a vote and one vote remains after
its removal, yet the written percentage `450359962737049600` is not `50` times the new score
`2 ^ 53 + 1`. -/
theorem unrate_percentage_counterexample :
    (∃ v ∈ hugePost.Votes, v.ID = userU1.UserID) ∧
      (unrateDoc hugePost userU1).Votes ≠ [] ∧
      (unrateDoc hugePost userU1).Score = 9007199254740993 ∧
      (unrateDoc hugePost userU1).UpvotePercentage = 450359962737049600 ∧
      (unrateDoc hugePost userU1).UpvotePercentage ≠ 50 * (unrateDoc hugePost userU1).Score := by
  have hd := unrateDoc_present hugePost userU1 [] ⟨"u1", 0⟩ [⟨"u2", 2 ^ 53 + 1⟩] rfl
    (by simp) rfl
  have hs : subInt hugePost.Score 0 = 2 ^ 53 + 1 := by decide
  have hu : (unrateDoc hugePost userU1).UpvotePercentage = 450359962737049600 := by
    rw [hd]
    simp only [List.nil_append, List.length_singleton, gt_iff_lt, Nat.lt_one_iff,
      Nat.pos_of_ne_zero, if_true, hs]
    exact upvotePercentage_two53_succ
  have hsc : (unrateDoc hugePost userU1).Score = 9007199254740993 := by
    rw [hd]; exact hs
  refine ⟨⟨⟨"u1", 0⟩, by decide, rfl⟩, by rw [hd]; simp, hsc, hu, ?_⟩
  rw [hu, hsc]
  decide

/-- C7, amended: for every post in which user `u` has a vote, if votes remain after the removal
then the written `upvote_percentage` equals `50` times the new score `s` whenever `|s| * n` and
`|s| * 50` are at most `2 ^ 53` (`n` the number of remaining votes), and if the removal empties
the votes list the written `upvote_percentage` is the value it had before the call. -/
theorem unrate_percentage (p : Post) (u : User) (hv : ∃ v ∈ p.Votes, v.ID = u.UserID) :
    ((unrateDoc p u).Votes ≠ [] →
        |(unrateDoc p u).Score| * ((unrateDoc p u).Votes.length : Int) ≤ 2 ^ 53 →
        |(unrateDoc p u).Score| * 50 ≤ 2 ^ 53 →
        (unrateDoc p u).UpvotePercentage = 50 * (unrateDoc p u).Score) ∧
      ((unrateDoc p u).Votes = [] →
        (unrateDoc p u).UpvotePercentage = p.UpvotePercentage) := by
  rcases split_first u.UserID p.Votes with h | ⟨a, x, b, hab, ha, hx⟩
  · obtain ⟨v, hv1, hv2⟩ := hv
    exact absurd hv2 (h v hv1)
  · rw [unrateDoc_present p u a x b hab ha hx]
    simp only
    constructor
    · intro hne h1 h2
      have hpos : 0 < (a ++ b).length := List.length_pos.mpr hne
      rw [if_pos hpos]
      exact upvotePercentage_exact _ _ hpos h1 h2
    · intro he
      rw [he]
      simp

theorem unrate_percentage_witness :
    (∃ v ∈ votedPost.Votes, v.ID = userU1.UserID) ∧
      (∃ v ∈ (rateDoc freshPost 1 userU1).Votes, v.ID = userU1.UserID) ∧
      (unrateDoc votedPost userU1).Votes ≠ [] ∧
      (unrateDoc votedPost userU1).UpvotePercentage = 50 * (unrateDoc votedPost userU1).Score ∧
      (unrateDoc (rateDoc freshPost 1 userU1) userU1).Votes = [] ∧
      (unrateDoc (rateDoc freshPost 1 userU1) userU1).UpvotePercentage =
        (rateDoc freshPost 1 userU1).UpvotePercentage :=
  have h1 : ∃ v ∈ votedPost.Votes, v.ID = userU1.UserID := ⟨⟨"u1", 1⟩, by decide, rfl⟩
  have h2 : ∃ v ∈ (rateDoc freshPost 1 userU1).Votes, v.ID = userU1.UserID :=
    ⟨⟨"u1", 1⟩, by decide, rfl⟩
  have h3 : (unrateDoc votedPost userU1).Votes ≠ [] := by decide
  have hs : (unrateDoc votedPost userU1).Score = -1 := by decide
  have hl : (unrateDoc votedPost userU1).Votes.length = 1 := by decide
  have h4 : |(unrateDoc votedPost userU1).Score| *
      ((unrateDoc votedPost userU1).Votes.length : Int) ≤ 2 ^ 53 := by
    rw [hs, hl]; norm_num
  have h5 : |(unrateDoc votedPost userU1).Score| * 50 ≤ 2 ^ 53 := by
    rw [hs]; norm_num
  have h6 : (unrateDoc (rateDoc freshPost 1 userU1) userU1).Votes = [] := by decide
  ⟨h1, h2, h3, (unrate_percentage votedPost userU1 h1).1 h3 h4 h5, h6,
    (unrate_percentage (rateDoc freshPost 1 userU1) userU1 h2).2 h6⟩

/-! ## Hexadecimal round trip -/

theorem fromHexChar_hexChar : ∀ n < 16, fromHexChar (hexChar n) = some n := by decide

theorem hexChar_utf8Size : ∀ n < 16, (hexChar n).utf8Size = 1 := by decide

theorem hexDecode_hexDigits (bytes : List Nat) (hb : ∀ b ∈ bytes, b < 256) :
    hexDecode (bytes.flatMap fun b => [hexChar (b / 16), hexChar (b % 16)]) = some bytes := by
  induction bytes with
  | nil => rfl
  | cons b bs ih =>
    have hlt : b < 256 := hb b (List.mem_cons_self _ _)
    have h1 : fromHexChar (hexChar (b / 16)) = some (b / 16) :=
      fromHexChar_hexChar _ (by omega)
    have h2 : fromHexChar (hexChar (b % 16)) = some (b % 16) :=
      fromHexChar_hexChar _ (by omega)
    have ih' := ih fun c hc => hb c (List.mem_cons_of_mem _ hc)
    rw [List.flatMap_cons]
    show hexDecode (hexChar (b / 16) :: hexChar (b % 16) ::
      bs.flatMap fun b => [hexChar (b / 16), hexChar (b % 16)]) = _
    rw [hexDecode, h1, h2, ih']
    simp only
    rw [Nat.div_add_mod]

theorem utf8ByteSize_go_hexDigits (bytes : List Nat) (hb : ∀ b ∈ bytes, b < 256) :
    String.utf8ByteSize.go (bytes.flatMap fun b => [hexChar (b / 16), hexChar (b % 16)]) =
      2 * bytes.length := by
  induction bytes with
  | nil => rfl
  | cons b bs ih =>
    have hlt : b < 256 := hb b (List.mem_cons_self _ _)
    have h1 : (hexChar (b / 16)).utf8Size = 1 := hexChar_utf8Size _ (by omega)
    have h2 : (hexChar (b % 16)).utf8Size = 1 := hexChar_utf8Size _ (by omega)
    have ih' := ih fun c hc => hb c (List.mem_cons_of_mem _ hc)
    rw [List.flatMap_cons]
    show String.utf8ByteSize.go (hexChar (b / 16) :: hexChar (b % 16) ::
      bs.flatMap fun b => [hexChar (b / 16), hexChar (b % 16)]) = _
    rw [String.utf8ByteSize.go, String.utf8ByteSize.go, h1, h2, ih', List.length_cons]
    omega

theorem ObjectIDFromHex_hexEncode (id : IDtype) (hlen : id.length = 12)
    (hb : ∀ b ∈ id, b < 256) : ObjectIDFromHex (hexEncode id) = some id := by
  have hsize : (hexEncode id).utf8ByteSize = 24 := by
    show String.utf8ByteSize.go _ = 24
    rw [utf8ByteSize_go_hexDigits id hb, hlen]
  unfold ObjectIDFromHex
  rw [if_neg (by simp [hsize])]
  exact hexDecode_hexDigits id hb

/-! ## Store operations on a healthy driver -/

theorem call_of_healthy (db : Mongo) (h : db.faults = []) :
    db.call = (false, ⟨db.docs, [], db.calls + 1⟩) := by
  simp [Mongo.call, h]

theorem findOne_cons_eq {d : Post} {ds : List Post} {id : IDtype} (h : d.ID = id) :
    findOne (d :: ds) id = some d := by
  simp [findOne, List.find?_cons, h]

theorem findOne_cons_ne {d : Post} {ds : List Post} {id : IDtype} (h : d.ID ≠ id) :
    findOne (d :: ds) id = findOne ds id := by
  simp [findOne, List.find?_cons, h]

theorem findOne_append_new (id : IDtype) (d : Post) (hd : d.ID = id) :
    ∀ docs : List Post, findOne docs id = none → findOne (docs ++ [d]) id = some d := by
  intro docs
  induction docs with
  | nil => intro _; exact findOne_cons_eq hd
  | cons e es ih =>
    intro h
    by_cases he : e.ID = id
    · rw [findOne_cons_eq he] at h; exact absurd h (by simp)
    · rw [findOne_cons_ne he] at h
      rw [List.cons_append, findOne_cons_ne he]
      exact ih h

theorem replaceOne_spec (id : IDtype) (repl : Post) :
    ∀ (docs : List Post) (P : Post), findOne docs id = some P →
      (replaceOne docs id repl).2 = ⟨1, if ({ repl with ID := id } : Post) = P then 0 else 1⟩ ∧
        findOne (replaceOne docs id repl).1 id = some { repl with ID := id } := by
  intro docs
  induction docs with
  | nil => intro P h; simp [findOne] at h
  | cons d ds ih =>
    intro P h
    by_cases hd : d.ID = id
    · rw [findOne_cons_eq hd] at h
      have hP : d = P := Option.some.inj h
      subst hP
      simp only [replaceOne, hd, if_true]
      constructor
      · trivial
      · exact findOne_cons_eq rfl
    · rw [findOne_cons_ne hd] at h
      obtain ⟨h1, h2⟩ := ih P h
      simp only [replaceOne, hd, if_false]
      exact ⟨h1, by rw [findOne_cons_ne hd]; exact h2⟩

theorem Rate_healthy (db : Mongo) (postID : String) (r : Int) (u : User) (pid : IDtype)
    (P : Post) (hf : db.faults = []) (hid : ObjectIDFromHex postID = some pid)
    (hp : findOne db.docs pid = some P) (hne : (rateDoc P r u).Votes ≠ P.Votes)
    (hm : marshals P = true) :
    (Rate db postID r u).2 = none ∧ (Rate db postID r u).1.faults = [] ∧
      ∃ P', findOne (Rate db postID r u).1.docs pid = some P' ∧
        P'.Score = (rateDoc P r u).Score ∧ P'.Votes = (rateDoc P r u).Votes ∧
        marshals P' = true := by
  obtain ⟨h1, h2⟩ := replaceOne_spec pid (rateDoc P r u) db.docs P hp
  have hm' : marshals (rateDoc P r u) = true := by rw [marshals_rateDoc]; exact hm
  have hne' : ({ rateDoc P r u with ID := pid } : Post) ≠ P := by
    intro h
    have hv := congrArg Post.Votes h
    exact hne hv
  rw [if_neg hne'] at h1
  have hR : Rate db postID r u =
      (⟨(replaceOne db.docs pid (rateDoc P r u)).1, [], db.calls + 1 + 1⟩, none) := by
    unfold Rate
    rw [hid]
    simp only [call_of_healthy db hf, call_of_healthy ⟨db.docs, [], db.calls + 1⟩ rfl, hp, h1,
      hm']
    simp
  rw [hR]
  exact ⟨rfl, rfl, { rateDoc P r u with ID := pid }, h2, rfl, rfl, hm'⟩

theorem Unrate_healthy (db : Mongo) (postID : String) (u : User) (pid : IDtype)
    (P : Post) (hf : db.faults = []) (hid : ObjectIDFromHex postID = some pid)
    (hp : findOne db.docs pid = some P) (hne : (unrateDoc P u).Votes ≠ P.Votes)
    (hm : marshals P = true) :
    (Unrate db postID u).2 = none ∧ (Unrate db postID u).1.faults = [] ∧
      ∃ P', findOne (Unrate db postID u).1.docs pid = some P' ∧
        P'.Score = (unrateDoc P u).Score ∧ P'.Votes = (unrateDoc P u).Votes ∧
        marshals P' = true := by
  obtain ⟨h1, h2⟩ := replaceOne_spec pid (unrateDoc P u) db.docs P hp
  have hm' : marshals (unrateDoc P u) = true := by rw [marshals_unrateDoc]; exact hm
  have hne' : ({ unrateDoc P u with ID := pid } : Post) ≠ P := by
    intro h
    have hv := congrArg Post.Votes h
    exact hne hv
  rw [if_neg hne'] at h1
  have hR : Unrate db postID u =
      (⟨(replaceOne db.docs pid (unrateDoc P u)).1, [], db.calls + 1 + 1⟩, none) := by
    unfold Unrate
    rw [hid]
    simp only [call_of_healthy db hf, call_of_healthy ⟨db.docs, [], db.calls + 1⟩ rfl, hp, h1,
      hm']
    simp
  rw [hR]
  exact ⟨rfl, rfl, { unrateDoc P u with ID := pid }, h2, rfl, rfl, hm'⟩

theorem MakePost_healthy (db : Mongo) (newPost : NewPost) (u : User) (now : String)
    (newID : IDtype) (hf : db.faults = []) (hfresh : findOne db.docs newID = none) :
    (MakePost db newPost u now newID).2 = .ok (hexEncode newID) ∧
      (MakePost db newPost u now newID).1.faults = [] ∧
      ∃ P', findOne (MakePost db newPost u now newID).1.docs newID = some P' ∧
        P'.Score = 0 ∧ P'.Votes = [] ∧ P'.Comments = [] := by
  have hM : MakePost db newPost u now newID =
      (⟨db.docs ++ [
          { Score := 0, Views := 0, Type_ := newPost.Type_, Title := newPost.Title,
            URL := newPost.URL, Author := ⟨u.Username, u.UserID⟩, Votes := [], Comments := [],
            Category := newPost.Category, Text := newPost.Text, Created := now,
            UpvotePercentage := 0, ID := newID }], [], db.calls + 1⟩,
        .ok (hexEncode newID)) := by
    unfold MakePost
    simp only [call_of_healthy db hf, hfresh]
    simp
  rw [hM]
  exact ⟨rfl, rfl, _, findOne_append_new newID _ rfl db.docs hfresh, rfl, rfl, rfl⟩

/-! ## C8: the end-to-end rating scenario -/

/-- C8: end-to-end rating scenario. On a store whose driver calls succeed, for two distinct
users `u1` and `u2` and a generated twelve-byte id not yet in the collection: `MakePost` for
`u1` succeeds and stores a post with score `0` and no votes; `Rate(+1, u1)` succeeds and leaves
score `1` and the single vote of `u1`; `Rate(-1, u2)` succeeds and leaves score `0` and the two
votes; `Unrate(u1)` succeeds and leaves score `-1` and the single vote `-1` of `u2`. -/
theorem end_to_end_rating (db : Mongo) (newPost : NewPost) (u1 u2 : User) (now : String)
    (newID : IDtype) (hu : u1.UserID ≠ u2.UserID) (hf : db.faults = [])
    (hlen : newID.length = 12) (hb : ∀ b ∈ newID, b < 256)
    (hfresh : findOne db.docs newID = none) :
    (MakePost db newPost u1 now newID).2 = .ok (hexEncode newID) ∧
      scoreAndVotes (afterCreate db newPost u1 now newID) newID = some (0, []) ∧
      (Rate (afterCreate db newPost u1 now newID) (hexEncode newID) 1 u1).2 = none ∧
      scoreAndVotes (afterUpvote db newPost u1 now newID) newID =
        some (1, [⟨u1.UserID, 1⟩]) ∧
      (Rate (afterUpvote db newPost u1 now newID) (hexEncode newID) (-1) u2).2 = none ∧
      scoreAndVotes (afterDownvote db newPost u1 u2 now newID) newID =
        some (0, [⟨u1.UserID, 1⟩, ⟨u2.UserID, -1⟩]) ∧
      (Unrate (afterDownvote db newPost u1 u2 now newID) (hexEncode newID) u1).2 = none ∧
      scoreAndVotes (afterUnvote db newPost u1 u2 now newID) newID =
        some (-1, [⟨u2.UserID, -1⟩]) := by
  have hid := ObjectIDFromHex_hexEncode newID hlen hb
  obtain ⟨e0, f0, P0, hP0, s0, v0, c0⟩ := MakePost_healthy db newPost u1 now newID hf hfresh
  have m0 := marshals_of_no_comments P0 c0
  have a0 : ∀ y ∈ P0.Votes, y.ID ≠ u1.UserID := by rw [v0]; simp
  have d1 := rateDoc_absent P0 1 u1 a0
  have hs1 : (rateDoc P0 1 u1).Score = 1 := by rw [d1, s0]; rfl
  have hv1 : (rateDoc P0 1 u1).Votes = [⟨u1.UserID, 1⟩] := by rw [d1, v0]; rfl
  obtain ⟨e1, f1, P1, hP1, s1, v1, m1⟩ := Rate_healthy _ (hexEncode newID) 1 u1 newID P0 f0
    hid hP0 (by rw [hv1, v0]; simp) m0
  rw [hs1] at s1
  rw [hv1] at v1
  have a1 : ∀ y ∈ P1.Votes, y.ID ≠ u2.UserID := by
    rw [v1]
    intro y hy
    rw [List.mem_singleton.mp hy]
    exact hu
  have d2 := rateDoc_absent P1 (-1) u2 a1
  have hs2 : (rateDoc P1 (-1) u2).Score = 0 := by rw [d2, s1]; rfl
  have hv2 : (rateDoc P1 (-1) u2).Votes = [⟨u1.UserID, 1⟩, ⟨u2.UserID, -1⟩] := by
    rw [d2, v1]; rfl
  obtain ⟨e2, f2, P2, hP2, s2, v2, m2⟩ := Rate_healthy _ (hexEncode newID) (-1) u2 newID P1 f1
    hid hP1 (by rw [hv2, v1]; simp) m1
  rw [hs2] at s2
  rw [hv2] at v2
  have d3 := unrateDoc_present P2 u1 [] ⟨u1.UserID, 1⟩ [⟨u2.UserID, -1⟩] v2 (by simp) rfl
  have hs3 : (unrateDoc P2 u1).Score = -1 := by rw [d3, s2]; rfl
  have hv3 : (unrateDoc P2 u1).Votes = [⟨u2.UserID, -1⟩] := by rw [d3]; rfl
  obtain ⟨e3, f3, P3, hP3, s3, v3, _⟩ := Unrate_healthy _ (hexEncode newID) u1 newID P2 f2 hid
    hP2 (by rw [hv3, v2]; simp) m2
  rw [hs3] at s3
  rw [hv3] at v3
  refine ⟨e0, ?_, e1, ?_, e2, ?_, e3, ?_⟩
  · simp only [scoreAndVotes, afterCreate]
    rw [hP0, Option.map_some', s0, v0]
  · simp only [scoreAndVotes, afterUpvote, afterCreate]
    rw [hP1, Option.map_some', s1, v1]
  · simp only [scoreAndVotes, afterDownvote, afterUpvote, afterCreate]
    rw [hP2, Option.map_some', s2, v2]
  · simp only [scoreAndVotes, afterUnvote, afterDownvote, afterUpvote, afterCreate]
    rw [hP3, Option.map_some', s3, v3]

theorem end_to_end_rating_witness :
    userU1.UserID ≠ userU2.UserID ∧ sampleID.length = 12 ∧ (∀ b ∈ sampleID, b < 256) ∧
      findOne ([] : List Post) sampleID = none ∧
      scoreAndVotes (afterCreate ⟨[], [], 0⟩ ⟨"music", "text", "", "T", "some text"⟩ userU1
        "2021-01-01T00:00:00Z" sampleID) sampleID = some (0, []) ∧
      scoreAndVotes (afterUnvote ⟨[], [], 0⟩ ⟨"music", "text", "", "T", "some text"⟩ userU1
        userU2 "2021-01-01T00:00:00Z" sampleID) sampleID = some (-1, [⟨"u2", -1⟩]) :=
  have h1 : userU1.UserID ≠ userU2.UserID := by decide
  have h2 : sampleID.length = 12 := by decide
  have h3 : ∀ b ∈ sampleID, b < 256 := by decide
  have h4 : findOne ([] : List Post) sampleID = none := rfl
  have h := end_to_end_rating ⟨[], [], 0⟩ ⟨"music", "text", "", "T", "some text"⟩ userU1
    userU2 "2021-01-01T00:00:00Z" sampleID h1 rfl h2 h3 h4
  ⟨h1, h2, h3, h4, h.2.1, h.2.2.2.2.2.2.2⟩

/-! ## C10: comments -/

theorem pushComment_spec (id : IDtype) (c : Comment) :
    ∀ (docs : List Post) (P : Post), findOne docs id = some P →
      (pushComment docs id c).2 = ⟨1, 1⟩ ∧
        findOne (pushComment docs id c).1 id =
          some { P with Comments := P.Comments ++ [c] } := by
  intro docs
  induction docs with
  | nil => intro P h; simp [findOne] at h
  | cons d ds ih =>
    intro P h
    by_cases hd : d.ID = id
    · rw [findOne_cons_eq hd] at h
      have hP : d = P := Option.some.inj h
      subst hP
      subst hd
      simp only [pushComment, if_true]
      constructor
      · trivial
      · exact findOne_cons_eq rfl
    · rw [findOne_cons_ne hd] at h
      obtain ⟨h1, h2⟩ := ih P h
      simp only [pushComment, hd, if_false]
      exact ⟨h1, by rw [findOne_cons_ne hd]; exact h2⟩

theorem pullComment_spec (id commentID : IDtype) :
    ∀ (docs : List Post) (P : Post), findOne docs id = some P →
      (pullComment docs id commentID).2 =
          ⟨1, if (P.Comments.filter fun c => !decide (c.ID = commentID)) = P.Comments
            then 0 else 1⟩ ∧
        findOne (pullComment docs id commentID).1 id =
          some { P with Comments := P.Comments.filter fun c => !decide (c.ID = commentID) } := by
  intro docs
  induction docs with
  | nil => intro P h; simp [findOne] at h
  | cons d ds ih =>
    intro P h
    by_cases hd : d.ID = id
    · rw [findOne_cons_eq hd] at h
      have hP : d = P := Option.some.inj h
      subst hP
      subst hd
      simp only [pullComment, if_true]
      constructor
      · trivial
      · exact findOne_cons_eq rfl
    · rw [findOne_cons_ne hd] at h
      obtain ⟨h1, h2⟩ := ih P h
      simp only [pullComment, hd, if_false]
      exact ⟨h1, by rw [findOne_cons_ne hd]; exact h2⟩

theorem CheckCommentExist_healthy (db : Mongo) (postID commentID : String) (pid c : IDtype)
    (hf : db.faults = []) (hpid : ObjectIDFromHex postID = some pid)
    (hcid : ObjectIDFromHex commentID = some c) :
    (CheckCommentExist db postID commentID).2 =
      match findOne db.docs pid with
      | none => (StatusPostNotExist, none)
      | some post =>
        if post.Comments.any fun comment => decide (comment.ID = c) then (StatusCommentOK, none)
        else (StatusCommentNotExist, none) := by
  unfold CheckCommentExist
  rw [hpid, hcid]
  simp only [call_of_healthy db hf]
  simp only [Bool.false_eq_true, if_false]
  cases findOne db.docs pid with
  | none => rfl
  | some post =>
    simp only
    split <;> rfl

theorem MakeComment_healthy (db : Mongo) (postID comment : String) (user : User)
    (now : String) (c pid : IDtype) (P : Post) (hf : db.faults = [])
    (hpid : ObjectIDFromHex postID = some pid) (hP : findOne db.docs pid = some P) :
    (MakeComment db postID comment user now c).2 = none ∧
      (MakeComment db postID comment user now c).1.faults = [] ∧
      findOne (MakeComment db postID comment user now c).1.docs pid =
        some { P with Comments := P.Comments ++
          [(⟨now, ⟨user.Username, user.UserID⟩, comment, c⟩ : Comment)] } := by
  obtain ⟨p1, p2⟩ := pushComment_spec pid
    ⟨now, ⟨user.Username, user.UserID⟩, comment, c⟩ db.docs P hP
  have hMC : MakeComment db postID comment user now c =
      (⟨(pushComment db.docs pid
          (⟨now, ⟨user.Username, user.UserID⟩, comment, c⟩ : Comment)).1, [],
        db.calls + 1⟩, none) := by
    unfold MakeComment
    rw [hpid]
    simp only [call_of_healthy db hf, p1]
    simp
  rw [hMC]
  exact ⟨rfl, rfl, p2⟩

theorem DeleteComment_healthy (db : Mongo) (postID commentID : String) (pid c : IDtype)
    (P : Post) (hf : db.faults = []) (hpid : ObjectIDFromHex postID = some pid)
    (hcid : ObjectIDFromHex commentID = some c) (hP : findOne db.docs pid = some P)
    (hne : (P.Comments.filter fun x => !decide (x.ID = c)) ≠ P.Comments) :
    (DeleteComment db postID commentID).2 = none ∧
      (DeleteComment db postID commentID).1.faults = [] ∧
      findOne (DeleteComment db postID commentID).1.docs pid =
        some { P with Comments := P.Comments.filter fun x => !decide (x.ID = c) } := by
  obtain ⟨q1, q2⟩ := pullComment_spec pid c db.docs P hP
  rw [if_neg hne] at q1
  have hDC : DeleteComment db postID commentID =
      (⟨(pullComment db.docs pid c).1, [], db.calls + 1⟩, none) := by
    unfold DeleteComment
    rw [hpid, hcid]
    simp only [call_of_healthy db hf, q1]
    simp
  rw [hDC]
  exact ⟨rfl, rfl, q2⟩

/-- C10: comment add/remove round trip. On a store whose driver calls succeed, for every stored
post and every comment id `c` (given as the string `commentID` that decodes to it):
`MakeComment` appending the comment with id `c` succeeds and `CheckCommentExist` then returns
`StatusCommentOK`; the following `DeleteComment` of `c` succeeds and `CheckCommentExist` then
returns `StatusCommentNotExist`; and for a well-formed post id that names no stored document
`CheckCommentExist` returns `StatusPostNotExist`. -/
theorem comment_round_trip (db : Mongo) (postID commentID comment : String) (user : User)
    (now : String) (pid c : IDtype) (P : Post) (db2 : Mongo) (postID2 : String) (pid2 : IDtype)
    (hf : db.faults = []) (hpid : ObjectIDFromHex postID = some pid)
    (hcid : ObjectIDFromHex commentID = some c) (hP : findOne db.docs pid = some P)
    (hf2 : db2.faults = []) (hpid2 : ObjectIDFromHex postID2 = some pid2)
    (hnone : findOne db2.docs pid2 = none) :
    (MakeComment db postID comment user now c).2 = none ∧
      (CheckCommentExist (afterComment db postID comment user now c) postID commentID).2 =
        (StatusCommentOK, none) ∧
      (DeleteComment (afterComment db postID comment user now c) postID commentID).2 = none ∧
      (CheckCommentExist (afterCommentDeleted db postID comment user now c commentID)
        postID commentID).2 = (StatusCommentNotExist, none) ∧
      (CheckCommentExist db2 postID2 commentID).2 = (StatusPostNotExist, none) := by
  obtain ⟨m1, m2, m3⟩ := MakeComment_healthy db postID comment user now c pid P hf hpid hP
  have hfiltne : ((P.Comments ++ [(⟨now, ⟨user.Username, user.UserID⟩, comment, c⟩ : Comment)]).filter
      fun x : Comment => !decide (x.ID = c)) ≠
      P.Comments ++ [(⟨now, ⟨user.Username, user.UserID⟩, comment, c⟩ : Comment)] := by
    intro h
    have hm : (⟨now, ⟨user.Username, user.UserID⟩, comment, c⟩ : Comment) ∈
        (P.Comments ++ [(⟨now, ⟨user.Username, user.UserID⟩, comment, c⟩ : Comment)]).filter
          fun x : Comment => !decide (x.ID = c) := by
      rw [h]; simp
    simp at hm
  obtain ⟨d1, d2, d3⟩ := DeleteComment_healthy (afterComment db postID comment user now c)
    postID commentID pid c _ m2 hpid hcid m3 hfiltne
  refine ⟨m1, ?_, d1, ?_, ?_⟩
  · rw [CheckCommentExist_healthy (afterComment db postID comment user now c) postID
      commentID pid c m2 hpid hcid]
    rw [show findOne (afterComment db postID comment user now c).docs pid = _ from m3]
    simp
  · rw [CheckCommentExist_healthy (afterCommentDeleted db postID comment user now c commentID)
      postID commentID pid c d2 hpid hcid]
    rw [show findOne (afterCommentDeleted db postID comment user now c commentID).docs pid = _
      from d3]
    simp
  · rw [CheckCommentExist_healthy db2 postID2 commentID pid2 c hf2 hpid2 hcid, hnone]

theorem comment_round_trip_witness :
    ObjectIDFromHex sampleHex = some sampleID ∧
      ObjectIDFromHex "0102030405060708090a0b0c" = some [1, 2, 3, 4, 5, 6, 7, 8, 9, 10, 11, 12] ∧
      findOne [freshPost] sampleID = some freshPost ∧
      findOne ([] : List Post) sampleID = none ∧
      (CheckCommentExist (afterComment ⟨[freshPost], [], 0⟩ sampleHex "hello" userU2
        "2021-01-02T00:00:00Z" [1, 2, 3, 4, 5, 6, 7, 8, 9, 10, 11, 12]) sampleHex
        "0102030405060708090a0b0c").2 = (StatusCommentOK, none) ∧
      (CheckCommentExist (afterCommentDeleted ⟨[freshPost], [], 0⟩ sampleHex "hello" userU2
        "2021-01-02T00:00:00Z" [1, 2, 3, 4, 5, 6, 7, 8, 9, 10, 11, 12]
        "0102030405060708090a0b0c") sampleHex "0102030405060708090a0b0c").2 =
        (StatusCommentNotExist, none) ∧
      (CheckCommentExist ⟨[], [], 0⟩ sampleHex "0102030405060708090a0b0c").2 =
        (StatusPostNotExist, none) :=
  have h1 : ObjectIDFromHex sampleHex = some sampleID := by decide
  have h2 : ObjectIDFromHex "0102030405060708090a0b0c" =
      some [1, 2, 3, 4, 5, 6, 7, 8, 9, 10, 11, 12] := by decide
  have h3 : findOne [freshPost] sampleID = some freshPost := by decide
  have h4 : findOne ([] : List Post) sampleID = none := rfl
  have h := comment_round_trip ⟨[freshPost], [], 0⟩ sampleHex "0102030405060708090a0b0c"
    "hello" userU2 "2021-01-02T00:00:00Z" sampleID [1, 2, 3, 4, 5, 6, 7, 8, 9, 10, 11, 12]
    freshPost ⟨[], [], 0⟩ sampleHex sampleID rfl h1 h2 h3 rfl h1 h4
  ⟨h1, h2, h3, h4, h.2.1, h.2.2.2.1, h.2.2.2.2⟩

/-! ## C9: post creation and the self-upvote -/

theorem replaceOne_cons_ne {e : Post} {id : IDtype} (he : e.ID ≠ id) (ds : List Post)
    (repl : Post) :
    replaceOne (e :: ds) id repl =
      (e :: (replaceOne ds id repl).1, (replaceOne ds id repl).2) := by
  simp [replaceOne, he]

theorem incViews_cons_ne {e : Post} {id : IDtype} (he : e.ID ≠ id) (ds : List Post) :
    incViews (e :: ds) id = (e :: (incViews ds id).1, (incViews ds id).2) := by
  simp [incViews, he]

theorem replaceOne_append_new (id : IDtype) (d repl : Post) (hd : d.ID = id) :
    ∀ docs : List Post, findOne docs id = none →
      replaceOne (docs ++ [d]) id repl =
        (docs ++ [{ repl with ID := id }],
          ⟨1, if ({ repl with ID := id } : Post) = d then 0 else 1⟩) := by
  intro docs
  induction docs with
  | nil => intro _; simp [replaceOne, hd]
  | cons e es ih =>
    intro h
    by_cases he : e.ID = id
    · rw [findOne_cons_eq he] at h; exact absurd h (by simp)
    · rw [findOne_cons_ne he] at h
      rw [List.cons_append, replaceOne_cons_ne he, ih h]
      rfl

theorem incViews_append_new (id : IDtype) (d : Post) (hd : d.ID = id) :
    ∀ docs : List Post, findOne docs id = none →
      incViews (docs ++ [d]) id = (docs ++ [{ d with Views := d.Views + 1 }], some d) := by
  intro docs
  induction docs with
  | nil => intro _; simp [incViews, hd]
  | cons e es ih =>
    intro h
    by_cases he : e.ID = id
    · rw [findOne_cons_eq he] at h; exact absurd h (by simp)
    · rw [findOne_cons_ne he] at h
      rw [List.cons_append, incViews_cons_ne he, ih h]
      rfl

theorem MakePost_cases (db : Mongo) (np : NewPost) (u : User) (now : String) (newID : IDtype) :
    ((MakePost db np u now newID).2 = .error .driver ∧
        (MakePost db np u now newID).1.docs = db.docs) ∨
      ((MakePost db np u now newID).2 = .ok (hexEncode newID) ∧
        findOne db.docs newID = none ∧
        (MakePost db np u now newID).1.docs = db.docs ++ [insertedPost np u now newID]) := by
  unfold MakePost
  have h1 := call_docs db
  generalize db.call = c at h1 ⊢
  obtain ⟨failed, db1⟩ := c
  simp only at h1 ⊢
  cases failed with
  | true => left; exact ⟨rfl, h1⟩
  | false =>
    simp only [Bool.false_eq_true, if_false, h1]
    cases hfo : findOne db.docs newID with
    | some p => left; simp [h1]
    | none => right; simp [insertedPost]

theorem Rate_result (db : Mongo) (postID : String) (r : Int) (u : User) :
    ((Rate db postID r u).2 ≠ none ∧ (Rate db postID r u).1.docs = db.docs) ∨
      ∃ id p, ObjectIDFromHex postID = some id ∧ findOne db.docs id = some p ∧
        (Rate db postID r u).1.docs = (replaceOne db.docs id (rateDoc p r u)).1 ∧
        ((Rate db postID r u).2 = none ↔
          (replaceOne db.docs id (rateDoc p r u)).2 = ⟨1, 1⟩) := by
  unfold Rate
  cases hid : ObjectIDFromHex postID with
  | none => left; exact ⟨by simp, rfl⟩
  | some id =>
    have h1 := call_docs db
    generalize db.call = c at h1 ⊢
    obtain ⟨failed, db1⟩ := c
    simp only at h1 ⊢
    cases failed with
    | true => left; exact ⟨by simp, by simpa using h1⟩
    | false =>
      simp only [h1, Bool.false_eq_true, if_false]
      cases hp : findOne db.docs id with
      | none => left; exact ⟨by simp, by simpa using h1⟩
      | some p =>
        simp only
        split
        · left; exact ⟨by simp, h1⟩
        · have h2 := call_docs db1
          generalize db1.call = c2 at h2 ⊢
          obtain ⟨failed2, db2⟩ := c2
          simp only at h2 ⊢
          cases failed2 with
          | true => left; exact ⟨by simp, by simp [h2, h1]⟩
          | false =>
            right
            refine ⟨id, p, rfl, hp, ?_⟩
            simp only [h2, h1, Bool.false_eq_true, if_false]
            generalize replaceOne db.docs id (rateDoc p r u) = res
            obtain ⟨docs', m, n⟩ := res
            by_cases hm : m = 1 <;> by_cases hn : n = 1 <;> simp [hm, hn]

theorem GetPost_docs (db : Mongo) (postID : String) :
    (GetPost db postID).1.docs = db.docs ∨
      ∃ id, ObjectIDFromHex postID = some id ∧
        (GetPost db postID).1.docs = (incViews db.docs id).1 := by
  unfold GetPost
  cases hid : ObjectIDFromHex postID with
  | none => left; rfl
  | some id =>
    have h1 := call_docs db
    generalize db.call = c at h1 ⊢
    obtain ⟨failed, db1⟩ := c
    simp only at h1 ⊢
    cases failed with
    | true => left; simpa using h1
    | false =>
      simp only [h1, Bool.false_eq_true, if_false]
      cases hp : findOne db.docs id with
      | none => left; simpa using h1
      | some p =>
        simp only
        split
        · right; exact ⟨id, rfl, rfl⟩
        · left; simpa using h1

theorem rateDoc_inserted (np : NewPost) (u : User) (now : String) (newID : IDtype) :
    (rateDoc (insertedPost np u now newID) 1 u).Score = 1 ∧
      (rateDoc (insertedPost np u now newID) 1 u).Votes = [⟨u.UserID, 1⟩] := by
  rw [rateDoc_absent (insertedPost np u now newID) 1 u (by simp [insertedPost])]
  exact ⟨rfl, rfl⟩

theorem handler_run (urlParse : String → Option (String × String)) (db : Mongo)
    (np : NewPost) (u : User) (now : String) (newID : IDtype)
    (hvalid : makePostErrors urlParse (normalizePost np) = []) :
    PostHandler.MakePost urlParse db (some np) (some u) now newID =
      match MakePost db (normalizePost np) u now newID with
      | (db, .error _) => (db, ⟨500, [], none⟩)
      | (db, .ok postID) =>
        match Rate db postID 1 u with
        | (db, some _) => (db, ⟨500, [], none⟩)
        | (db, none) =>
          match GetPost db postID with
          | (db, .error _) => (db, ⟨500, [], none⟩)
          | (db, .ok data) => (db, ⟨201, [], some data⟩) := by
  simp [PostHandler.MakePost, hvalid]

/-- C9, refuted as stated: a valid create request whose insert succeeds and whose self-upvote
fails at its first driver call leaves the new post in the store with score 0 and no votes,
and is answered with 500. -/
theorem create_not_atomic_counterexample :
    makePostErrors noURL (normalizePost textRequest) = [] ∧
      (MakePost ⟨[], [false, true], 0⟩ (normalizePost textRequest) userU1
        "2021-01-01T00:00:00Z" sampleID).2 = .ok sampleHex ∧
      (Rate (MakePost ⟨[], [false, true], 0⟩ (normalizePost textRequest) userU1
        "2021-01-01T00:00:00Z" sampleID).1 sampleHex 1 userU1).2 = some StorageError.driver ∧
      (PostHandler.MakePost noURL ⟨[], [false, true], 0⟩ (some textRequest) (some userU1)
        "2021-01-01T00:00:00Z" sampleID).1.docs = [freshPost] ∧
      freshPost.Score = 0 ∧ freshPost.Votes = [] ∧
      (PostHandler.MakePost noURL ⟨[], [false, true], 0⟩ (some textRequest) (some userU1)
        "2021-01-01T00:00:00Z" sampleID).2.status = 500 := by
  decide

/-- C9, amended: creation is two separate writes without a rollback. For every valid create
request (`newID` a twelve-byte id): if `Storage.MakePost` fails the store holds no new post; if
it succeeds and the following `Storage.Rate(postID, 1, user)` returns an error, the new post
stays in the store with score 0 and no votes and the answer is 500; if `Rate` succeeds, the
store holds the new post with score 1 and votes exactly `[{author id, +1}]`. -/
theorem create_is_two_writes (urlParse : String → Option (String × String)) (db : Mongo)
    (np : NewPost) (u : User) (now : String) (newID : IDtype)
    (hvalid : makePostErrors urlParse (normalizePost np) = [])
    (hlen : newID.length = 12) (hb : ∀ b ∈ newID, b < 256) :
    (∀ e, (MakePost db (normalizePost np) u now newID).2 = .error e →
        (PostHandler.MakePost urlParse db (some np) (some u) now newID).1.docs = db.docs) ∧
      ((MakePost db (normalizePost np) u now newID).2 = .ok (hexEncode newID) →
        (Rate (MakePost db (normalizePost np) u now newID).1 (hexEncode newID) 1 u).2 ≠ none →
        (PostHandler.MakePost urlParse db (some np) (some u) now newID).1.docs =
            db.docs ++ [insertedPost (normalizePost np) u now newID] ∧
          (insertedPost (normalizePost np) u now newID).Score = 0 ∧
          (insertedPost (normalizePost np) u now newID).Votes = [] ∧
          (PostHandler.MakePost urlParse db (some np) (some u) now newID).2.status = 500) ∧
      ((MakePost db (normalizePost np) u now newID).2 = .ok (hexEncode newID) →
        (Rate (MakePost db (normalizePost np) u now newID).1 (hexEncode newID) 1 u).2 = none →
        ∃ P1, (PostHandler.MakePost urlParse db (some np) (some u) now newID).1.docs =
            db.docs ++ [P1] ∧
          P1.Score = 1 ∧ P1.Votes = [⟨u.UserID, 1⟩] ∧ P1.ID = newID) := by
  have hid := ObjectIDFromHex_hexEncode newID hlen hb
  have hrun := handler_run urlParse db np u now newID hvalid
  have hcases := MakePost_cases db (normalizePost np) u now newID
  obtain ⟨hs, hv⟩ := rateDoc_inserted (normalizePost np) u now newID
  generalize hM : MakePost db (normalizePost np) u now newID = m at hrun hcases ⊢
  obtain ⟨db1, r1⟩ := m
  cases r1 with
  | error e1 =>
    simp only at hrun hcases ⊢
    refine ⟨?_, ?_, ?_⟩
    · intro _ _
      rw [hrun]
      rcases hcases with ⟨_, h⟩ | ⟨h, _⟩
      · exact h
      · exact absurd h (by simp)
    · intro h; exact absurd h (by simp)
    · intro h; exact absurd h (by simp)
  | ok pid =>
    simp only at hrun hcases ⊢
    rcases hcases with ⟨h, _⟩ | ⟨hpid, hfresh, hdocs⟩
    · exact absurd h (by simp)
    · have hpid' : pid = hexEncode newID := by simpa using hpid
      subst hpid'
      have hfind : findOne db1.docs newID = some (insertedPost (normalizePost np) u now newID) := by
        rw [hdocs]; exact findOne_append_new newID _ rfl db.docs hfresh
      have hrep := replaceOne_append_new newID (insertedPost (normalizePost np) u now newID)
        (rateDoc (insertedPost (normalizePost np) u now newID) 1 u) rfl db.docs hfresh
      have hne : ({ rateDoc (insertedPost (normalizePost np) u now newID) 1 u with
          ID := newID } : Post) ≠ insertedPost (normalizePost np) u now newID := by
        intro h
        have h' := congrArg Post.Votes h
        simp only [hv] at h'
        simp [insertedPost] at h'
      rw [if_neg hne] at hrep
      have hres := Rate_result db1 (hexEncode newID) 1 u
      generalize hR : Rate db1 (hexEncode newID) 1 u = rr at hrun hres ⊢
      obtain ⟨db2, r2⟩ := rr
      simp only at hrun hres ⊢
      refine ⟨fun e h => absurd h (by simp), ?_, ?_⟩
      · intro _ hr2
        rcases hres with ⟨_, hd⟩ | ⟨id, p, hid', hp', _, hiff⟩
        · cases r2 with
          | none => exact absurd rfl hr2
          | some e2 =>
            simp only at hrun
            rw [hrun]
            exact ⟨by rw [hd, hdocs], rfl, rfl, rfl⟩
        · exfalso
          rw [hid] at hid'
          have hidn : newID = id := Option.some.inj hid'
          subst hidn
          rw [hfind] at hp'
          have hpn := Option.some.inj hp'
          subst hpn
          rw [hdocs, hrep] at hiff
          exact hr2 (hiff.mpr rfl)
      · intro _ hr2
        subst hr2
        simp only at hrun
        rcases hres with ⟨hn, _⟩ | ⟨id, p, hid', hp', hd, _⟩
        · exact absurd rfl hn
        · rw [hid] at hid'
          have hidn : newID = id := Option.some.inj hid'
          subst hidn
          rw [hfind] at hp'
          have hpn := Option.some.inj hp'
          subst hpn
          rw [hdocs, hrep] at hd
          simp only at hd
          have hg := GetPost_docs db2 (hexEncode newID)
          generalize hG : GetPost db2 (hexEncode newID) = g at hrun hg
          obtain ⟨db3, r3⟩ := g
          have hfinal : (PostHandler.MakePost urlParse db (some np) (some u) now newID).1 = db3 := by
            rw [hrun]; cases r3 <;> rfl
          rw [hfinal]
          simp only at hg
          rcases hg with hg | ⟨id, hid'', hg⟩
          · refine ⟨{ rateDoc (insertedPost (normalizePost np) u now newID) 1 u with
              ID := newID }, ?_, hs, hv, rfl⟩
            rw [hg, hd]
          · rw [hid] at hid''
            have hidn : newID = id := Option.some.inj hid''
            subst hidn
            rw [hd, incViews_append_new newID _ rfl db.docs hfresh] at hg
            refine ⟨{ rateDoc (insertedPost (normalizePost np) u now newID) 1 u with
              ID := newID
              Views := (rateDoc (insertedPost (normalizePost np) u now newID) 1 u).Views + 1 },
              ?_, hs, hv, rfl⟩
            rw [hg]

theorem create_is_two_writes_witness :
    makePostErrors noURL (normalizePost textRequest) = [] ∧
      sampleID.length = 12 ∧ (∀ b ∈ sampleID, b < 256) ∧
      (MakePost ⟨[], [false, true], 0⟩ (normalizePost textRequest) userU1
        "2021-01-01T00:00:00Z" sampleID).2 = .ok (hexEncode sampleID) ∧
      (Rate (MakePost ⟨[], [false, true], 0⟩ (normalizePost textRequest) userU1
        "2021-01-01T00:00:00Z" sampleID).1 (hexEncode sampleID) 1 userU1).2 ≠ none ∧
      (PostHandler.MakePost noURL ⟨[], [false, true], 0⟩ (some textRequest) (some userU1)
        "2021-01-01T00:00:00Z" sampleID).1.docs =
        [] ++ [insertedPost (normalizePost textRequest) userU1 "2021-01-01T00:00:00Z" sampleID] ∧
      (MakePost ⟨[], [], 0⟩ (normalizePost textRequest) userU1
        "2021-01-01T00:00:00Z" sampleID).2 = .ok (hexEncode sampleID) ∧
      (Rate (MakePost ⟨[], [], 0⟩ (normalizePost textRequest) userU1
        "2021-01-01T00:00:00Z" sampleID).1 (hexEncode sampleID) 1 userU1).2 = none ∧
      (∃ P1, (PostHandler.MakePost noURL ⟨[], [], 0⟩ (some textRequest) (some userU1)
          "2021-01-01T00:00:00Z" sampleID).1.docs = [] ++ [P1] ∧
        P1.Score = 1 ∧ P1.Votes = [⟨userU1.UserID, 1⟩] ∧ P1.ID = sampleID) ∧
      (MakePost ⟨[], [true], 0⟩ (normalizePost textRequest) userU1
        "2021-01-01T00:00:00Z" sampleID).2 = .error StorageError.driver ∧
      (PostHandler.MakePost noURL ⟨[], [true], 0⟩ (some textRequest) (some userU1)
        "2021-01-01T00:00:00Z" sampleID).1.docs = [] :=
  have h1 : makePostErrors noURL (normalizePost textRequest) = [] := by decide
  have h2 : sampleID.length = 12 := by decide
  have h3 : ∀ b ∈ sampleID, b < 256 := by decide
  have h4 : (MakePost ⟨[], [false, true], 0⟩ (normalizePost textRequest) userU1
      "2021-01-01T00:00:00Z" sampleID).2 = .ok (hexEncode sampleID) := by decide
  have h5 : (Rate (MakePost ⟨[], [false, true], 0⟩ (normalizePost textRequest) userU1
      "2021-01-01T00:00:00Z" sampleID).1 (hexEncode sampleID) 1 userU1).2 ≠ none := by decide
  have h6 : (MakePost ⟨[], [], 0⟩ (normalizePost textRequest) userU1
      "2021-01-01T00:00:00Z" sampleID).2 = .ok (hexEncode sampleID) := by decide
  have h7 : (Rate (MakePost ⟨[], [], 0⟩ (normalizePost textRequest) userU1
      "2021-01-01T00:00:00Z" sampleID).1 (hexEncode sampleID) 1 userU1).2 = none := by decide
  have h8 : (MakePost ⟨[], [true], 0⟩ (normalizePost textRequest) userU1
      "2021-01-01T00:00:00Z" sampleID).2 = .error StorageError.driver := by decide
  ⟨h1, h2, h3, h4, h5,
    ((create_is_two_writes noURL ⟨[], [false, true], 0⟩ textRequest userU1
      "2021-01-01T00:00:00Z" sampleID h1 h2 h3).2.1 h4 h5).1,
    h6, h7,
    (create_is_two_writes noURL ⟨[], [], 0⟩ textRequest userU1
      "2021-01-01T00:00:00Z" sampleID h1 h2 h3).2.2 h6 h7,
    h8,
    (create_is_two_writes noURL ⟨[], [true], 0⟩ textRequest userU1
      "2021-01-01T00:00:00Z" sampleID h1 h2 h3).1 _ h8⟩

/-! ## C11: the classification made by `CheckCommentExist` -/

theorem CheckCommentExist_of_call (db : Mongo) (postID commentID : String) (pid c : IDtype)
    (hcall : db.call.1 = false) (hpid : ObjectIDFromHex postID = some pid)
    (hcid : ObjectIDFromHex commentID = some c) :
    (CheckCommentExist db postID commentID).2 =
      match findOne db.docs pid with
      | none => (StatusPostNotExist, none)
      | some post =>
        if post.Comments.any fun comment => decide (comment.ID = c) then (StatusCommentOK, none)
        else (StatusCommentNotExist, none) := by
  unfold CheckCommentExist
  rw [hpid, hcid]
  have h1 := call_docs db
  generalize db.call = cl at h1 hcall ⊢
  obtain ⟨failed, db1⟩ := cl
  simp only at h1 hcall ⊢
  subst hcall
  simp only [h1, Bool.false_eq_true, if_false]
  cases findOne db.docs pid with
  | none => rfl
  | some post =>
    simp only
    split <;> rfl

/-- C11: `CheckCommentExist` classifies exactly. For well-formed post and comment ids and every
collection (the `FindOne` call itself not failing): the result is `(StatusPostNotExist, nil)`
iff no document has the post id; `(StatusCommentOK, nil)` iff the document exists and some
element of its comments has an id equal to the comment id; `(StatusCommentNotExist, nil)` iff
the document exists and no element of its comments has that id. The three status codes and
`StatusError` are pairwise distinct. -/
theorem comment_status_exact (db : Mongo) (postID commentID : String) (pid c : IDtype)
    (hcall : db.call.1 = false) (hpid : ObjectIDFromHex postID = some pid)
    (hcid : ObjectIDFromHex commentID = some c) :
    ((CheckCommentExist db postID commentID).2 = (StatusPostNotExist, none) ↔
        ∀ d ∈ db.docs, d.ID ≠ pid) ∧
      ((CheckCommentExist db postID commentID).2 = (StatusCommentOK, none) ↔
        ∃ post, findOne db.docs pid = some post ∧ ∃ comment ∈ post.Comments, comment.ID = c) ∧
      ((CheckCommentExist db postID commentID).2 = (StatusCommentNotExist, none) ↔
        ∃ post, findOne db.docs pid = some post ∧ ∀ comment ∈ post.Comments, comment.ID ≠ c) ∧
      (StatusCommentOK ≠ StatusError ∧ StatusCommentOK ≠ StatusCommentNotExist ∧
        StatusCommentOK ≠ StatusPostNotExist ∧ StatusError ≠ StatusCommentNotExist ∧
        StatusError ≠ StatusPostNotExist ∧ StatusCommentNotExist ≠ StatusPostNotExist) := by
  rw [CheckCommentExist_of_call db postID commentID pid c hcall hpid hcid]
  have hnone : findOne db.docs pid = none ↔ ∀ d ∈ db.docs, d.ID ≠ pid := by
    simp [findOne, List.find?_eq_none]
  refine ⟨?_, ?_, ?_, by decide⟩
  · cases hf : findOne db.docs pid with
    | none =>
      simp only [true_iff]
      exact hnone.mp hf
    | some post =>
      have hn : ¬ ∀ d ∈ db.docs, d.ID ≠ pid := fun h => by
        rw [hnone.mpr h] at hf; exact absurd hf (by simp)
      simp only
      split <;> simp [StatusPostNotExist, StatusCommentOK, StatusCommentNotExist, hn]
  · cases hf : findOne db.docs pid with
    | none => simp [StatusPostNotExist, StatusCommentOK]
    | some post =>
      simp only
      by_cases ha : (post.Comments.any fun comment => decide (comment.ID = c)) = true
      · rw [if_pos ha]
        simp only [true_iff]
        refine ⟨post, rfl, ?_⟩
        simpa using ha
      · rw [if_neg ha]
        simp only [StatusCommentNotExist, StatusCommentOK, Prod.mk.injEq, OfNat.ofNat_ne_zero,
          and_true, false_iff]
        rintro ⟨q, hq, hex⟩
        have hqp : post = q := Option.some.inj hq
        subst hqp
        exact ha (by simpa using hex)
  · cases hf : findOne db.docs pid with
    | none => simp [StatusPostNotExist, StatusCommentNotExist]
    | some post =>
      simp only
      by_cases ha : (post.Comments.any fun comment => decide (comment.ID = c)) = true
      · rw [if_pos ha]
        constructor
        · intro h; exact absurd h (by decide)
        · rintro ⟨q, hq, hall⟩
          have hqp : post = q := Option.some.inj hq
          subst hqp
          simp only [List.any_eq_true, decide_eq_true_eq] at ha
          obtain ⟨x, hx, hxc⟩ := ha
          exact absurd hxc (hall x hx)
      · rw [if_neg ha]
        simp only [true_iff]
        refine ⟨post, rfl, ?_⟩
        simpa using ha

theorem comment_status_exact_witness :
    (⟨[freshPost], [], 0⟩ : Mongo).call.1 = false ∧
      ObjectIDFromHex sampleHex = some sampleID ∧
      ObjectIDFromHex "0102030405060708090a0b0c" = some [1, 2, 3, 4, 5, 6, 7, 8, 9, 10, 11, 12] ∧
      ((CheckCommentExist ⟨[freshPost], [], 0⟩ sampleHex "0102030405060708090a0b0c").2 =
          (StatusCommentNotExist, none) ↔
        ∃ post, findOne [freshPost] sampleID = some post ∧
          ∀ comment ∈ post.Comments, comment.ID ≠ [1, 2, 3, 4, 5, 6, 7, 8, 9, 10, 11, 12]) :=
  have h1 : (⟨[freshPost], [], 0⟩ : Mongo).call.1 = false := rfl
  have h2 : ObjectIDFromHex sampleHex = some sampleID := by decide
  have h3 : ObjectIDFromHex "0102030405060708090a0b0c" =
      some [1, 2, 3, 4, 5, 6, 7, 8, 9, 10, 11, 12] := by decide
  ⟨h1, h2, h3, (comment_status_exact ⟨[freshPost], [], 0⟩ sampleHex "0102030405060708090a0b0c"
    sampleID [1, 2, 3, 4, 5, 6, 7, 8, 9, 10, 11, 12] h1 h2 h3).2.2.1⟩

/-! ## C12: malformed identifiers -/

theorem findOne_eq_none {docs : List Post} {id : IDtype} :
    findOne docs id = none ↔ ∀ d ∈ docs, d.ID ≠ id := by
  simp [findOne, List.find?_eq_none]

theorem pushComment_absent (id : IDtype) (c : Comment) :
    ∀ docs : List Post, findOne docs id = none → pushComment docs id c = (docs, ⟨0, 0⟩) := by
  intro docs
  induction docs with
  | nil => intro _; rfl
  | cons d ds ih =>
    intro h
    by_cases hd : d.ID = id
    · rw [findOne_cons_eq hd] at h; exact absurd h (by simp)
    · rw [findOne_cons_ne hd] at h
      simp [pushComment, hd, ih h]

theorem pullComment_absent (id c : IDtype) :
    ∀ docs : List Post, findOne docs id = none → pullComment docs id c = (docs, ⟨0, 0⟩) := by
  intro docs
  induction docs with
  | nil => intro _; rfl
  | cons d ds ih =>
    intro h
    by_cases hd : d.ID = id
    · rw [findOne_cons_eq hd] at h; exact absurd h (by simp)
    · rw [findOne_cons_ne hd] at h
      simp [pullComment, hd, ih h]

theorem deleteOne_absent (id : IDtype) :
    ∀ docs : List Post, findOne docs id = none → deleteOne docs id = (docs, ⟨0, 0⟩) := by
  intro docs
  induction docs with
  | nil => intro _; rfl
  | cons d ds ih =>
    intro h
    by_cases hd : d.ID = id
    · rw [findOne_cons_eq hd] at h; exact absurd h (by simp)
    · rw [findOne_cons_ne hd] at h
      simp [deleteOne, hd, ih h]

theorem find_owner_absent (docs : List Post) (id : IDtype) (uid : String)
    (h : findOne docs id = none) :
    (docs.find? fun d => decide (d.ID = id ∧ d.Author.ID = uid)) = none := by
  rw [List.find?_eq_none]
  intro d hd
  have := findOne_eq_none.mp h d hd
  simp [this]

theorem find_comment_owner_absent (docs : List Post) (id c : IDtype) (uid : String)
    (h : findOne docs id = none) :
    (docs.find? fun d => decide (d.ID = id) &&
      d.Comments.any fun x => decide (x.Author.ID = uid ∧ x.ID = c)) = none := by
  rw [List.find?_eq_none]
  intro d hd
  have := findOne_eq_none.mp h d hd
  simp [this]

/-- C12: malformed identifiers are rejected before the store is touched and are distinguishable
from not-found. For every `postID` that `ObjectIDFromHex` does not accept, each of `GetPost`,
`CheckPostExist`, `CheckCommentExist`, `CheckPostOwner`, `CheckCommentOwner`, `MakeComment`,
`DeleteComment`, `DeletePost`, `Rate` and `Unrate` returns the identifier error and leaves the
whole store state, the count of driver calls included, as it was; and for a well-formed id that
names no document (and a well-formed comment id) the same operation gives a different
result. -/
theorem malformed_id_rejected (db db2 : Mongo) (postID commentID postID2 commentID2 : String)
    (comment now : String) (newID : IDtype) (rating : Int) (user : User) (pid2 c2 : IDtype)
    (hbad : ObjectIDFromHex postID = none) (hgood : ObjectIDFromHex postID2 = some pid2)
    (hc2 : ObjectIDFromHex commentID2 = some c2) (habsent : findOne db2.docs pid2 = none) :
    (GetPost db postID = (db, .error .invalidHex) ∧
        (GetPost db2 postID2).2 ≠ .error .invalidHex) ∧
      (CheckPostExist db postID = (db, .error .invalidHex) ∧
        (CheckPostExist db2 postID2).2 ≠ .error .invalidHex) ∧
      (CheckCommentExist db postID commentID = (db, StatusError, some .invalidHex) ∧
        (CheckCommentExist db2 postID2 commentID2).2 ≠ (StatusError, some .invalidHex)) ∧
      (CheckPostOwner db postID user = (db, .error .invalidHex) ∧
        (CheckPostOwner db2 postID2 user).2 ≠ .error .invalidHex) ∧
      (CheckCommentOwner db postID commentID user = (db, .error .invalidHex) ∧
        (CheckCommentOwner db2 postID2 commentID2 user).2 ≠ .error .invalidHex) ∧
      (MakeComment db postID comment user now newID = (db, some .invalidHex) ∧
        (MakeComment db2 postID2 comment user now newID).2 ≠ some .invalidHex) ∧
      (DeleteComment db postID commentID = (db, some .invalidHex) ∧
        (DeleteComment db2 postID2 commentID2).2 ≠ some .invalidHex) ∧
      (DeletePost db postID = (db, some .invalidHex) ∧
        (DeletePost db2 postID2).2 ≠ some .invalidHex) ∧
      (Rate db postID rating user = (db, some .invalidHex) ∧
        (Rate db2 postID2 rating user).2 ≠ some .invalidHex) ∧
      (Unrate db postID user = (db, some .invalidHex) ∧
        (Unrate db2 postID2 user).2 ≠ some .invalidHex) := by
  have h1 := call_docs db2
  refine ⟨⟨?_, ?_⟩, ⟨?_, ?_⟩, ⟨?_, ?_⟩, ⟨?_, ?_⟩, ⟨?_, ?_⟩, ⟨?_, ?_⟩, ⟨?_, ?_⟩, ⟨?_, ?_⟩,
    ⟨?_, ?_⟩, ⟨?_, ?_⟩⟩
  · unfold GetPost; rw [hbad]
  · unfold GetPost; rw [hgood]
    generalize db2.call = cl at h1 ⊢
    obtain ⟨failed, db1⟩ := cl
    simp only at h1 ⊢
    cases failed <;> simp [h1, habsent]
  · unfold CheckPostExist; rw [hbad]
  · unfold CheckPostExist; rw [hgood]
    generalize db2.call = cl at h1 ⊢
    obtain ⟨failed, db1⟩ := cl
    simp only at h1 ⊢
    cases failed <;> simp [h1, habsent]
  · unfold CheckCommentExist; rw [hbad]
  · unfold CheckCommentExist; rw [hgood, hc2]
    generalize db2.call = cl at h1 ⊢
    obtain ⟨failed, db1⟩ := cl
    simp only at h1 ⊢
    cases failed <;> simp [h1, habsent, StatusError, StatusPostNotExist]
  · unfold CheckPostOwner; rw [hbad]
  · unfold CheckPostOwner; rw [hgood]
    generalize db2.call = cl at h1 ⊢
    obtain ⟨failed, db1⟩ := cl
    simp only at h1 ⊢
    cases failed
    · simp only [h1, Bool.false_eq_true, if_false,
        find_owner_absent db2.docs pid2 user.UserID habsent]
      simp
    · simp
  · unfold CheckCommentOwner; rw [hbad]
  · unfold CheckCommentOwner; rw [hgood, hc2]
    generalize db2.call = cl at h1 ⊢
    obtain ⟨failed, db1⟩ := cl
    simp only at h1 ⊢
    cases failed
    · simp only [h1, Bool.false_eq_true, if_false,
        find_comment_owner_absent db2.docs pid2 c2 user.UserID habsent]
      simp
    · simp
  · unfold MakeComment; rw [hbad]
  · unfold MakeComment; rw [hgood]
    generalize db2.call = cl at h1 ⊢
    obtain ⟨failed, db1⟩ := cl
    simp only at h1 ⊢
    cases failed <;> simp [h1, pushComment_absent pid2 _ db2.docs habsent]
  · unfold DeleteComment; rw [hbad]
  · unfold DeleteComment; rw [hgood, hc2]
    generalize db2.call = cl at h1 ⊢
    obtain ⟨failed, db1⟩ := cl
    simp only at h1 ⊢
    cases failed <;> simp [h1, pullComment_absent pid2 c2 db2.docs habsent]
  · unfold DeletePost; rw [hbad]
  · unfold DeletePost; rw [hgood]
    generalize db2.call = cl at h1 ⊢
    obtain ⟨failed, db1⟩ := cl
    simp only at h1 ⊢
    cases failed <;> simp [h1, deleteOne_absent pid2 db2.docs habsent]
  · unfold Rate; rw [hbad]
  · unfold Rate; rw [hgood]
    generalize db2.call = cl at h1 ⊢
    obtain ⟨failed, db1⟩ := cl
    simp only at h1 ⊢
    cases failed <;> simp [h1, habsent]
  · unfold Unrate; rw [hbad]
  · unfold Unrate; rw [hgood]
    generalize db2.call = cl at h1 ⊢
    obtain ⟨failed, db1⟩ := cl
    simp only at h1 ⊢
    cases failed <;> simp [h1, habsent]

theorem malformed_id_rejected_witness :
    ObjectIDFromHex "not-an-id" = none ∧ ObjectIDFromHex sampleHex = some sampleID ∧
      ObjectIDFromHex "0102030405060708090a0b0c" = some [1, 2, 3, 4, 5, 6, 7, 8, 9, 10, 11, 12] ∧
      findOne ([] : List Post) sampleID = none ∧
      Rate ⟨[freshPost], [], 0⟩ "not-an-id" 1 userU1 =
        (⟨[freshPost], [], 0⟩, some StorageError.invalidHex) ∧
      (Rate ⟨[], [], 0⟩ sampleHex 1 userU1).2 ≠ some StorageError.invalidHex :=
  have h1 : ObjectIDFromHex "not-an-id" = none := by decide
  have h2 : ObjectIDFromHex sampleHex = some sampleID := by decide
  have h3 : ObjectIDFromHex "0102030405060708090a0b0c" =
      some [1, 2, 3, 4, 5, 6, 7, 8, 9, 10, 11, 12] := by decide
  have h4 : findOne ([] : List Post) sampleID = none := rfl
  have h := malformed_id_rejected ⟨[freshPost], [], 0⟩ ⟨[], [], 0⟩ "not-an-id"
    "0102030405060708090a0b0c" sampleHex "0102030405060708090a0b0c" "hello"
    "2021-01-02T00:00:00Z" [1, 2, 3, 4, 5, 6, 7, 8, 9, 10, 11, 12] 1 userU1 sampleID
    [1, 2, 3, 4, 5, 6, 7, 8, 9, 10, 11, 12] h1 h2 h3 h4
  ⟨h1, h2, h3, h4, h.2.2.2.2.2.2.2.2.1⟩

/-! ## C13: deleting a post -/

theorem deleteOne_cons_ne {d : Post} {id : IDtype} (hd : d.ID ≠ id) (ds : List Post) :
    deleteOne (d :: ds) id = (d :: (deleteOne ds id).1, (deleteOne ds id).2) := by
  simp [deleteOne, hd]

theorem deleteOne_cases (id : IDtype) :
    ∀ docs : List Post,
      deleteOne docs id = (docs, ⟨0, 0⟩) ∨
        ((deleteOne docs id).2 = ⟨1, 1⟩ ∧ (deleteOne docs id).1.length + 1 = docs.length) := by
  intro docs
  induction docs with
  | nil => left; rfl
  | cons d ds ih =>
    by_cases hd : d.ID = id
    · right; simp [deleteOne, hd]
    · rw [deleteOne_cons_ne hd]
      rcases ih with h | ⟨h1, h2⟩
      · left; rw [h]
      · right; exact ⟨h1, by simp [h2]⟩

theorem deleteOne_unique (id : IDtype) :
    ∀ docs : List Post, (docs.map Post.ID).Nodup →
      (deleteOne docs id).1 = docs.filter fun d => !decide (d.ID = id) := by
  intro docs
  induction docs with
  | nil => intro _; rfl
  | cons d ds ih =>
    intro hn
    rw [List.map_cons, List.nodup_cons] at hn
    by_cases hd : d.ID = id
    · have hrest : ∀ e ∈ ds, e.ID ≠ id := by
        intro e he h
        exact hn.1 (List.mem_map.mpr ⟨e, he, by rw [h, hd]⟩)
      have hfilter : (ds.filter fun e => !decide (e.ID = id)) = ds := by
        rw [List.filter_eq_self]
        intro e he
        simp [hrest e he]
      simp [deleteOne, hd, hfilter]
    · rw [deleteOne_cons_ne hd, ih hn.2]
      simp [hd]

theorem DeletePost_absent (db : Mongo) (postID : String) (pid : IDtype)
    (hpid : ObjectIDFromHex postID = some pid) (habsent : findOne db.docs pid = none) :
    (DeletePost db postID).2 ≠ none ∧ (DeletePost db postID).1.docs = db.docs := by
  unfold DeletePost
  rw [hpid]
  have h1 := call_docs db
  generalize db.call = cl at h1 ⊢
  obtain ⟨failed, db1⟩ := cl
  simp only at h1 ⊢
  cases failed <;> simp [h1, deleteOne_absent pid db.docs habsent]

theorem repeatDelete_absent (db : Mongo) (postID : String) (pid : IDtype)
    (hpid : ObjectIDFromHex postID = some pid) (habsent : findOne db.docs pid = none) :
    ∀ n, (repeatDelete db postID n).docs = db.docs := by
  intro n
  induction n with
  | zero => rfl
  | succ k ih =>
    have h := (DeletePost_absent (repeatDelete db postID k) postID pid hpid
      (by rw [ih]; exact habsent)).2
    rw [repeatDelete, h, ih]

/-- C13: delete never succeeds twice. For every collection whose `_id`s are unique and every
well-formed post id: `DeletePost` returns nil iff exactly one document was deleted, and a
non-nil result leaves the documents as they were; for an existing post, the driver call not
failing, `DeletePost` returns nil and removes that document and no other; and every later
`DeletePost` of the same id returns a non-nil error and leaves the documents unchanged. -/
theorem delete_never_twice (db : Mongo) (postID : String) (pid : IDtype) (p : Post)
    (hpid : ObjectIDFromHex postID = some pid) (huniq : (db.docs.map Post.ID).Nodup)
    (hp : findOne db.docs pid = some p) (hcall : db.call.1 = false) :
    (∀ db0 : Mongo, ((DeletePost db0 postID).2 = none ↔
        (DeletePost db0 postID).1.docs.length + 1 = db0.docs.length) ∧
        ((DeletePost db0 postID).2 ≠ none → (DeletePost db0 postID).1.docs = db0.docs)) ∧
      (DeletePost db postID).2 = none ∧
      (DeletePost db postID).1.docs = db.docs.filter (fun d => !decide (d.ID = pid)) ∧
      ∀ n, (DeletePost (repeatDelete (DeletePost db postID).1 postID n) postID).2 ≠ none ∧
        (DeletePost (repeatDelete (DeletePost db postID).1 postID n) postID).1.docs =
          (DeletePost db postID).1.docs := by
  have hgen : ∀ db0 : Mongo, ((DeletePost db0 postID).2 = none ↔
      (DeletePost db0 postID).1.docs.length + 1 = db0.docs.length) ∧
      ((DeletePost db0 postID).2 ≠ none → (DeletePost db0 postID).1.docs = db0.docs) := by
    intro db0
    unfold DeletePost
    rw [hpid]
    have h1 := call_docs db0
    generalize db0.call = cl at h1 ⊢
    obtain ⟨failed, db1⟩ := cl
    simp only at h1 ⊢
    cases failed with
    | true => simp [h1]
    | false =>
      simp only [h1, Bool.false_eq_true, if_false]
      rcases deleteOne_cases pid db0.docs with h | ⟨h2, h3⟩
      · simp [h]
      · simp [h2, h3]
  have hdel : (DeletePost db postID).2 = none ∧
      (DeletePost db postID).1.docs = db.docs.filter (fun d => !decide (d.ID = pid)) := by
    have hu := deleteOne_unique pid db.docs huniq
    have hc := deleteOne_cases pid db.docs
    unfold DeletePost
    rw [hpid]
    have h1 := call_docs db
    generalize db.call = cl at h1 hcall ⊢
    obtain ⟨failed, db1⟩ := cl
    simp only at h1 hcall ⊢
    subst hcall
    simp only [h1, Bool.false_eq_true, if_false]
    rcases hc with h | ⟨h2, _⟩
    · exfalso
      have hmem := findOne_mem hp
      have hid := findOne_id hp
      have hm : p ∈ db.docs.filter (fun d => !decide (d.ID = pid)) := by
        rw [← hu, h]; exact hmem
      simp [hid] at hm
    · simp [h2, hu]
  refine ⟨hgen, hdel.1, hdel.2, ?_⟩
  have habsent : findOne (DeletePost db postID).1.docs pid = none := by
    rw [hdel.2, findOne_eq_none]
    intro d hd
    simpa using (List.mem_filter.mp hd).2
  intro n
  have hr := repeatDelete_absent (DeletePost db postID).1 postID pid hpid habsent n
  have ha := DeletePost_absent (repeatDelete (DeletePost db postID).1 postID n) postID pid hpid
    (by rw [hr]; exact habsent)
  exact ⟨ha.1, by rw [ha.2, hr]⟩

theorem delete_never_twice_witness :
    ObjectIDFromHex sampleHex = some sampleID ∧
      (([freshPost] : List Post).map Post.ID).Nodup ∧
      findOne [freshPost] sampleID = some freshPost ∧
      (⟨[freshPost], [], 0⟩ : Mongo).call.1 = false ∧
      (DeletePost ⟨[freshPost], [], 0⟩ sampleHex).2 = none ∧
      (DeletePost ⟨[freshPost], [], 0⟩ sampleHex).1.docs =
        [freshPost].filter (fun d => !decide (d.ID = sampleID)) ∧
      (DeletePost (repeatDelete (DeletePost ⟨[freshPost], [], 0⟩ sampleHex).1 sampleHex 0)
        sampleHex).2 ≠ none :=
  have h1 : ObjectIDFromHex sampleHex = some sampleID := by decide
  have h2 : (([freshPost] : List Post).map Post.ID).Nodup := by decide
  have h3 : findOne [freshPost] sampleID = some freshPost := by decide
  have h4 : (⟨[freshPost], [], 0⟩ : Mongo).call.1 = false := rfl
  have h := delete_never_twice ⟨[freshPost], [], 0⟩ sampleHex sampleID freshPost h1 h2 h3 h4
  ⟨h1, h2, h3, h4, h.2.1, h.2.2.1, (h.2.2.2 0).1⟩

/-! ## C14: reading a post -/

theorem incViews_spec (id : IDtype) (p : Post) :
    ∀ docs : List Post, findOne docs id = some p →
      ∃ a b, docs = a ++ p :: b ∧ (∀ d ∈ a, d.ID ≠ id) ∧
        incViews docs id = (a ++ { p with Views := p.Views + 1 } :: b, some p) := by
  intro docs
  induction docs with
  | nil => intro h; simp [findOne] at h
  | cons d ds ih =>
    intro h
    by_cases hd : d.ID = id
    · rw [findOne_cons_eq hd] at h
      have hdp : d = p := Option.some.inj h
      subst hdp
      exact ⟨[], ds, rfl, by simp, by simp [incViews, hd]⟩
    · rw [findOne_cons_ne hd] at h
      obtain ⟨a, b, hab, ha, hinc⟩ := ih h
      refine ⟨d :: a, b, by simp [hab], ?_, ?_⟩
      · intro e he
        rcases List.mem_cons.mp he with rfl | he
        · exact hd
        · exact ha e he
      · rw [incViews_cons_ne hd, hinc]
        rfl

/-- C14: a single-post read bumps the view counter by exactly one and nothing else. For every
collection and every id of a stored post `p` (the driver call not failing, the counter below
the largest 64-bit integer): `GetPost` returns without error, and the collection afterwards is
the old one with `p` replaced, in place, by `p` with `views` increased by one, every other
document and every other field being as before. For an id that names no document `GetPost`
returns an error and changes no document. -/
theorem get_post_bumps_views (db : Mongo) (postID : String) (pid : IDtype) (p : Post)
    (db2 : Mongo) (postID2 : String) (pid2 : IDtype)
    (hpid : ObjectIDFromHex postID = some pid) (hp : findOne db.docs pid = some p)
    (hcall : db.call.1 = false) (hviews : p.Views + 1 < 2 ^ 63)
    (hpid2 : ObjectIDFromHex postID2 = some pid2) (habsent : findOne db2.docs pid2 = none) :
    (∃ data, (GetPost db postID).2 = .ok data) ∧
      (∃ a b, db.docs = a ++ p :: b ∧ (∀ d ∈ a, d.ID ≠ pid) ∧
        (GetPost db postID).1.docs = a ++ { p with Views := p.Views + 1 } :: b) ∧
      (∃ e, (GetPost db2 postID2).2 = .error e) ∧ (GetPost db2 postID2).1.docs = db2.docs := by
  obtain ⟨a, b, hab, ha, hinc⟩ := incViews_spec pid p db.docs hp
  refine ⟨?_, ⟨a, b, hab, ha, ?_⟩, ?_, ?_⟩
  · unfold GetPost
    rw [hpid]
    have h1 := call_docs db
    generalize db.call = cl at h1 hcall ⊢
    obtain ⟨failed, db1⟩ := cl
    simp only at h1 hcall ⊢
    subst hcall
    simp only [h1, hp, Bool.false_eq_true, if_false, if_pos hviews]
    exact ⟨p, rfl⟩
  · unfold GetPost
    rw [hpid]
    have h1 := call_docs db
    generalize db.call = cl at h1 hcall ⊢
    obtain ⟨failed, db1⟩ := cl
    simp only at h1 hcall ⊢
    subst hcall
    simp only [h1, hp, Bool.false_eq_true, if_false, if_pos hviews, hinc]
  · unfold GetPost
    rw [hpid2]
    have h1 := call_docs db2
    generalize db2.call = cl at h1 ⊢
    obtain ⟨failed, db1⟩ := cl
    simp only at h1 ⊢
    cases failed <;> simp [h1, habsent]
  · unfold GetPost
    rw [hpid2]
    have h1 := call_docs db2
    generalize db2.call = cl at h1 ⊢
    obtain ⟨failed, db1⟩ := cl
    simp only at h1 ⊢
    cases failed <;> simp [h1, habsent]

theorem get_post_bumps_views_witness :
    ObjectIDFromHex sampleHex = some sampleID ∧
      findOne [freshPost] sampleID = some freshPost ∧
      (⟨[freshPost], [], 0⟩ : Mongo).call.1 = false ∧ freshPost.Views + 1 < 2 ^ 63 ∧
      findOne ([] : List Post) sampleID = none ∧
      (∃ a b, [freshPost] = a ++ freshPost :: b ∧ (∀ d ∈ a, d.ID ≠ sampleID) ∧
        (GetPost ⟨[freshPost], [], 0⟩ sampleHex).1.docs =
          a ++ { freshPost with Views := freshPost.Views + 1 } :: b) ∧
      (GetPost ⟨[], [], 0⟩ sampleHex).1.docs = [] :=
  have h1 : ObjectIDFromHex sampleHex = some sampleID := by decide
  have h2 : findOne [freshPost] sampleID = some freshPost := by decide
  have h3 : (⟨[freshPost], [], 0⟩ : Mongo).call.1 = false := rfl
  have h4 : freshPost.Views + 1 < 2 ^ 63 := by decide
  have h5 : findOne ([] : List Post) sampleID = none := rfl
  have h := get_post_bumps_views ⟨[freshPost], [], 0⟩ sampleHex sampleID freshPost
    ⟨[], [], 0⟩ sampleHex sampleID h1 h2 h3 h4 h1 h5
  ⟨h1, h2, h3, h4, h5, h.2.1, h.2.2.2⟩

/-! ## C15: what the `MakePost` handler lets through -/

theorem utf8ByteSize_go_eq_zero : ∀ l : List Char, String.utf8ByteSize.go l = 0 → l = []
  | [], _ => rfl
  | c :: cs, h => by
    have hc := Char.utf8Size_pos c
    simp only [String.utf8ByteSize.go] at h
    omega

theorem utf8ByteSize_empty (s : String) : s.utf8ByteSize = 0 ↔ s = "" := by
  constructor
  · intro h
    cases s with
    | mk l =>
      have hl : l = [] := utf8ByteSize_go_eq_zero l h
      subst hl
      rfl
  · intro h
    subst h
    rfl

theorem normalizePost_type (np : NewPost) : (normalizePost np).Type_ = np.Type_ := by
  unfold normalizePost
  split
  · rfl
  · split <;> rfl

theorem normalizePost_link (np : NewPost) (h : (normalizePost np).Type_ = "link") :
    (normalizePost np).Text = "" := by
  rw [normalizePost_type] at h
  simp [normalizePost, h]

theorem normalizePost_text (np : NewPost) (h : (normalizePost np).Type_ = "text") :
    (normalizePost np).URL = "" := by
  rw [normalizePost_type] at h
  simp [normalizePost, h]

theorem validated_constraints (urlParse : String → Option (String × String)) (np : NewPost)
    (hurl : isValidURL urlParse "" = false)
    (h : makePostErrors urlParse (normalizePost np) = []) :
    fieldConstraints (normalizePost np) := by
  have hlk := normalizePost_link np
  have htx := normalizePost_text np
  generalize normalizePost np = q at h hlk htx
  have ht : q.Title.utf8ByteSize ≠ 0 := by
    intro h0; simp [makePostErrors, h0] at h
  have hc : q.Category.utf8ByteSize ≠ 0 := by
    intro h0; simp [makePostErrors, h0] at h
  have hty : q.Type_ = "text" ∨ q.Type_ = "link" := by
    by_contra hn; simp [makePostErrors, hn] at h
  have hlink : q.Type_ = "link" → isValidURL urlParse q.URL = true := by
    intro hl
    by_contra hv
    have hv' : isValidURL urlParse q.URL = false := by simpa using hv
    simp [makePostErrors, hl, hv'] at h
  have htext : q.Type_ = "text" → ¬ q.Text.utf8ByteSize < 4 := by
    intro hl hlt
    have hne : q.Type_ ≠ "link" := by rw [hl]; decide
    simp [makePostErrors, hne, hlt] at h
  have hdiff : ("text" : String) ≠ "link" := by decide
  refine ⟨hty, fun e => ht ((utf8ByteSize_empty _).mpr e),
    fun e => hc ((utf8ByteSize_empty _).mpr e), ⟨?_, ?_⟩, ⟨?_, ?_⟩⟩
  · intro hu
    rcases hty with ht' | hl'
    · exact absurd (htx ht') hu
    · exact hl'
  · intro hl hu
    have := hlink hl
    rw [hu, hurl] at this
    exact absurd this (by simp)
  · intro hx
    rcases hty with ht' | hl'
    · exact ht'
    · exact absurd (hlk hl') hx
  · intro hl hx
    apply htext hl
    rw [hx]
    decide

/-- C15: every post the `MakePost` handler passes to storage satisfies the field constraints of
the data model. For every decoded body whose normalised form adds no error to the
`ErrorBuilder`, the type is `text` or `link`, title and category are non-empty, the url is
non-empty iff the type is `link` and the text is non-empty iff the type is `text`; and for
every body whose normalised form violates one of these, the handler answers 422 with the store
state untouched, so `Storage.MakePost` is not called. `url.Parse` is taken to give the empty
string no scheme and host. -/
theorem handler_enforces_constraints (urlParse : String → Option (String × String))
    (np : NewPost) (hurl : isValidURL urlParse "" = false) :
    (makePostErrors urlParse (normalizePost np) = [] → fieldConstraints (normalizePost np)) ∧
      (¬ fieldConstraints (normalizePost np) →
        ∀ (db : Mongo) (user : Option User) (now : String) (newID : IDtype),
          PostHandler.MakePost urlParse db (some np) user now newID =
            (db, ⟨422, makePostErrors urlParse (normalizePost np), none⟩)) := by
  refine ⟨validated_constraints urlParse np hurl, ?_⟩
  intro hviol db user now newID
  have herr : makePostErrors urlParse (normalizePost np) ≠ [] :=
    fun h => hviol (validated_constraints urlParse np hurl h)
  simp [PostHandler.MakePost, herr]

theorem handler_enforces_constraints_witness :
    isValidURL noURL "" = false ∧
      makePostErrors noURL (normalizePost textRequest) = [] ∧
      fieldConstraints (normalizePost textRequest) ∧
      ¬ fieldConstraints (normalizePost ⟨"music", "link", "", "T", "some text"⟩) ∧
      PostHandler.MakePost noURL ⟨[], [], 0⟩ (some ⟨"music", "link", "", "T", "some text"⟩)
          (some userU1) "2021-01-01T00:00:00Z" sampleID =
        (⟨[], [], 0⟩, ⟨422, makePostErrors noURL
          (normalizePost ⟨"music", "link", "", "T", "some text"⟩), none⟩) :=
  have h1 : isValidURL noURL "" = false := rfl
  have h2 : makePostErrors noURL (normalizePost textRequest) = [] := by decide
  have h3 : ¬ fieldConstraints (normalizePost ⟨"music", "link", "", "T", "some text"⟩) := by
    intro h
    exact absurd (h.2.2.2.1.mpr rfl) (by decide)
  ⟨h1, h2, (handler_enforces_constraints noURL textRequest h1).1 h2, h3,
    (handler_enforces_constraints noURL ⟨"music", "link", "", "T", "some text"⟩ h1).2 h3
      ⟨[], [], 0⟩ (some userU1) "2021-01-01T00:00:00Z" sampleID⟩

/-! ## C16: the fields rating leaves alone -/

theorem rateDoc_frame (p : Post) (r : Int) (u : User) :
    frame { rateDoc p r u with ID := p.ID } = frame p := by
  rcases split_first u.UserID p.Votes with h | ⟨a, x, b, hv, ha, hx⟩
  · rw [rateDoc_absent p r u h]; rfl
  · rw [rateDoc_present p r u a x b hv ha hx]; rfl

theorem unrateDoc_frame (p : Post) (u : User) :
    frame { unrateDoc p u with ID := p.ID } = frame p := by
  rcases split_first u.UserID p.Votes with h | ⟨a, x, b, hv, ha, hx⟩
  · rw [unrateDoc_absent p u h]
  · rw [unrateDoc_present p u a x b hv ha hx]; rfl

theorem replaceOne_frame (id : IDtype) (repl p : Post)
    (hfr : frame { repl with ID := id } = frame p) :
    ∀ docs : List Post, findOne docs id = some p →
      (replaceOne docs id repl).1.map frame = docs.map frame := by
  intro docs
  induction docs with
  | nil => intro _; rfl
  | cons d ds ih =>
    intro h
    by_cases hd : d.ID = id
    · rw [findOne_cons_eq hd] at h
      have hdp : d = p := Option.some.inj h
      subst hdp
      simp only [replaceOne, hd, if_true, List.map_cons, hfr]
    · rw [findOne_cons_ne hd] at h
      rw [replaceOne_cons_ne hd, List.map_cons, List.map_cons, ih h]

theorem run_frame (db : Mongo) (c : RatingCall) :
    (c.run db).docs.map frame = db.docs.map frame := by
  cases c with
  | rate postID rating user =>
    rcases Rate_docs db postID rating user with e | ⟨id, p, _, hp, e⟩
    · simp only [RatingCall.run, e]
    · simp only [RatingCall.run, e]
      apply replaceOne_frame id _ p _ db.docs hp
      have := rateDoc_frame p rating user
      rw [findOne_id hp] at this
      exact this
  | unrate postID user =>
    rcases Unrate_docs db postID user with e | ⟨id, p, _, hp, e⟩
    · simp only [RatingCall.run, e]
    · simp only [RatingCall.run, e]
      apply replaceOne_frame id _ p _ db.docs hp
      have := unrateDoc_frame p user
      rw [findOne_id hp] at this
      exact this

theorem runCalls_frame (calls : List RatingCall) :
    ∀ db : Mongo, (runCalls db calls).docs.map frame = db.docs.map frame := by
  induction calls with
  | nil => intro db; rfl
  | cons c cs ih =>
    intro db
    have h := ih (c.run db)
    rw [run_frame db c] at h
    exact h

theorem Unrate_unmarshalled (db : Mongo) (postID : String) (u : User) (id : IDtype)
    (p : Post) (hid : ObjectIDFromHex postID = some id) (hp : findOne db.docs id = some p)
    (hm : marshals p = false) :
    (Unrate db postID u).1.docs = db.docs ∧ (Unrate db postID u).2 ≠ none := by
  have hm' : marshals (unrateDoc p u) = false := by rw [marshals_unrateDoc]; exact hm
  unfold Unrate
  rw [hid]
  have h1 := call_docs db
  generalize db.call = c at h1 ⊢
  obtain ⟨failed, db1⟩ := c
  simp only at h1 ⊢
  cases failed with
  | true => exact ⟨by simpa using h1, by simp⟩
  | false =>
    simp only [h1, hp, hm', Bool.not_false, if_true, Bool.false_eq_true, if_false]
    exact ⟨trivial, by simp⟩

theorem Rate_unmarshalled_docs (db : Mongo) (postID : String) (r : Int) (u : User)
    (id : IDtype) (p : Post) (hid : ObjectIDFromHex postID = some id)
    (hp : findOne db.docs id = some p) (hm : marshals p = false) :
    (Rate db postID r u).1.docs = db.docs ∧ (Rate db postID r u).2 ≠ none := by
  have hm' : marshals (rateDoc p r u) = false := by rw [marshals_rateDoc]; exact hm
  unfold Rate
  rw [hid]
  have h1 := call_docs db
  generalize db.call = c at h1 ⊢
  obtain ⟨failed, db1⟩ := c
  simp only at h1 ⊢
  cases failed with
  | true => exact ⟨by simpa using h1, by simp⟩
  | false =>
    simp only [h1, hp, hm', Bool.not_false, if_true, Bool.false_eq_true, if_false]
    exact ⟨trivial, by simp⟩

/-- C16, refuted as stated: a rating operation can decrease the stored views. `Rate` reads the
fresh post (views 0); a `GetPost` of the same post then raises the stored views to 1; the write
step of `Rate` succeeds and replaces the whole document by the one computed from the document
read, views 0 included: the stored views go from 1 back to 0. -/
theorem rating_undoes_view_counterexample :
    (rateRead ⟨[freshPost], [], 0⟩ sampleHex).2 = .ok (sampleID, freshPost) ∧
      freshPost.Views = 0 ∧
      (findOne (GetPost (rateRead ⟨[freshPost], [], 0⟩ sampleHex).1 sampleHex).1.docs
        sampleID).map Post.Views = some 1 ∧
      (rateAroundGetPost ⟨[freshPost], [], 0⟩ sampleHex 1 userU1).2 = none ∧
      (findOne (rateAroundGetPost ⟨[freshPost], [], 0⟩ sampleHex 1 userU1).1.docs
        sampleID).map Post.Views = some 0 := by
  decide

/-- C16, amended: rating touches only the rating fields of the document it read. The document
`Rate` hands to `ReplaceOne` and the one `Unrate` hands to it have the type, title, url, text,
category, author, comments, created and views of the document read. For a post with a comment
the driver cannot marshal that document, the call returns an error and nothing is written. In
every sequence of `Rate` and `Unrate` calls in which no other operation comes between the read
and the write of a call, whatever the calls return, the stored documents are the same in number
and order and keep their `_id` and all these fields, so type and created do not change and
views does not decrease. (With a `GetPost` between the read and the write the views written
are the views read, and the increment is undone.) -/
theorem rating_touches_rating_fields_only (p : Post) (u : User) (r : Int) (db : Mongo)
    (calls : List RatingCall) :
    ((rateDoc p r u).Type_ = p.Type_ ∧ (rateDoc p r u).Title = p.Title ∧
        (rateDoc p r u).URL = p.URL ∧ (rateDoc p r u).Text = p.Text ∧
        (rateDoc p r u).Category = p.Category ∧ (rateDoc p r u).Author = p.Author ∧
        (rateDoc p r u).Comments = p.Comments ∧ (rateDoc p r u).Created = p.Created ∧
        (rateDoc p r u).Views = p.Views) ∧
      ((unrateDoc p u).Type_ = p.Type_ ∧ (unrateDoc p u).Title = p.Title ∧
        (unrateDoc p u).URL = p.URL ∧ (unrateDoc p u).Text = p.Text ∧
        (unrateDoc p u).Category = p.Category ∧ (unrateDoc p u).Author = p.Author ∧
        (unrateDoc p u).Comments = p.Comments ∧ (unrateDoc p u).Created = p.Created ∧
        (unrateDoc p u).Views = p.Views) ∧
      (∀ (db0 : Mongo) (postID : String) (id : IDtype), ObjectIDFromHex postID = some id →
        findOne db0.docs id = some p → marshals p = false →
          (Rate db0 postID r u).1.docs = db0.docs ∧ (Rate db0 postID r u).2 ≠ none ∧
          (Unrate db0 postID u).1.docs = db0.docs ∧ (Unrate db0 postID u).2 ≠ none) ∧
      (runCalls db calls).docs.map frame = db.docs.map frame := by
  have h1 := rateDoc_frame p r u
  have h2 := unrateDoc_frame p u
  simp only [frame, Prod.mk.injEq, true_and] at h1 h2
  obtain ⟨a1, a2, a3, a4, a5, a6, a7, a8, a9⟩ := h1
  obtain ⟨b1, b2, b3, b4, b5, b6, b7, b8, b9⟩ := h2
  refine ⟨⟨a1, a2, a3, a4, a5, a6, a7, a8, a9⟩, ⟨b1, b2, b3, b4, b5, b6, b7, b8, b9⟩, ?_,
    runCalls_frame calls db⟩
  intro db0 postID id hid hp hm
  obtain ⟨c1, c2⟩ := Rate_unmarshalled_docs db0 postID r u id p hid hp hm
  obtain ⟨c3, c4⟩ := Unrate_unmarshalled db0 postID u id p hid hp hm
  exact ⟨c1, c2, c3, c4⟩

theorem rating_touches_rating_fields_only_witness :
    ObjectIDFromHex sampleHex = some sampleID ∧
      findOne [commentedPost] sampleID = some commentedPost ∧
      marshals commentedPost = false ∧
      (Rate ⟨[commentedPost], [], 0⟩ sampleHex (-1) userU2).1.docs = [commentedPost] ∧
      (Rate ⟨[commentedPost], [], 0⟩ sampleHex (-1) userU2).2 ≠ none ∧
      (rateDoc upvotedPost (-1) userU2).Views = upvotedPost.Views ∧
      (runCalls ⟨[upvotedPost], [], 0⟩
          [.rate sampleHex (-1) userU2, .unrate sampleHex userU1]).docs.map frame =
        [frame upvotedPost] :=
  have h1 : ObjectIDFromHex sampleHex = some sampleID := by decide
  have h2 : findOne [commentedPost] sampleID = some commentedPost := by decide
  have h3 : marshals commentedPost = false := by decide
  have h := rating_touches_rating_fields_only commentedPost userU2 (-1)
    ⟨[commentedPost], [], 0⟩ []
  have hc := h.2.2.1 ⟨[commentedPost], [], 0⟩ sampleHex sampleID h1 h2 h3
  have hu := rating_touches_rating_fields_only upvotedPost userU2 (-1) ⟨[upvotedPost], [], 0⟩
    [.rate sampleHex (-1) userU2, .unrate sampleHex userU1]
  ⟨h1, h2, h3, hc.1, hc.2.1, hu.1.2.2.2.2.2.2.2.2, hu.2.2.2⟩

/-! ## C17: two interleaved `Rate` calls -/

theorem Rate_split (db : Mongo) (postID : String) (r : Int) (u : User) :
    Rate db postID r u =
      match rateRead db postID with
      | (db, .error e) => (db, some e)
      | (db, .ok (id, post)) => rateWrite db id post r u := by
  unfold Rate rateRead rateWrite
  cases ObjectIDFromHex postID with
  | none => rfl
  | some id =>
    simp only
    generalize db.call = cl
    obtain ⟨failed, db1⟩ := cl
    cases failed with
    | true => rfl
    | false =>
      simp only [Bool.false_eq_true, if_false]
      cases findOne db1.docs id with
      | none => rfl
      | some p => rfl

theorem rateRead_healthy (db : Mongo) (postID : String) (pid : IDtype) (P : Post)
    (hf : db.faults = []) (hpid : ObjectIDFromHex postID = some pid)
    (hP : findOne db.docs pid = some P) :
    rateRead db postID = (⟨db.docs, [], db.calls + 1⟩, .ok (pid, P)) := by
  unfold rateRead
  rw [hpid]
  simp only [call_of_healthy db hf, hP]
  simp

theorem rateWrite_healthy (db : Mongo) (pid : IDtype) (post cur : Post) (r : Int) (u : User)
    (hf : db.faults = []) (hcur : findOne db.docs pid = some cur)
    (hne : (rateDoc post r u).Votes ≠ cur.Votes) (hm : marshals post = true) :
    rateWrite db pid post r u =
        (⟨(replaceOne db.docs pid (rateDoc post r u)).1, [], db.calls + 1⟩, none) ∧
      findOne (replaceOne db.docs pid (rateDoc post r u)).1 pid =
        some { rateDoc post r u with ID := pid } := by
  obtain ⟨h1, h2⟩ := replaceOne_spec pid (rateDoc post r u) db.docs cur hcur
  have hne' : ({ rateDoc post r u with ID := pid } : Post) ≠ cur := by
    intro h
    have hv := congrArg Post.Votes h
    exact hne hv
  rw [if_neg hne'] at h1
  have hm' : marshals (rateDoc post r u) = true := by rw [marshals_rateDoc]; exact hm
  refine ⟨?_, h2⟩
  unfold rateWrite
  simp only [call_of_healthy db hf, h1, hm']
  simp

/-- C17: lost update under interleaving. `Rate` is its read step followed by its write step;
and when two `Rate` calls on one stored post without comments, by two users neither of whom has
voted yet, run with both reads before both writes (no driver call failing), both return nil
while the stored votes list is the old one followed by the second writer's vote only: the
first writer's vote is lost and the score counts the second rating alone. -/
theorem lost_update (db : Mongo) (postID : String) (pid : IDtype) (P : Post) (u1 u2 : User)
    (r1 r2 : Int) (hf : db.faults = []) (hpid : ObjectIDFromHex postID = some pid)
    (hP : findOne db.docs pid = some P) (h1 : ∀ y ∈ P.Votes, y.ID ≠ u1.UserID)
    (h2 : ∀ y ∈ P.Votes, y.ID ≠ u2.UserID) (hu : u1.UserID ≠ u2.UserID)
    (hc : P.Comments = []) :
    (∀ (db0 : Mongo) (r : Int) (u : User), Rate db0 postID r u =
        match rateRead db0 postID with
        | (db, .error e) => (db, some e)
        | (db, .ok (id, post)) => rateWrite db id post r u) ∧
      (interleavedRates db postID r1 u1 r2 u2).2 = (none, none) ∧
      ∃ P', findOne (interleavedRates db postID r1 u1 r2 u2).1.docs pid = some P' ∧
        P'.Votes = P.Votes ++ [⟨u2.UserID, r2⟩] ∧
        (∀ y ∈ P'.Votes, y.ID ≠ u1.UserID) ∧
        P'.Score = addInt P.Score r2 ∧
        (wrapInt r1 ≠ 0 → P'.Score ≠ addInt (addInt P.Score r1) r2) := by
  refine ⟨fun db0 r u => Rate_split db0 postID r u, ?_⟩
  have hm := marshals_of_no_comments P hc
  have d1 := rateDoc_absent P r1 u1 h1
  have d2 := rateDoc_absent P r2 u2 h2
  have e1 := rateRead_healthy db postID pid P hf hpid hP
  have e2 := rateRead_healthy ⟨db.docs, [], db.calls + 1⟩ postID pid P rfl hpid hP
  obtain ⟨w1, f1⟩ := rateWrite_healthy ⟨db.docs, [], db.calls + 1 + 1⟩ pid P P r1 u1 rfl hP
    (by rw [d1]; simp) hm
  obtain ⟨w2, f2⟩ := rateWrite_healthy
    ⟨(replaceOne db.docs pid (rateDoc P r1 u1)).1, [], db.calls + 1 + 1 + 1⟩ pid P
    { rateDoc P r1 u1 with ID := pid } r2 u2 rfl f1
    (by
      rw [d1, d2]
      simp only [List.append_cancel_left_eq, List.cons.injEq, and_true, ne_eq]
      intro h
      exact hu (congrArg Vote.ID h).symm) hm
  have hrun : interleavedRates db postID r1 u1 r2 u2 =
      (⟨(replaceOne (replaceOne db.docs pid (rateDoc P r1 u1)).1 pid (rateDoc P r2 u2)).1, [],
        db.calls + 1 + 1 + 1 + 1⟩, none, none) := by
    unfold interleavedRates
    simp only [e1, e2, w1, w2]
  rw [hrun]
  refine ⟨rfl, { rateDoc P r2 u2 with ID := pid }, f2, ?_, ?_, ?_, ?_⟩
  · rw [d2]
  · rw [d2]
    intro y hy
    rcases List.mem_append.mp hy with hy | hy
    · exact h1 y hy
    · rw [List.mem_singleton.mp hy]
      exact fun h => hu h.symm
  · rw [d2]
  · rw [d2]
    simp only [addInt, wrapInt]
    intro hr
    omega

theorem lost_update_witness :
    (⟨[freshPost], [], 0⟩ : Mongo).faults = [] ∧
      ObjectIDFromHex sampleHex = some sampleID ∧
      findOne [freshPost] sampleID = some freshPost ∧
      (∀ y ∈ freshPost.Votes, y.ID ≠ userU1.UserID) ∧
      (∀ y ∈ freshPost.Votes, y.ID ≠ userU2.UserID) ∧ userU1.UserID ≠ userU2.UserID ∧
      freshPost.Comments = [] ∧
      (interleavedRates ⟨[freshPost], [], 0⟩ sampleHex 1 userU1 1 userU2).2 = (none, none) ∧
      ∃ P', findOne (interleavedRates ⟨[freshPost], [], 0⟩ sampleHex 1 userU1 1 userU2).1.docs
          sampleID = some P' ∧
        P'.Votes = freshPost.Votes ++ [⟨userU2.UserID, 1⟩] ∧
        (∀ y ∈ P'.Votes, y.ID ≠ userU1.UserID) ∧
        P'.Score = addInt freshPost.Score 1 ∧
        (wrapInt 1 ≠ 0 → P'.Score ≠ addInt (addInt freshPost.Score 1) 1) :=
  have h1 : (⟨[freshPost], [], 0⟩ : Mongo).faults = [] := rfl
  have h2 : ObjectIDFromHex sampleHex = some sampleID := by decide
  have h3 : findOne [freshPost] sampleID = some freshPost := by decide
  have h4 : ∀ y ∈ freshPost.Votes, y.ID ≠ userU1.UserID := by decide
  have h5 : ∀ y ∈ freshPost.Votes, y.ID ≠ userU2.UserID := by decide
  have h6 : userU1.UserID ≠ userU2.UserID := by decide
  ⟨h1, h2, h3, h4, h5, h6, rfl,
    (lost_update ⟨[freshPost], [], 0⟩ sampleHex sampleID freshPost userU1 userU2 1 1
      h1 h2 h3 h4 h5 h6 rfl).2⟩

/-! ## C19: the password check -/

theorem makeHashedPass_len (IDKey : String → List Nat → List Nat)
    (hkey : ∀ p s, (IDKey p s).length = 32) (p0 : String) (salt : List Nat) (extra : Nat)
    (hsalt : saltSize ≤ salt.length) :
    (makeHashedPass IDKey p0 salt extra).len = saltSize + 32 ∧
      (makeHashedPass IDKey p0 salt extra).len ≤
        (makeHashedPass IDKey p0 salt extra).backing.length := by
  unfold makeHashedPass
  simp only [List.length_append, List.length_take, List.length_replicate, hkey]
  constructor <;> omega

theorem checkPass_of_capacity (IDKey : String → List Nat → List Nat)
    (hkey : ∀ p s, (IDKey p s).length = 32) (password : String) (h : Slice)
    (hlen : h.len = saltSize + 32) (hcap : h.len ≤ h.backing.length) :
    checkPass IDKey password h = some true := by
  have hk := hkey password (Slice.bytes ⟨h.backing, saltSize⟩)
  have h8 : ¬ saltSize > h.backing.length := by omega
  have h40 : saltSize + 32 ≤ h.backing.length := by omega
  unfold checkPass
  rw [if_neg h8]
  simp only [hk]
  rw [if_pos h40]
  simp [Slice.bytes, hlen]

/-- C19, evaluated on the code: `checkPass` accepts every candidate. For every stored value
`h = makeHashedPass(p0)` (eight salt bytes and the 32-byte digest, in an array of at least that
capacity) and every candidate `p`, `append(salt, hashedCandidate...)` has room in the array of
`h`, writes the candidate's digest over the stored one, and `bytes.Equal` compares `h` with
itself: `checkPass(p, h)` is true whether or not the digest of `p` equals the stored
digest. -/
theorem checkPass_accepts_every_password (IDKey : String → List Nat → List Nat)
    (hkey : ∀ p s, (IDKey p s).length = 32) (p0 p : String) (salt : List Nat) (extra : Nat)
    (hsalt : saltSize ≤ salt.length) :
    checkPass IDKey p (makeHashedPass IDKey p0 salt extra) = some true ∧
      ∀ h : Slice, h.len = saltSize + 32 → h.len ≤ h.backing.length →
        checkPass IDKey p h = some true := by
  obtain ⟨h1, h2⟩ := makeHashedPass_len IDKey hkey p0 salt extra hsalt
  exact ⟨checkPass_of_capacity IDKey hkey p _ h1 h2,
    fun h hl hc => checkPass_of_capacity IDKey hkey p h hl hc⟩

theorem checkPass_accepts_every_password_witness :
    (∀ p s, (toyKey p s).length = 32) ∧
      saltSize ≤ [1, 2, 3, 4, 5, 6, 7, 8].length ∧
      digestMatches toyKey "wrong!" (makeHashedPass toyKey "right" [1, 2, 3, 4, 5, 6, 7, 8] 0) =
        false ∧
      checkPass toyKey "wrong!" (makeHashedPass toyKey "right" [1, 2, 3, 4, 5, 6, 7, 8] 0) =
        some true :=
  have h1 : ∀ p s, (toyKey p s).length = 32 := fun _ _ => rfl
  have h2 : saltSize ≤ [1, 2, 3, 4, 5, 6, 7, 8].length := by decide
  ⟨h1, h2, by decide,
    (checkPass_accepts_every_password toyKey h1 "right" "wrong!" [1, 2, 3, 4, 5, 6, 7, 8] 0
      h2).1⟩

/-! ## C20: votes cast through the handlers -/

theorem rateDoc_unit (p : Post) (r : Int) (u : User) (hr : r = 1 ∨ r = -1)
    (h : UnitVotes p) : UnitVotes (rateDoc p r u) := by
  refine ⟨?_, rateDoc_consistent p r u h.2⟩
  rcases split_first u.UserID p.Votes with ha | ⟨a, x, b, hv, ha, hx⟩
  · rw [rateDoc_absent p r u ha]
    intro v hv
    rcases List.mem_append.mp hv with hv | hv
    · exact h.1 v hv
    · rw [List.mem_singleton.mp hv]; exact hr
  · rw [rateDoc_present p r u a x b hv ha hx]
    intro v hv'
    have hp := h.1
    rw [hv] at hp
    rcases List.mem_append.mp hv' with hv' | hv'
    · exact hp v (List.mem_append_left _ hv')
    · rcases List.mem_cons.mp hv' with rfl | hv'
      · exact hr
      · exact hp v (List.mem_append_right _ (List.mem_cons_of_mem _ hv'))

theorem unrateDoc_unit (p : Post) (u : User) (h : UnitVotes p) : UnitVotes (unrateDoc p u) := by
  refine ⟨?_, unrateDoc_consistent p u h.2⟩
  rcases split_first u.UserID p.Votes with ha | ⟨a, x, b, hv, ha, hx⟩
  · rw [unrateDoc_absent p u ha]
    exact h.1
  · rw [unrateDoc_present p u a x b hv ha hx]
    intro v hv'
    have hp := h.1
    rw [hv] at hp
    rcases List.mem_append.mp hv' with hv' | hv'
    · exact hp v (List.mem_append_left _ hv')
    · exact hp v (List.mem_append_right _ (List.mem_cons_of_mem _ hv'))

theorem Rate_unit (db : Mongo) (postID : String) (r : Int) (u : User) (hr : r = 1 ∨ r = -1)
    (h : ∀ d ∈ db.docs, UnitVotes d) : ∀ d ∈ (Rate db postID r u).1.docs, UnitVotes d := by
  rcases Rate_docs db postID r u with e | ⟨id, p, _, hp, e⟩
  · rw [e]; exact h
  · rw [e]
    intro d hd
    rcases replaceOne_mem id _ db.docs d hd with hd | rfl
    · exact h d hd
    · exact rateDoc_unit p r u hr (h p (findOne_mem hp))

theorem Unrate_unit (db : Mongo) (postID : String) (u : User)
    (h : ∀ d ∈ db.docs, UnitVotes d) : ∀ d ∈ (Unrate db postID u).1.docs, UnitVotes d := by
  rcases Unrate_docs db postID u with e | ⟨id, p, _, hp, e⟩
  · rw [e]; exact h
  · rw [e]
    intro d hd
    rcases replaceOne_mem id _ db.docs d hd with hd | rfl
    · exact h d hd
    · exact unrateDoc_unit p u (h p (findOne_mem hp))

theorem incViews_mem (id : IDtype) :
    ∀ (docs : List Post) (d : Post), d ∈ (incViews docs id).1 →
      d ∈ docs ∨ ∃ e ∈ docs, d = { e with Views := e.Views + 1 } := by
  intro docs
  induction docs with
  | nil => intro d hd; simp [incViews] at hd
  | cons e es ih =>
    intro d hd
    by_cases he : e.ID = id
    · subst he
      simp only [incViews, if_true, List.mem_cons] at hd
      rcases hd with rfl | hd
      · right; exact ⟨e, List.mem_cons_self _ _, rfl⟩
      · left; exact List.mem_cons_of_mem _ hd
    · rw [incViews_cons_ne he] at hd
      rcases List.mem_cons.mp hd with rfl | hd
      · left; exact List.mem_cons_self _ _
      · rcases ih d hd with h | ⟨x, hx, hdx⟩
        · left; exact List.mem_cons_of_mem _ h
        · right; exact ⟨x, List.mem_cons_of_mem _ hx, hdx⟩

theorem GetPost_unit (db : Mongo) (postID : String)
    (h : ∀ d ∈ db.docs, UnitVotes d) : ∀ d ∈ (GetPost db postID).1.docs, UnitVotes d := by
  rcases GetPost_docs db postID with e | ⟨id, _, e⟩
  · rw [e]; exact h
  · rw [e]
    intro d hd
    rcases incViews_mem id db.docs d hd with hd | ⟨x, hx, rfl⟩
    · exact h d hd
    · exact h x hx

theorem MakePost_unit (db : Mongo) (np : NewPost) (u : User) (now : String) (newID : IDtype)
    (h : ∀ d ∈ db.docs, UnitVotes d) :
    ∀ d ∈ (MakePost db np u now newID).1.docs, UnitVotes d := by
  rcases MakePost_cases db np u now newID with ⟨_, e⟩ | ⟨_, _, e⟩
  · rw [e]; exact h
  · rw [e]
    intro d hd
    rcases List.mem_append.mp hd with hd | hd
    · exact h d hd
    · rw [List.mem_singleton.mp hd]
      exact ⟨by simp [insertedPost], rfl⟩

theorem CheckPostExist_docs (db : Mongo) (postID : String) :
    (CheckPostExist db postID).1.docs = db.docs := by
  unfold CheckPostExist
  cases ObjectIDFromHex postID with
  | none => rfl
  | some id =>
    have h1 := call_docs db
    generalize db.call = cl at h1 ⊢
    obtain ⟨failed, db1⟩ := cl
    simp only at h1 ⊢
    cases failed with
    | true => simpa using h1
    | false =>
      simp only [Bool.false_eq_true, if_false]
      cases findOne db1.docs id <;> simpa using h1

theorem MakePostHandler_unit (urlParse : String → Option (String × String)) (db : Mongo)
    (body : Option NewPost) (user : Option User) (now : String) (newID : IDtype)
    (h : ∀ d ∈ db.docs, UnitVotes d) :
    ∀ d ∈ (PostHandler.MakePost urlParse db body user now newID).1.docs, UnitVotes d := by
  unfold PostHandler.MakePost
  cases body with
  | none => exact h
  | some post =>
    simp only
    split
    · exact h
    · cases user with
      | none => exact h
      | some user =>
        simp only
        have hM := MakePost_unit db (normalizePost post) user now newID h
        generalize MakePost db (normalizePost post) user now newID = m at hM ⊢
        obtain ⟨db1, r1⟩ := m
        cases r1 with
        | error e => exact hM
        | ok pid =>
          simp only at hM ⊢
          have hR := Rate_unit db1 pid 1 user (Or.inl rfl) hM
          generalize Rate db1 pid 1 user = rr at hR ⊢
          obtain ⟨db2, r2⟩ := rr
          cases r2 with
          | some e => exact hR
          | none =>
            simp only at hR ⊢
            have hG := GetPost_unit db2 pid hR
            generalize GetPost db2 pid = g at hG ⊢
            obtain ⟨db3, r3⟩ := g
            cases r3 <;> exact hG

theorem VoteHandler_unit (db : Mongo) (postID : Option String) (action : String)
    (user : Option User) (h : ∀ d ∈ db.docs, UnitVotes d) :
    ∀ d ∈ (PostHandler.Vote db postID action user).1.docs, UnitVotes d := by
  unfold PostHandler.Vote
  cases postID with
  | none => exact h
  | some postID =>
    simp only
    have hC : ∀ d ∈ (CheckPostExist db postID).1.docs, UnitVotes d := by
      rw [CheckPostExist_docs]; exact h
    generalize CheckPostExist db postID = ce at hC ⊢
    obtain ⟨db1, r1⟩ := ce
    cases r1 with
    | error e => exact hC
    | ok exist =>
      cases exist with
      | false => exact hC
      | true =>
        simp only at hC ⊢
        cases user with
        | none => exact hC
        | some user =>
          simp only
          have hV : ∀ d ∈ (if action = "upvote" then Rate db1 postID 1 user
              else if action = "downvote" then Rate db1 postID (-1) user
              else if action = "unvote" then Unrate db1 postID user
              else (db1, none)).1.docs, UnitVotes d := by
            split
            · exact Rate_unit db1 postID 1 user (Or.inl rfl) hC
            · split
              · exact Rate_unit db1 postID (-1) user (Or.inr rfl) hC
              · split
                · exact Unrate_unit db1 postID user hC
                · exact hC
          generalize (if action = "upvote" then Rate db1 postID 1 user
              else if action = "downvote" then Rate db1 postID (-1) user
              else if action = "unvote" then Unrate db1 postID user
              else (db1, none)) = vr at hV ⊢
          obtain ⟨db2, r2⟩ := vr
          cases r2 with
          | some e => exact hV
          | none =>
            simp only at hV ⊢
            have hG := GetPost_unit db2 postID hV
            generalize GetPost db2 postID = g at hG ⊢
            obtain ⟨db3, r3⟩ := g
            cases r3 <;> exact hG

theorem runHandlers_unit (calls : List HandlerCall) :
    ∀ db : Mongo, (∀ d ∈ db.docs, UnitVotes d) →
      ∀ d ∈ (runHandlers db calls).docs, UnitVotes d := by
  induction calls with
  | nil => intro db h; exact h
  | cons c cs ih =>
    intro db h
    apply ih (c.run db)
    cases c with
    | makePost urlParse body user now newID =>
      exact MakePostHandler_unit urlParse db body user now newID h
    | vote postID action user => exact VoteHandler_unit db postID action user h

theorem exactSum_unit (votes : List Vote) (h : ∀ v ∈ votes, v.Vote = 1 ∨ v.Vote = -1) :
    -(votes.length : Int) ≤ exactSum votes ∧ exactSum votes ≤ votes.length ∧
      exactSum votes % 2 = (votes.length : Int) % 2 := by
  induction votes with
  | nil => simp [exactSum]
  | cons v vs ih =>
    obtain ⟨i1, i2, i3⟩ := ih fun w hw => h w (List.mem_cons_of_mem _ hw)
    rw [exactSum_cons]
    simp only [List.length_cons, Nat.cast_add, Nat.cast_one]
    rcases h v (List.mem_cons_self _ _) with hv | hv <;> rw [hv] <;>
      refine ⟨by omega, by omega, by omega⟩

/-- C20: through the HTTP handlers every vote has unit magnitude. In every store reached from
an empty collection by a sequence of executions of the handlers `MakePost` and `Vote`, whatever
the requests, the generated values and the outcomes of the driver calls, every entry of every
post's votes list has value `+1` or `-1`, the absolute value of the score is at most the number
of votes, and the score has the parity of the number of votes. -/
theorem handler_votes_have_unit_magnitude (faults : List Bool) (issued : Nat)
    (calls : List HandlerCall) :
    ∀ d ∈ (runHandlers ⟨[], faults, issued⟩ calls).docs,
      (∀ v ∈ d.Votes, v.Vote = 1 ∨ v.Vote = -1) ∧ |d.Score| ≤ (d.Votes.length : Int) ∧
        d.Score % 2 = (d.Votes.length : Int) % 2 := by
  intro d hd
  have hu := runHandlers_unit calls ⟨[], faults, issued⟩ (by simp) d hd
  obtain ⟨i1, i2, i3⟩ := exactSum_unit d.Votes hu.1
  have hs : d.Score = wrapInt (exactSum d.Votes) := by rw [hu.2, sumVotes_eq]
  refine ⟨hu.1, ?_, ?_⟩
  · rw [hs, abs_le]
    unfold wrapInt
    constructor <;> omega
  · rw [hs]
    unfold wrapInt
    omega

theorem headD_mem {α : Type} (l : List α) (a : α) (h : l ≠ []) : l.headD a ∈ l := by
  cases l with
  | nil => exact absurd rfl h
  | cons x xs => exact List.mem_cons_self x xs

theorem handler_votes_have_unit_magnitude_witness :
    (runHandlers ⟨[], [], 0⟩ sampleSession).docs.headD freshPost ∈
        (runHandlers ⟨[], [], 0⟩ sampleSession).docs ∧
      ((runHandlers ⟨[], [], 0⟩ sampleSession).docs.headD freshPost).Votes =
        [⟨"u1", 1⟩, ⟨"u2", -1⟩] ∧
      ((runHandlers ⟨[], [], 0⟩ sampleSession).docs.headD freshPost).Score = 0 ∧
      ((∀ v ∈ ((runHandlers ⟨[], [], 0⟩ sampleSession).docs.headD freshPost).Votes,
          v.Vote = 1 ∨ v.Vote = -1) ∧
        |((runHandlers ⟨[], [], 0⟩ sampleSession).docs.headD freshPost).Score| ≤
          (((runHandlers ⟨[], [], 0⟩ sampleSession).docs.headD freshPost).Votes.length : Int) ∧
        ((runHandlers ⟨[], [], 0⟩ sampleSession).docs.headD freshPost).Score % 2 =
          (((runHandlers ⟨[], [], 0⟩ sampleSession).docs.headD freshPost).Votes.length : Int)
            % 2) :=
  have hd : (runHandlers ⟨[], [], 0⟩ sampleSession).docs.headD freshPost ∈
      (runHandlers ⟨[], [], 0⟩ sampleSession).docs := headD_mem _ _ (by decide)
  ⟨hd, by decide, by decide, handler_votes_have_unit_magnitude [] 0 sampleSession _ hd⟩

/-! ## C21: the username check -/

theorem char_eq_iff_toNat (c d : Char) : c = d ↔ c.toNat = d.toNat := by
  constructor
  · intro h; rw [h]
  · intro h
    apply Char.ext
    apply UInt32.ext
    exact h

theorem usernameLoop_iff (dt lt : Nat → Bool) (l : List Char) :
    usernameLoop dt lt l = true ↔
      ∀ c ∈ l, isDigit dt c = true ∨ c = '-' ∨ c = '_' ∨
        (isLetter lt c = true ∧ c.toNat < MaxASCII) := by
  induction l with
  | nil => simp [usernameLoop]
  | cons c cs ih =>
    simp only [usernameLoop, List.mem_cons, forall_eq_or_imp, ← ih]
    by_cases hc : isDigit dt c = true ∨ c = '-' ∨ c = '_' ∨
        (isLetter lt c = true ∧ c.toNat < MaxASCII)
    · have hb : (isDigit dt c || decide (c = '-') || decide (c = '_') ||
          (isLetter lt c && decide (c.toNat < MaxASCII))) = true := by
        simpa [Bool.or_eq_true, Bool.and_eq_true, or_assoc] using hc
      simp [hb, hc]
    · have hb : (isDigit dt c || decide (c = '-') || decide (c = '_') ||
          (isLetter lt c && decide (c.toNat < MaxASCII))) = false := by
        rw [Bool.eq_false_iff]
        intro h
        apply hc
        simpa [Bool.or_eq_true, Bool.and_eq_true, or_assoc] using h
      simp [hb, hc]

theorem rune_class (dt lt : Nat → Bool) (c : Char) :
    (isDigit dt c = true ∨ c = '-' ∨ c = '_' ∨ (isLetter lt c = true ∧ c.toNat < MaxASCII)) ↔
      (asciiDigit c = true ∨ c = '-' ∨ c = '_' ∨ asciiLetter c = true ∨
        (255 < c.toNat ∧ dt c.toNat = true)) := by
  have hd : isDigit dt c = true ↔ asciiDigit c = true ∨ (255 < c.toNat ∧ dt c.toNat = true) := by
    unfold isDigit asciiDigit
    by_cases h : c.toNat ≤ 255
    · simp only [h, if_true]
      constructor
      · intro h1; exact Or.inl h1
      · rintro (h1 | ⟨h1, _⟩)
        · exact h1
        · omega
    · simp only [h, if_false]
      constructor
      · intro h1; exact Or.inr ⟨by omega, h1⟩
      · rintro (h1 | ⟨_, h1⟩)
        · simp only [Bool.and_eq_true, decide_eq_true_eq] at h1
          omega
        · exact h1
  have hl : (isLetter lt c = true ∧ c.toNat < MaxASCII) ↔ asciiLetter c = true := by
    unfold isLetter asciiLetter MaxASCII
    by_cases h : c.toNat ≤ 255
    · simp only [h, if_true, Bool.or_eq_true, Bool.and_eq_true, decide_eq_true_eq]
      omega
    · simp only [h, if_false, Bool.or_eq_true, Bool.and_eq_true, decide_eq_true_eq]
      omega
  rw [hd, ← hl]
  tauto

theorem IsValidUsername_false (dt lt : Nat → Bool) (s : String) (c : Char)
    (hc : c ∈ s.toList)
    (hbad : ¬ (asciiDigit c = true ∨ c = '-' ∨ c = '_' ∨ asciiLetter c = true ∨
      (255 < c.toNat ∧ dt c.toNat = true))) :
    IsValidUsername dt lt s = false := by
  rw [Bool.eq_false_iff]
  intro h
  unfold IsValidUsername at h
  rw [usernameLoop_iff] at h
  exact hbad ((rune_class dt lt c).mp (h c hc))

/-- C21: `IsValidUsername` is a per-rune character-class test. For every string it is true iff
every rune is a `unicode.IsDigit` rune, `-`, `_`, or a `unicode.IsLetter` rune below `U+007F`.
Hence the empty string is accepted; every string of ASCII letters, ASCII digits, `-` and `_` is
accepted; and a string is rejected as soon as it contains white space, a non-ASCII letter, a
Latin-1 rune other than an ASCII letter, an ASCII digit, `-` and `_` (every ASCII punctuation
mark among them), or a rune beyond Latin-1 outside the `Digit` table. The tables of the
`unicode` package beyond Latin-1 are parameters, of which only this is used: a rune of the
`Digit` table is neither in the `Letter` table nor white space. -/
theorem username_is_per_rune_test (dt lt : Nat → Bool)
    (hcat : ∀ c : Char, 255 < c.toNat → dt c.toNat = true →
      lt c.toNat = false ∧ isSpace c = false) :
    (∀ s : String, IsValidUsername dt lt s = true ↔
        ∀ c ∈ s.toList, isDigit dt c = true ∨ c = '-' ∨ c = '_' ∨
          (isLetter lt c = true ∧ c.toNat < MaxASCII)) ∧
      IsValidUsername dt lt "" = true ∧
      (∀ s : String,
        (∀ c ∈ s.toList, asciiLetter c = true ∨ asciiDigit c = true ∨ c = '-' ∨ c = '_') →
          IsValidUsername dt lt s = true) ∧
      (∀ (s : String) (c : Char), c ∈ s.toList →
        (isSpace c = true ∨ (isLetter lt c = true ∧ MaxASCII ≤ c.toNat) ∨
          (c.toNat ≤ 255 ∧ asciiLetter c = false ∧ asciiDigit c = false ∧ c ≠ '-' ∧ c ≠ '_') ∨
          (255 < c.toNat ∧ dt c.toNat = false)) →
        IsValidUsername dt lt s = false) := by
  refine ⟨fun s => usernameLoop_iff dt lt s.toList, rfl, ?_, ?_⟩
  · intro s h
    unfold IsValidUsername
    rw [usernameLoop_iff]
    intro c hc
    rw [rune_class]
    rcases h c hc with h1 | h1 | h1 | h1
    · exact Or.inr (Or.inr (Or.inr (Or.inl h1)))
    · exact Or.inl h1
    · exact Or.inr (Or.inl h1)
    · exact Or.inr (Or.inr (Or.inl h1))
  · intro s c hc hbad
    apply IsValidUsername_false dt lt s c hc
    have e1 := char_eq_iff_toNat c '-'
    have e2 := char_eq_iff_toNat c '_'
    have n1 : ('-' : Char).toNat = 45 := rfl
    have n2 : ('_' : Char).toNat = 95 := rfl
    rw [n1] at e1
    rw [n2] at e2
    rintro (h | h | h | h | ⟨h, hdt⟩)
    · -- an ASCII digit
      simp only [asciiDigit, Bool.and_eq_true, decide_eq_true_eq] at h
      rcases hbad with hs | ⟨hl, hm⟩ | ⟨_, _, hd, _, _⟩ | ⟨hb, _⟩
      · unfold isSpace at hs
        have h255 : c.toNat ≤ 255 := by omega
        simp only [h255, if_true, Bool.or_eq_true, decide_eq_true_eq] at hs
        omega
      · unfold MaxASCII at hm; omega
      · simp only [asciiDigit, Bool.and_eq_false_iff, decide_eq_false_iff_not] at hd
        omega
      · omega
    · -- the rune `-`
      have h45 := e1.mp h
      rcases hbad with hs | ⟨hl, hm⟩ | ⟨_, _, _, hd, _⟩ | ⟨hb, _⟩
      · unfold isSpace at hs
        have h255 : c.toNat ≤ 255 := by omega
        simp only [h255, if_true, Bool.or_eq_true, decide_eq_true_eq] at hs
        omega
      · unfold MaxASCII at hm; omega
      · exact hd h
      · omega
    · -- the rune `_`
      have h95 := e2.mp h
      rcases hbad with hs | ⟨hl, hm⟩ | ⟨_, _, _, _, hd⟩ | ⟨hb, _⟩
      · unfold isSpace at hs
        have h255 : c.toNat ≤ 255 := by omega
        simp only [h255, if_true, Bool.or_eq_true, decide_eq_true_eq] at hs
        omega
      · unfold MaxASCII at hm; omega
      · exact hd h
      · omega
    · -- an ASCII letter
      have hl' := h
      simp only [asciiLetter, Bool.or_eq_true, Bool.and_eq_true, decide_eq_true_eq] at h
      rcases hbad with hs | ⟨hl, hm⟩ | ⟨_, hd, _, _, _⟩ | ⟨hb, _⟩
      · unfold isSpace at hs
        have h255 : c.toNat ≤ 255 := by omega
        simp only [h255, if_true, Bool.or_eq_true, decide_eq_true_eq] at hs
        omega
      · unfold MaxASCII at hm; omega
      · rw [hl'] at hd; exact absurd hd (by decide)
      · omega
    · -- a rune of the `Digit` table beyond Latin-1
      obtain ⟨hlt, hsp⟩ := hcat c h hdt
      rcases hbad with hs | ⟨hl, hm⟩ | ⟨hb, _⟩ | ⟨_, hd⟩
      · rw [hsp] at hs; exact absurd hs (by decide)
      · unfold isLetter at hl
        have h255 : ¬ c.toNat ≤ 255 := by omega
        simp only [h255, if_false] at hl
        rw [hlt] at hl; exact absurd hl (by decide)
      · omega
      · rw [hdt] at hd; exact absurd hd (by decide)

theorem username_is_per_rune_test_witness :
    (∀ c : Char, 255 < c.toNat → sampleDigitTable c.toNat = true →
        sampleLetterTable c.toNat = false ∧ isSpace c = false) ∧
      IsValidUsername sampleDigitTable sampleLetterTable "" = true ∧
      IsValidUsername sampleDigitTable sampleLetterTable "Tim_tom-42" = true ∧
      IsValidUsername sampleDigitTable sampleLetterTable "tim١" = true ∧
      IsValidUsername sampleDigitTable sampleLetterTable "tim tom" = false ∧
      IsValidUsername sampleDigitTable sampleLetterTable "timα" = false ∧
      IsValidUsername sampleDigitTable sampleLetterTable "tim.tom" = false :=
  have hcat : ∀ c : Char, 255 < c.toNat → sampleDigitTable c.toNat = true →
      sampleLetterTable c.toNat = false ∧ isSpace c = false := by
    intro c h1 h2
    simp only [sampleDigitTable, Bool.and_eq_true, decide_eq_true_eq] at h2
    have h255 : ¬ c.toNat ≤ 255 := by omega
    constructor
    · simp only [sampleLetterTable, Bool.and_eq_false_iff, decide_eq_false_iff_not]
      omega
    · unfold isSpace
      simp only [h255, if_false, Bool.or_eq_false_iff, Bool.and_eq_false_iff,
        decide_eq_false_iff_not]
      omega
  have h := username_is_per_rune_test sampleDigitTable sampleLetterTable hcat
  ⟨hcat, h.2.1,
    h.2.2.1 "Tim_tom-42" (by decide),
    (h.1 "tim١").mpr (by decide),
    h.2.2.2 "tim tom" ' ' (by decide) (Or.inl (by decide)),
    h.2.2.2 "timα" (Char.ofNat 945) (by decide) (Or.inr (Or.inl (by decide))),
    h.2.2.2 "tim.tom" '.' (by decide)
      (Or.inr (Or.inr (Or.inl (by decide))))⟩

/-! ## C18: repeating one's vote -/

theorem Rate_unmarshalled (db : Mongo) (postID : String) (r : Int) (u : User) (id : IDtype)
    (p : Post) (hid : ObjectIDFromHex postID = some id) (hp : findOne db.docs id = some p)
    (hm : marshals p = false) :
    (Rate db postID r u).1.docs = db.docs ∧ (Rate db postID r u).2 ≠ none ∧
      (db.faults = [] → Rate db postID r u =
        (⟨db.docs, [], db.calls + 1⟩, some StorageError.cannotMarshal)) := by
  have hm' : marshals (rateDoc p r u) = false := by rw [marshals_rateDoc]; exact hm
  unfold Rate
  rw [hid]
  have h1 := call_docs db
  have g1 := call_healthy db
  have k1 : db.call.2.calls = db.calls + 1 := rfl
  generalize db.call = c at h1 g1 k1 ⊢
  obtain ⟨failed, db1⟩ := c
  simp only at h1 g1 k1 ⊢
  cases failed with
  | true =>
    refine ⟨by simpa using h1, by simp, ?_⟩
    intro hf
    exact absurd (g1 hf).1 (by simp)
  | false =>
    simp only [h1, hp, hm', Bool.not_false, if_true, Bool.false_eq_true, if_false]
    refine ⟨trivial, by simp, ?_⟩
    intro hf
    have f1 := (g1 hf).2
    obtain ⟨docs1, faults1, calls1⟩ := db1
    simp only at h1 f1 k1
    subst f1
    simp [k1, h1]

theorem Rate_same_marshalled (db : Mongo) (postID : String) (r : Int) (u : User)
    (id : IDtype) (p : Post) (hid : ObjectIDFromHex postID = some id)
    (hp : findOne db.docs id = some p) (hsame : rateDoc p r u = { p with ID := [] })
    (hm : marshals p = true) :
    (Rate db postID r u).1.docs = db.docs ∧ (Rate db postID r u).2 ≠ none ∧
      (db.faults = [] → Rate db postID r u =
        (⟨db.docs, [], db.calls + 2⟩, some StorageError.cannotReplacePost)) := by
  have hr := replaceOne_same id p db.docs hp
  have hm' : marshals ({ p with ID := [] } : Post) = true := hm
  unfold Rate
  rw [hid]
  have h1 := call_docs db
  have g1 := call_healthy db
  have k1 : db.call.2.calls = db.calls + 1 := rfl
  generalize db.call = c at h1 g1 k1 ⊢
  obtain ⟨failed, db1⟩ := c
  simp only at h1 g1 k1 ⊢
  cases failed with
  | true =>
    refine ⟨by simpa using h1, by simp, ?_⟩
    intro hf
    exact absurd (g1 hf).1 (by simp)
  | false =>
    simp only [h1, hp, hsame, hm', Bool.not_true, Bool.false_eq_true, if_false]
    have h2 := call_docs db1
    have g2 := call_healthy db1
    have k2 : db1.call.2.calls = db1.calls + 1 := rfl
    generalize db1.call = c2 at h2 g2 k2 ⊢
    obtain ⟨failed2, db2⟩ := c2
    simp only at h2 g2 k2 ⊢
    cases failed2 with
    | true =>
      refine ⟨by simp [h2, h1], by simp, ?_⟩
      intro hf
      exact absurd (g2 (g1 hf).2).1 (by simp)
    | false =>
      simp only [h2, h1, hr, Bool.false_eq_true, if_false]
      refine ⟨by simp, by simp, ?_⟩
      intro hf
      have f2 := (g2 (g1 hf).2).2
      obtain ⟨docs2, faults2, calls2⟩ := db2
      simp only at h2 f2 k2
      subst f2
      simp [k2, k1]

theorem Rate_healthy_doc (db : Mongo) (postID : String) (r : Int) (u : User) (pid : IDtype)
    (P : Post) (hf : db.faults = []) (hid : ObjectIDFromHex postID = some pid)
    (hp : findOne db.docs pid = some P)
    (hne : ({ rateDoc P r u with ID := pid } : Post) ≠ P) (hm : marshals P = true) :
    Rate db postID r u =
      (⟨(replaceOne db.docs pid (rateDoc P r u)).1, [], db.calls + 1 + 1⟩, none) := by
  obtain ⟨h1, _⟩ := replaceOne_spec pid (rateDoc P r u) db.docs P hp
  rw [if_neg hne] at h1
  have hm' : marshals (rateDoc P r u) = true := by rw [marshals_rateDoc]; exact hm
  unfold Rate
  rw [hid]
  simp only [call_of_healthy db hf, call_of_healthy ⟨db.docs, [], db.calls + 1⟩ rfl, hp, h1,
    hm']
  simp

/-! ### The rating fields of the posts the code stores -/

theorem rateDoc_written (p : Post) (r : Int) (u : User) (h : RatingWritten p) :
    RatingWritten (rateDoc p r u) := by
  refine ⟨?_, ?_, fun _ => rateDoc_percentage p r u⟩
  · rcases split_first u.UserID p.Votes with ha | ⟨a, x, b, hv, ha, hx⟩
    · rw [rateDoc_absent p r u ha]
      simp only [List.map_append, List.map_cons, List.map_nil]
      refine List.Nodup.append h.1 (List.nodup_singleton _) ?_
      intro y hy hy'
      rw [List.mem_singleton] at hy'
      obtain ⟨w, hw, rfl⟩ := List.mem_map.mp hy
      exact ha w hw hy'
    · rw [rateDoc_present p r u a x b hv ha hx]
      have hp := h.1
      rw [hv] at hp
      simpa using hp
  · rcases split_first u.UserID p.Votes with ha | ⟨a, x, b, hv, ha, hx⟩
    · rw [rateDoc_absent p r u ha]
      exact wrapInt_wrapInt _
    · rw [rateDoc_present p r u a x b hv ha hx]
      exact wrapInt_wrapInt _

theorem unrateDoc_written (p : Post) (u : User) (h : RatingWritten p) :
    RatingWritten (unrateDoc p u) := by
  rcases split_first u.UserID p.Votes with ha | ⟨a, x, b, hv, ha, hx⟩
  · rw [unrateDoc_absent p u ha]
    exact h
  · rw [unrateDoc_present p u a x b hv ha hx]
    refine ⟨?_, wrapInt_wrapInt _, ?_⟩
    · have hp := h.1
      rw [hv] at hp
      exact hp.sublist (((List.Sublist.refl a).append (List.sublist_cons_self x b)).map _)
    · intro hne
      have hpos : (a ++ b).length > 0 := List.length_pos.mpr hne
      simp only [hpos, if_true]

theorem pushComment_mem (id : IDtype) (c : Comment) :
    ∀ (docs : List Post) (d : Post), d ∈ (pushComment docs id c).1 →
      d ∈ docs ∨ ∃ e ∈ docs, d = { e with Comments := e.Comments ++ [c] } := by
  intro docs
  induction docs with
  | nil => intro d hd; simp [pushComment] at hd
  | cons e es ih =>
    intro d hd
    by_cases he : e.ID = id
    · subst he
      simp only [pushComment, if_true, List.mem_cons] at hd
      rcases hd with rfl | hd
      · right; exact ⟨e, List.mem_cons_self _ _, rfl⟩
      · left; exact List.mem_cons_of_mem _ hd
    · simp only [pushComment, he, if_false, List.mem_cons] at hd
      rcases hd with rfl | hd
      · left; exact List.mem_cons_self _ _
      · rcases ih d hd with h | ⟨x, hx, hdx⟩
        · left; exact List.mem_cons_of_mem _ h
        · right; exact ⟨x, List.mem_cons_of_mem _ hx, hdx⟩

theorem pullComment_mem (id cid : IDtype) :
    ∀ (docs : List Post) (d : Post), d ∈ (pullComment docs id cid).1 →
      d ∈ docs ∨ ∃ e ∈ docs,
        d = { e with Comments := e.Comments.filter fun c => !decide (c.ID = cid) } := by
  intro docs
  induction docs with
  | nil => intro d hd; simp [pullComment] at hd
  | cons e es ih =>
    intro d hd
    by_cases he : e.ID = id
    · subst he
      simp only [pullComment, if_true, List.mem_cons] at hd
      rcases hd with rfl | hd
      · right; exact ⟨e, List.mem_cons_self _ _, rfl⟩
      · left; exact List.mem_cons_of_mem _ hd
    · simp only [pullComment, he, if_false, List.mem_cons] at hd
      rcases hd with rfl | hd
      · left; exact List.mem_cons_self _ _
      · rcases ih d hd with h | ⟨x, hx, hdx⟩
        · left; exact List.mem_cons_of_mem _ h
        · right; exact ⟨x, List.mem_cons_of_mem _ hx, hdx⟩

theorem deleteOne_mem (id : IDtype) :
    ∀ (docs : List Post) (d : Post), d ∈ (deleteOne docs id).1 → d ∈ docs := by
  intro docs
  induction docs with
  | nil => intro d hd; simp [deleteOne] at hd
  | cons e es ih =>
    intro d hd
    by_cases he : e.ID = id
    · simp only [deleteOne, he, if_true] at hd
      exact List.mem_cons_of_mem _ hd
    · simp only [deleteOne, he, if_false, List.mem_cons] at hd
      rcases hd with rfl | hd
      · exact List.mem_cons_self _ _
      · exact List.mem_cons_of_mem _ (ih d hd)

theorem MakeComment_docs (db : Mongo) (postID comment : String) (user : User) (now : String)
    (newID : IDtype) :
    (MakeComment db postID comment user now newID).1.docs = db.docs ∨
      ∃ id c, (MakeComment db postID comment user now newID).1.docs =
        (pushComment db.docs id c).1 := by
  unfold MakeComment
  cases ObjectIDFromHex postID with
  | none => left; rfl
  | some id =>
    have h1 := call_docs db
    generalize db.call = cl at h1 ⊢
    obtain ⟨failed, db1⟩ := cl
    simp only at h1 ⊢
    cases failed with
    | true => left; simpa using h1
    | false =>
      right
      refine ⟨id, ⟨now, ⟨user.Username, user.UserID⟩, comment, newID⟩, ?_⟩
      simp only [h1, Bool.false_eq_true, if_false]
      split <;> rfl

theorem DeleteComment_docs (db : Mongo) (postID commentID : String) :
    (DeleteComment db postID commentID).1.docs = db.docs ∨
      ∃ id cid, (DeleteComment db postID commentID).1.docs =
        (pullComment db.docs id cid).1 := by
  unfold DeleteComment
  cases ObjectIDFromHex postID with
  | none => left; rfl
  | some id =>
    cases ObjectIDFromHex commentID with
    | none => left; rfl
    | some cid =>
      have h1 := call_docs db
      generalize db.call = cl at h1 ⊢
      obtain ⟨failed, db1⟩ := cl
      simp only at h1 ⊢
      cases failed with
      | true => left; simpa using h1
      | false =>
        right
        refine ⟨id, cid, ?_⟩
        simp only [h1, Bool.false_eq_true, if_false]
        split <;> rfl

theorem DeletePost_docs (db : Mongo) (postID : String) :
    (DeletePost db postID).1.docs = db.docs ∨
      ∃ id, (DeletePost db postID).1.docs = (deleteOne db.docs id).1 := by
  unfold DeletePost
  cases ObjectIDFromHex postID with
  | none => left; rfl
  | some id =>
    have h1 := call_docs db
    generalize db.call = cl at h1 ⊢
    obtain ⟨failed, db1⟩ := cl
    simp only at h1 ⊢
    cases failed with
    | true => left; simpa using h1
    | false =>
      right
      refine ⟨id, ?_⟩
      simp only [h1, Bool.false_eq_true, if_false]
      split <;> rfl

theorem run_written (db : Mongo) (c : StorageCall) (h : ∀ d ∈ db.docs, RatingWritten d) :
    ∀ d ∈ (c.run db).docs, RatingWritten d := by
  cases c with
  | makePost newPost user now newID =>
    simp only [StorageCall.run]
    rcases MakePost_cases db newPost user now newID with ⟨_, e⟩ | ⟨_, _, e⟩
    · rw [e]; exact h
    · rw [e]
      intro d hd
      rcases List.mem_append.mp hd with hd | hd
      · exact h d hd
      · rw [List.mem_singleton.mp hd]
        exact ⟨List.nodup_nil, wrapInt_zero, fun hne => absurd rfl hne⟩
  | makeComment postID comment user now newID =>
    simp only [StorageCall.run]
    rcases MakeComment_docs db postID comment user now newID with e | ⟨id, c, e⟩
    · rw [e]; exact h
    · rw [e]
      intro d hd
      rcases pushComment_mem id c db.docs d hd with hd | ⟨x, hx, rfl⟩
      · exact h d hd
      · exact h x hx
  | deleteComment postID commentID =>
    simp only [StorageCall.run]
    rcases DeleteComment_docs db postID commentID with e | ⟨id, cid, e⟩
    · rw [e]; exact h
    · rw [e]
      intro d hd
      rcases pullComment_mem id cid db.docs d hd with hd | ⟨x, hx, rfl⟩
      · exact h d hd
      · exact h x hx
  | deletePost postID =>
    simp only [StorageCall.run]
    rcases DeletePost_docs db postID with e | ⟨id, e⟩
    · rw [e]; exact h
    · rw [e]
      intro d hd
      exact h d (deleteOne_mem id db.docs d hd)
  | getPost postID =>
    simp only [StorageCall.run]
    rcases GetPost_docs db postID with e | ⟨id, _, e⟩
    · rw [e]; exact h
    · rw [e]
      intro d hd
      rcases incViews_mem id db.docs d hd with hd | ⟨x, hx, rfl⟩
      · exact h d hd
      · exact h x hx
  | rate postID rating user =>
    simp only [StorageCall.run]
    rcases Rate_docs db postID rating user with e | ⟨id, p, _, hp, e⟩
    · rw [e]; exact h
    · rw [e]
      intro d hd
      rcases replaceOne_mem id _ db.docs d hd with hd | rfl
      · exact h d hd
      · exact rateDoc_written p rating user (h p (findOne_mem hp))
  | unrate postID user =>
    simp only [StorageCall.run]
    rcases Unrate_docs db postID user with e | ⟨id, p, _, hp, e⟩
    · rw [e]; exact h
    · rw [e]
      intro d hd
      rcases replaceOne_mem id _ db.docs d hd with hd | rfl
      · exact h d hd
      · exact unrateDoc_written p user (h p (findOne_mem hp))

theorem runStorage_written (calls : List StorageCall) :
    ∀ db : Mongo, (∀ d ∈ db.docs, RatingWritten d) →
      ∀ d ∈ (runStorage db calls).docs, RatingWritten d := by
  induction calls with
  | nil => intro db h; exact h
  | cons c cs ih =>
    intro db h
    exact ih (c.run db) (run_written db c h)

theorem rateDoc_same_vote (P : Post) (u : User) (v : Int) (hw : RatingWritten P)
    (hx : (⟨u.UserID, v⟩ : Vote) ∈ P.Votes) :
    rateDoc P v u = { P with ID := [] } := by
  rcases split_first u.UserID P.Votes with ha | ⟨a, x, b, hab, ha, hxu⟩
  · exact absurd rfl (ha _ hx)
  · have hnd := hw.1
    rw [hab] at hnd hx
    simp only [List.map_append, List.map_cons] at hnd
    have hxb : x.ID ∉ b.map Vote.ID := by
      have := (List.nodup_append.mp hnd).2.1
      exact (List.nodup_cons.mp this).1
    have hxv : x = ⟨u.UserID, v⟩ := by
      rcases List.mem_append.mp hx with h | h
      · exact absurd rfl (ha _ h)
      · rcases List.mem_cons.mp h with h | h
        · exact h.symm
        · exfalso
          apply hxb
          rw [hxu]
          exact List.mem_map.mpr ⟨_, h, rfl⟩
    have hne : P.Votes ≠ [] := by rw [hab]; simp
    have hup := hw.2.2 hne
    have hs : addInt P.Score (subInt v x.Vote) = P.Score := by
      rw [hxv]
      simp only [addInt, subInt, sub_self, wrapInt_zero, add_zero]
      exact hw.2.1
    have hlen : a.length + (b.length + 1) = P.Votes.length := by
      rw [hab]; simp
    have hxx : ({ x with Vote := v } : Vote) = x := by rw [hxv]
    rw [rateDoc_present P v u a x b hab ha hxu, hs, hlen, ← hup, hxx, ← hab]

theorem upvotedPost_written : RatingWritten upvotedPost := by
  refine ⟨by decide, by decide, fun _ => ?_⟩
  have h := upvotePercentage_exact 1 1 (le_refl 1) (by norm_num) (by norm_num)
  have e1 : upvotedPost.Score = 1 := rfl
  have e2 : upvotedPost.Votes.length = 1 := rfl
  have e3 : upvotedPost.UpvotePercentage = 50 := rfl
  rw [e1, e2, e3, h]
  norm_num

theorem upvoteSession_docs :
    runStorage ⟨[], [], 0⟩ (commentSession.take 2) = ⟨[upvotedPost], [], 3⟩ := by
  have e1 : MakePost ⟨[], [], 0⟩ textRequest userU1 "2021-01-01T00:00:00Z" sampleID =
      (⟨[freshPost], [], 1⟩, .ok sampleHex) := by decide
  have hdoc : rateDoc freshPost 1 userU1 = { upvotedPost with ID := [] } := by
    rw [rateDoc_absent freshPost 1 userU1 (by decide)]
    have hs : addInt freshPost.Score 1 = 1 := by decide
    have hl : freshPost.Votes.length + 1 = 1 := rfl
    have h := upvotePercentage_exact 1 1 (le_refl 1) (by norm_num) (by norm_num)
    rw [hs, hl, h]
    rfl
  have hS : (rateDoc freshPost 1 userU1).Score = 1 := by rw [hdoc]; rfl
  have e2 : Rate ⟨[freshPost], [], 1⟩ sampleHex 1 userU1 = (⟨[upvotedPost], [], 3⟩, none) := by
    rw [Rate_healthy_doc ⟨[freshPost], [], 1⟩ sampleHex 1 userU1 sampleID freshPost rfl
      (by decide) (by decide)
      (by
        intro h
        have hv := congrArg Post.Score h
        have hv' : (rateDoc freshPost 1 userU1).Score = freshPost.Score := hv
        rw [hS] at hv'
        exact absurd hv' (by decide))
      (by decide), hdoc]
    rfl
  show (Rate (MakePost ⟨[], [], 0⟩ textRequest userU1 "2021-01-01T00:00:00Z"
    sampleID).1 sampleHex 1 userU1).1 = ⟨[upvotedPost], [], 3⟩
  rw [e1]
  simp only
  rw [e2]

theorem commentSession_docs :
    runStorage ⟨[], [], 0⟩ commentSession = ⟨[commentedPost], [], 4⟩ := by
  have e3 : MakeComment ⟨[upvotedPost], [], 3⟩ sampleHex "first" userU2
      "2021-01-02T00:00:00Z" sampleCommentID = (⟨[commentedPost], [], 4⟩, none) := by decide
  show (MakeComment (runStorage ⟨[], [], 0⟩ (commentSession.take 2)) sampleHex "first" userU2
    "2021-01-02T00:00:00Z" sampleCommentID).1 = ⟨[commentedPost], [], 4⟩
  rw [upvoteSession_docs, e3]

/-- C18, refuted as stated: `commentedPost` is the post stored after `MakePost`, `Rate(+1)` by
its author `u1` and `MakeComment` by `u2`. In it `u1` has a vote with value `1` and the
percentage is 50 times the score; `Rate(1, u1)` computes a document equal to the stored one,
yet the error it returns is not `cannot replace post`: the driver cannot marshal the
replacement, whose comment has an id, and `ReplaceOne` returns its own error. -/
theorem repeat_vote_counterexample :
    (runStorage ⟨[], [], 0⟩ commentSession).docs = [commentedPost] ∧
      (⟨userU1.UserID, 1⟩ : Vote) ∈ commentedPost.Votes ∧
      commentedPost.UpvotePercentage = 50 * commentedPost.Score ∧
      ({ rateDoc commentedPost 1 userU1 with ID := sampleID } : Post) = commentedPost ∧
      Rate (runStorage ⟨[], [], 0⟩ commentSession) sampleHex 1 userU1 =
        (⟨[commentedPost], [], 5⟩, some StorageError.cannotMarshal) ∧
      (Rate (runStorage ⟨[], [], 0⟩ commentSession) sampleHex 1 userU1).2 ≠
        some StorageError.cannotReplacePost := by
  have hw : RatingWritten commentedPost := upvotedPost_written
  have hsame := rateDoc_same_vote commentedPost userU1 1 hw (by decide)
  have hR := (Rate_unmarshalled ⟨[commentedPost], [], 4⟩ sampleHex 1 userU1 sampleID
    commentedPost (by decide) (by decide) (by decide)).2.2 rfl
  rw [commentSession_docs]
  refine ⟨rfl, by decide, by decide, ?_, hR, ?_⟩
  · rw [hsame]; rfl
  · rw [hR]; decide

/-- C18, amended: repeating one's current vote cannot succeed, and the error depends on the
comments. In every store reached from an empty collection by storage operations (`MakePost`,
`MakeComment`, `DeleteComment`, `DeletePost`, `GetPost`, `Rate`, `Unrate`, whatever they
return), for every stored post in which user `u` has a vote with value `v`: `Rate(v, u)`
computes a document equal to the stored one in every field, the store is unchanged and `Rate`
returns an error. When no driver call fails, the error is `cannot replace post` for a post
without a comment id (`ReplaceOne` is the second call and reports `MatchedCount = 1`,
`ModifiedCount = 0`), and the driver's marshalling error, after the one call of `FindOne`, for
a post with a comment. -/
theorem repeat_vote_rejected (faults : List Bool) (issued : Nat) (calls : List StorageCall)
    (postID : String) (pid : IDtype) (P : Post) (u : User) (v : Int)
    (hpid : ObjectIDFromHex postID = some pid)
    (hP : findOne (runStorage ⟨[], faults, issued⟩ calls).docs pid = some P)
    (hx : (⟨u.UserID, v⟩ : Vote) ∈ P.Votes) :
    ({ rateDoc P v u with ID := pid } : Post) = P ∧
      (Rate (runStorage ⟨[], faults, issued⟩ calls) postID v u).1.docs =
        (runStorage ⟨[], faults, issued⟩ calls).docs ∧
      (Rate (runStorage ⟨[], faults, issued⟩ calls) postID v u).2 ≠ none ∧
      (marshals P = true → (runStorage ⟨[], faults, issued⟩ calls).faults = [] →
        (replaceOne (runStorage ⟨[], faults, issued⟩ calls).docs pid (rateDoc P v u)).2 =
            ⟨1, 0⟩ ∧
          Rate (runStorage ⟨[], faults, issued⟩ calls) postID v u =
            (⟨(runStorage ⟨[], faults, issued⟩ calls).docs, [],
              (runStorage ⟨[], faults, issued⟩ calls).calls + 2⟩,
              some StorageError.cannotReplacePost)) ∧
      (marshals P = false → (runStorage ⟨[], faults, issued⟩ calls).faults = [] →
        Rate (runStorage ⟨[], faults, issued⟩ calls) postID v u =
          (⟨(runStorage ⟨[], faults, issued⟩ calls).docs, [],
            (runStorage ⟨[], faults, issued⟩ calls).calls + 1⟩,
            some StorageError.cannotMarshal)) := by
  have hw : RatingWritten P :=
    runStorage_written calls ⟨[], faults, issued⟩ (by simp) P (findOne_mem hP)
  generalize runStorage ⟨[], faults, issued⟩ calls = db at hP ⊢
  have hsame := rateDoc_same_vote P u v hw hx
  have hr := replaceOne_same pid P db.docs hP
  have heq : ({ rateDoc P v u with ID := pid } : Post) = P := by
    rw [hsame]
    have hid := findOne_id hP
    cases P
    simp only at hid
    subst hid
    rfl
  cases hm : marshals P with
  | true =>
    obtain ⟨a1, a2, a3⟩ := Rate_same_marshalled db postID v u pid P hpid hP hsame hm
    refine ⟨heq, a1, a2, ?_, ?_⟩
    · intro _ hf
      exact ⟨by rw [hsame, hr], a3 hf⟩
    · intro h; exact absurd h (by simp)
  | false =>
    obtain ⟨a1, a2, a3⟩ := Rate_unmarshalled db postID v u pid P hpid hP hm
    refine ⟨heq, a1, a2, ?_, ?_⟩
    · intro h; exact absurd h (by simp)
    · intro _ hf; exact a3 hf

theorem repeat_vote_rejected_witness :
    ObjectIDFromHex sampleHex = some sampleID ∧
      findOne (runStorage ⟨[], [], 0⟩ (commentSession.take 2)).docs sampleID =
        some upvotedPost ∧
      (⟨userU1.UserID, 1⟩ : Vote) ∈ upvotedPost.Votes ∧
      marshals upvotedPost = true ∧
      (runStorage ⟨[], [], 0⟩ (commentSession.take 2)).faults = [] ∧
      Rate (runStorage ⟨[], [], 0⟩ (commentSession.take 2)) sampleHex 1 userU1 =
        (⟨(runStorage ⟨[], [], 0⟩ (commentSession.take 2)).docs, [],
          (runStorage ⟨[], [], 0⟩ (commentSession.take 2)).calls + 2⟩,
          some StorageError.cannotReplacePost) ∧
      findOne (runStorage ⟨[], [], 0⟩ commentSession).docs sampleID = some commentedPost ∧
      (⟨userU1.UserID, 1⟩ : Vote) ∈ commentedPost.Votes ∧
      marshals commentedPost = false ∧
      Rate (runStorage ⟨[], [], 0⟩ commentSession) sampleHex 1 userU1 =
        (⟨(runStorage ⟨[], [], 0⟩ commentSession).docs, [],
          (runStorage ⟨[], [], 0⟩ commentSession).calls + 1⟩,
          some StorageError.cannotMarshal) :=
  have h1 : ObjectIDFromHex sampleHex = some sampleID := by decide
  have e2 : runStorage ⟨[], [], 0⟩ (commentSession.take 2) = ⟨[upvotedPost], [], 3⟩ :=
    upvoteSession_docs
  have h2 : findOne (runStorage ⟨[], [], 0⟩ (commentSession.take 2)).docs sampleID =
      some upvotedPost := by rw [e2]; decide
  have h3 : (⟨userU1.UserID, 1⟩ : Vote) ∈ upvotedPost.Votes := by decide
  have h4 : marshals upvotedPost = true := by decide
  have h5 : (runStorage ⟨[], [], 0⟩ (commentSession.take 2)).faults = [] := by rw [e2]
  have h6 : findOne (runStorage ⟨[], [], 0⟩ commentSession).docs sampleID =
      some commentedPost := by rw [commentSession_docs]; decide
  have h7 : (⟨userU1.UserID, 1⟩ : Vote) ∈ commentedPost.Votes := by decide
  have h8 : marshals commentedPost = false := by decide
  have h9 : (runStorage ⟨[], [], 0⟩ commentSession).faults = [] := by
    rw [commentSession_docs]
  ⟨h1, h2, h3, h4, h5,
    ((repeat_vote_rejected [] 0 (commentSession.take 2) sampleHex sampleID upvotedPost userU1 1
      h1 h2 h3).2.2.2.1 h4 h5).2,
    h6, h7, h8,
    (repeat_vote_rejected [] 0 commentSession sampleHex sampleID commentedPost userU1 1
      h1 h6 h7).2.2.2.2 h8 h9⟩

end RedditClone
